import Mathlib

/-!
# Render.js: the matrix stack and the scene functions

A verification development of `src/Render.js`, a WebGL program that draws a 2D
landscape. The JavaScript globals become the fields of `Render.State`. The
matrices are JavaScript objects, so the state holds a heap of matrix objects and
the variables (`mMatrix`, the entries of `matrixStack`) hold references into it:
copying a matrix and sharing one are different things in this model, as they are
in the program. Numbers are elements of a linearly ordered field (exact
arithmetic; rounding of the 32-bit floats is outside the model).

The matrix library `mat4` (glMatrix) and the host's `Math` object are not part of
`src/`; what the program needs from them is modelled in the namespace `mat4` and
taken as the parameter `MathLib`. The host's frame scheduler is not part of
`src/` either; it is modelled as the list of pending callbacks in the state.
-/

namespace Render

/-! ## Numbers, vectors and matrices -/

/-- The functions and the constant of the host's `Math` object that the program
and the matrix library use: `Math.sin`, `Math.cos`, `Math.sqrt`, `Math.PI`. -/
structure MathLib (α : Type) where
  sin : α → α
  cos : α → α
  sqrt : α → α
  PI : α

/-- A JavaScript array of three numbers, `[x, y, z]`. -/
structure Vec3 (α : Type) where
  x : α
  y : α
  z : α
deriving DecidableEq, Repr

/-- The sixteen components of a 4×4 matrix. The entry in row `i` and column `j`
is component `4 * j + i` of the flat array (column-major, the layout
`gl.uniformMatrix4fv(_, false, _)` reads). -/
abbrev Mat4 (α : Type) := Matrix (Fin 4) (Fin 4) α

section Program

variable {α : Type}

namespace mat4

/-- Modelled from the spec: the matrix library `mat4` is not under `src/`.
The identity transform, the value `mat4.identity(dest)` stores in `dest`. -/
def identity [LinearOrderedField α] : Mat4 α := 1

/-- Modelled from the spec: the matrix library `mat4` is not under `src/`.
The matrix of the translation by `v`. -/
def translation [LinearOrderedField α] (v : Vec3 α) : Mat4 α :=
  !![1, 0, 0, v.x;
     0, 1, 0, v.y;
     0, 0, 1, v.z;
     0, 0, 0, 1]

/-- Modelled from the spec: the matrix library `mat4` is not under `src/`.
The matrix that scales the three axes by the components of `v`. -/
def scaling [LinearOrderedField α] (v : Vec3 α) : Mat4 α :=
  !![v.x, 0, 0, 0;
     0, v.y, 0, 0;
     0, 0, v.z, 0;
     0, 0, 0, 1]

/-- Modelled from the spec: the matrix library `mat4` is not under `src/`.
The matrix of the rotation by `angle` (radians, counter-clockwise seen from
the tip of the axis) about the direction of `axis`; the axis is normalised
first, with the square root of the host. -/
def rotation [LinearOrderedField α] (L : MathLib α) (angle : α) (axis : Vec3 α) : Mat4 α :=
  let len := L.sqrt (axis.x * axis.x + axis.y * axis.y + axis.z * axis.z)
  let x := axis.x / len
  let y := axis.y / len
  let z := axis.z / len
  let s := L.sin angle
  let c := L.cos angle
  let t := 1 - c
  !![x * x * t + c, x * y * t - z * s, x * z * t + y * s, 0;
     y * x * t + z * s, y * y * t + c, y * z * t - x * s, 0;
     z * x * t - y * s, z * y * t + x * s, z * z * t + c, 0;
     0, 0, 0, 1]

/-- Modelled from the spec: the matrix library `mat4` is not under `src/`.
The components `mat4.translate(t, v)` leaves in `t`: `t` composed with a
translation by `v` in the local frame of `t` (right-multiplication). -/
def translate [LinearOrderedField α] (t : Mat4 α) (v : Vec3 α) : Mat4 α :=
  t * translation v

/-- Modelled from the spec: the matrix library `mat4` is not under `src/`.
The components `mat4.scale(t, v)` leaves in `t`: `t` composed with a scaling of
the local axes by `v` (right-multiplication). -/
def scale [LinearOrderedField α] (t : Mat4 α) (v : Vec3 α) : Mat4 α :=
  t * scaling v

/-- Modelled from the spec: the matrix library `mat4` is not under `src/`.
The components `mat4.rotate(t, angle, axis)` leaves in `t`: `t` composed with a
rotation about `axis` by `angle` radians (right-multiplication); the angle is
not reduced modulo 2π. -/
def rotate [LinearOrderedField α] (L : MathLib α) (t : Mat4 α) (angle : α) (axis : Vec3 α) :
    Mat4 α :=
  t * rotation L angle axis

end mat4

/-- The vertex shader (`vertexShaderCode`):
`gl_Position = uMMatrix * vec4(aPosition, 0.0, 1.0)`. -/
def gl_Position [LinearOrderedField α] (uMMatrix : Mat4 α) (aPosition : α × α) : Fin 4 → α :=
  Matrix.mulVec uMMatrix ![aPosition.1, aPosition.2, 0, 1]

/-! ## The heap of matrix objects -/

/-- A reference to a matrix object: its index in the heap. -/
abbrev Ref := Nat

/-- The matrix objects allocated so far, in order of allocation. -/
abbrev Heap (α : Type) := List (Mat4 α)

namespace mat4

/-- Modelled from the spec: the matrix library `mat4` is not under `src/`.
The call `mat4.create(m)` allocates a new matrix object, copies the sixteen
components of `m` into it and returns the new reference. It has no result
when `m` is not a reference to a matrix object. -/
def create (heap : Heap α) (m : Ref) : Option (Heap α × Ref) :=
  match heap[m]? with
  | some M => some (heap ++ [M], heap.length)
  | none => none

end mat4

/-- The function `pushMatrix(stack, m)`: `var copy = mat4.create(m); stack.push(copy);`.
The result is the new heap and the new stack. -/
def pushMatrix (heap : Heap α) (stack : List Ref) (m : Ref) : Option (Heap α × List Ref) :=
  match mat4.create heap m with
  | some (heap1, copy) => some (heap1, stack ++ [copy])
  | none => none

/-- What a call of `popMatrix` leaves behind: the value it returns (`none` is
JavaScript's `undefined`), the stack, and the lines written by `console.log`. -/
structure PopResult where
  value : Option Ref
  stack : List Ref
  logged : List String
deriving DecidableEq, Repr

/-- The function `popMatrix(stack)`: `stack.pop()` when the stack is not empty,
otherwise a line on the console and no return value. -/
def popMatrix (stack : List Ref) : PopResult :=
  if stack.length > 0 then
    { value := stack.getLast?, stack := stack.dropLast, logged := [] }
  else
    { value := none, stack := stack, logged := ["Stack is empty. No matrix to pop!"] }

/-! ## The renderer -/

/-- The five shapes the program has vertex buffers for. -/
inductive PrimitiveKind where
  | Square
  | Triangle
  | Circle
  | RayFan
  | BladeFan
deriving DecidableEq, Repr

/-- The topologies the program passes to `gl.drawElements`. -/
inductive Topology where
  | TRIANGLES
  | LINE_LOOP
  | POINTS
  | LINE_STRIP
  | TRIANGLE_FAN
deriving DecidableEq, Repr

/-- One call of a primitive's draw function, as the renderer sees it: the shape,
the colour and the sixteen components of the transform given to the uniforms,
and the topology of each `gl.drawElements` call it issued. -/
structure Rendered (α : Type) where
  kind : PrimitiveKind
  color : Option (List α)
  transform : Mat4 α
  calls : List Topology

/-- The function `drawSquare(color, mMatrix)`, under the display mode `mode`. -/
def drawSquare (mode : String) (color : Option (List α)) (mMatrix : Mat4 α) : Rendered α :=
  { kind := .Square, color := color, transform := mMatrix,
    calls :=
      if mode = "Solid" then [.TRIANGLES]
      else if mode = "Wireframe" then [.LINE_LOOP]
      else if mode = "Point" then [.POINTS]
      else [] }

/-- The function `drawTriangle(color, mMatrix)`, under the display mode `mode`. -/
def drawTriangle (mode : String) (color : Option (List α)) (mMatrix : Mat4 α) : Rendered α :=
  { kind := .Triangle, color := color, transform := mMatrix,
    calls :=
      if mode = "Solid" then [.TRIANGLES]
      else if mode = "Wireframe" then [.LINE_LOOP]
      else if mode = "Point" then [.POINTS]
      else [] }

/-- The function `drawCircle(color, mMatrix)`, under the display mode `mode`. -/
def drawCircle (mode : String) (color : Option (List α)) (mMatrix : Mat4 α) : Rendered α :=
  { kind := .Circle, color := color, transform := mMatrix,
    calls :=
      if mode = "Solid" then [.TRIANGLES]
      else if mode = "Wireframe" then [.LINE_LOOP]
      else if mode = "Point" then [.POINTS]
      else [] }

/-- The function `drawRays(color, mMatrix)`: points in point view, lines in
every other mode. -/
def drawRays (mode : String) (color : Option (List α)) (mMatrix : Mat4 α) : Rendered α :=
  { kind := .RayFan, color := color, transform := mMatrix,
    calls := if mode = "Point" then [.POINTS] else [.LINE_STRIP] }

/-- The function `drawFanBlades(color, mMatrix)`, under the display mode `mode`. -/
def drawFanBlades (mode : String) (color : Option (List α)) (mMatrix : Mat4 α) : Rendered α :=
  { kind := .BladeFan, color := color, transform := mMatrix,
    calls :=
      if mode = "Solid" then [.TRIANGLE_FAN]
      else if mode = "Wireframe" then [.LINE_LOOP]
      else if mode = "Point" then [.POINTS]
      else [] }

/-- The draw function of each shape. -/
def drawPrimitive (k : PrimitiveKind) (mode : String) (color : Option (List α))
    (mMatrix : Mat4 α) : Rendered α :=
  match k with
  | .Square => drawSquare mode color mMatrix
  | .Triangle => drawTriangle mode color mMatrix
  | .Circle => drawCircle mode color mMatrix
  | .RayFan => drawRays mode color mMatrix
  | .BladeFan => drawFanBlades mode color mMatrix

/-! ## The program state and its statements -/

/-- The globals of the program, the heap of matrix objects, and what the
program has done to its surroundings (console, renderer, frame scheduler). -/
structure State (α : Type) where
  /-- The matrix objects. -/
  heap : Heap α
  /-- The global `matrixStack`: references, the most recent push last. -/
  matrixStack : List Ref
  /-- The global `mMatrix`; `none` is `undefined`. -/
  mMatrix : Option Ref
  /-- The global `color`; `none` is `undefined`. -/
  color : Option (List α)
  /-- The global `mode`. -/
  mode : String
  translationX : α
  direction : α
  rotationAngle : α
  /-- The global `animation`: the handle of the last requested frame. -/
  animation : Option Nat
  /-- The lines written by `console.log`. -/
  console : List String
  /-- The calls of the primitives' draw functions, in order. -/
  rendered : List (Rendered α)
  /-- The handles of the frame callbacks the host has pending. -/
  pending : List Nat
  /-- The handle the host hands out next. -/
  nextHandle : Nat

/-- The colour argument of a draw call: the global `color`, or a local
variable of the calling function with the value given. -/
inductive ColorArg (α : Type) where
  | global
  | loc (c : List α)

/-- The statements the scene functions are made of. -/
inductive Stmt (α : Type) where
  /-- The statement `mat4.identity(mMatrix);`. -/
  | identity
  /-- The statement `pushMatrix(matrixStack, mMatrix);`. -/
  | pushMatrix
  /-- The statement `mMatrix = popMatrix(matrixStack);`. -/
  | popMatrix
  /-- The statement `mMatrix = mat4.translate(mMatrix, v);`. -/
  | translate (v : Vec3 α)
  /-- The statement `mMatrix = mat4.scale(mMatrix, v);`. -/
  | scale (v : Vec3 α)
  /-- The statement `mMatrix = mat4.rotate(mMatrix, angle, axis);`. -/
  | rotate (angle : α) (axis : Vec3 α)
  /-- The statement `color = c;`. -/
  | setColor (c : List α)
  /-- A call `drawSquare(color, mMatrix);` or of another primitive. -/
  | draw (k : PrimitiveKind) (c : ColorArg α)

/-- Modelled from the spec: the matrix library `mat4` is not under `src/`.
A call such as `mMatrix = mat4.translate(mMatrix, v)` or `mat4.identity(mMatrix)`:
the library writes the new components into the object `mMatrix` refers to and
returns the same reference (the source relies on this where it discards the
result of `mat4.identity`); `f` gives the new components from the old ones.
There is no result when `mMatrix` is `undefined`. -/
def State.updateCurrent (s : State α) (f : Mat4 α → Mat4 α) : Option (State α) :=
  match s.mMatrix with
  | none => none
  | some r =>
    match s.heap[r]? with
    | none => none
    | some M => some { s with heap := s.heap.set r (f M) }

/-- One statement, run in state `s`. The result is `none` when the frame does
not get past the statement: a matrix operation or a draw on `undefined` throws.
A push of `undefined` is counted with them (in every scene function the next
matrix operation on `mMatrix` follows it with nothing but an assignment to
`color` in between). -/
def step [LinearOrderedField α] (L : MathLib α) : Stmt α → State α → Option (State α)
  | .identity, s => s.updateCurrent (fun _ => mat4.identity)
  | .translate v, s => s.updateCurrent (fun M => mat4.translate M v)
  | .scale v, s => s.updateCurrent (fun M => mat4.scale M v)
  | .rotate angle axis, s => s.updateCurrent (fun M => mat4.rotate L M angle axis)
  | .pushMatrix, s =>
    match s.mMatrix with
    | none => none
    | some m =>
      match pushMatrix s.heap s.matrixStack m with
      | none => none
      | some (heap1, stack1) => some { s with heap := heap1, matrixStack := stack1 }
  | .popMatrix, s =>
    let res := popMatrix s.matrixStack
    some { s with mMatrix := res.value, matrixStack := res.stack,
                  console := s.console ++ res.logged }
  | .setColor c, s => some { s with color := some c }
  | .draw k c, s =>
    match s.mMatrix with
    | none => none
    | some r =>
      match s.heap[r]? with
      | none => none
      | some M =>
        let col := match c with
          | .global => s.color
          | .loc c1 => some c1
        some { s with rendered := s.rendered ++ [drawPrimitive k s.mode col M] }

/-- A sequence of statements, run in order from state `s`. -/
def run [LinearOrderedField α] (L : MathLib α) : List (Stmt α) → State α → Option (State α)
  | [], s => some s
  | st :: rest, s =>
    match step L st s with
    | none => none
    | some s1 => run L rest s1

/-! ## The scene functions

Each function is the sequence of its statements, in source order. A call of
another scene function is the sequence of that function; a parameter the
caller leaves out is passed with its default value. -/

section Scene

variable [LinearOrderedField α]

/-- The function `drawSky()`. -/
def drawSky : List (Stmt α) :=
  [ .identity,
    .pushMatrix,
    .setColor [0.0, 0.0, 0.0, 1.0],
    .translate ⟨0.0, 0.6, 0⟩,
    .scale ⟨3.0, 1.2, 1.0⟩,
    .draw .Square .global,
    .popMatrix ]

/-- The function `drawSun(rotationAngle)`. -/
def drawSun (rotationAngle : α) : List (Stmt α) :=
  [ .identity,
    .pushMatrix,
    .setColor [1.0, 1.0, 1.0, 1.0],
    .translate ⟨-0.68, 0.84, 0⟩,
    .scale ⟨0.09, 0.09, 1.0⟩,
    .draw .Circle .global,
    .popMatrix,

    .pushMatrix,
    .translate ⟨-0.68, 0.84, 0⟩,
    .scale ⟨0.135, 0.135, 1.0⟩,
    .rotate rotationAngle ⟨0, 0, 1⟩,
    .draw .RayFan .global,
    .popMatrix ]

/-- The function `drawCloud()`. -/
def drawCloud : List (Stmt α) :=
  [ .identity,
    .pushMatrix,
    .setColor [0.7, 0.7, 0.7, 1.0],
    .translate ⟨-0.82, 0.55, 0⟩,
    .scale ⟨0.23, 0.13, 1.0⟩,
    .draw .Circle .global,
    .popMatrix,
    .setColor [0.9, 0.9, 0.9, 1.0],
    .pushMatrix,
    .translate ⟨-0.6, 0.514, 0⟩,
    .scale ⟨0.17, 0.095, 1.0⟩,
    .draw .Circle .global,
    .popMatrix,
    .setColor [0.7, 0.7, 0.7, 1.0],
    .pushMatrix,
    .translate ⟨-0.39, 0.515, 0⟩,
    .scale ⟨0.09, 0.055, 1.0⟩,
    .draw .Circle .global,
    .popMatrix ]

/-- The function `drawStar(tx, ty, s_x, s_y, angle, size)`. Its `color` is a
local variable. -/
def drawStar (L : MathLib α) (tx ty s_x s_y angle size : α) : List (Stmt α) :=
  let color : List α := [1.0, 1.0, 1.0, 1.0]
  let s_x := s_x * size
  let s_y := s_y * size
  let angles : Fin 4 → α := ![0, L.PI / 2, L.PI, L.PI * 3 / 2]
  [ .identity,
    .pushMatrix,
    .translate ⟨tx, ty, 0⟩,
    .rotate (angle + angles 0) ⟨0, 0, 1⟩,
    .scale ⟨s_x, s_y, 1.0⟩,
    .draw .Triangle (.loc color),
    .popMatrix,

    .identity,
    .pushMatrix,
    .translate ⟨tx - 0.8 * s_x, ty - 0.5 * s_y, 0⟩,
    .rotate (angle + angles 1) ⟨0, 0, 1⟩,
    .scale ⟨s_x, s_y, 1.0⟩,
    .draw .Triangle (.loc color),
    .popMatrix,

    .identity,
    .pushMatrix,
    .translate ⟨tx, ty - s_y, 0⟩,
    .rotate (angle + angles 2) ⟨0, 0, 1⟩,
    .scale ⟨s_x, s_y, 1.0⟩,
    .draw .Triangle (.loc color),
    .popMatrix,

    .identity,
    .pushMatrix,
    .translate ⟨tx + 0.8 * s_x, ty - 0.5 * s_y, 0⟩,
    .rotate (angle + angles 3) ⟨0, 0, 1⟩,
    .scale ⟨s_x, s_y, 1.0⟩,
    .draw .Triangle (.loc color),
    .popMatrix ]

/-- The function `drawMountain(t_x1, t_y1, s_x, s_y, t_x2 = 0, t_y2 = 0, single = false)`. -/
def drawMountain (t_x1 t_y1 s_x s_y t_x2 t_y2 : α) (single : Bool) : List (Stmt α) :=
  [ .identity,
    .pushMatrix,
    .setColor [0.57, 0.36, 0.15, 1.0] ] ++
  (if single then [ .setColor [0.65, 0.46, 0.16, 1.0] ] else []) ++
  [ .translate ⟨t_x1, t_y1, 0⟩,
    .scale ⟨s_x, s_y, 1.0⟩,
    .draw .Triangle .global,
    .popMatrix ] ++
  (if !single then
    [ .pushMatrix,
      .setColor [0.65, 0.46, 0.16, 1.0],
      .translate ⟨t_x2, t_y2, 0⟩,
      .rotate 6.5 ⟨0, 0, 1⟩,
      .scale ⟨s_x, s_y, 1.0⟩,
      .draw .Triangle .global,
      .popMatrix ]
  else [])

/-- The function `drawGround()`. -/
def drawGround : List (Stmt α) :=
  [ .identity,
    .pushMatrix,
    .setColor [0.15, 0.61, 0, 0.7],
    .translate ⟨0.0, -0.6, 0⟩,
    .scale ⟨3.0, 1.2, 1.0⟩,
    .draw .Square .global,
    .popMatrix ]

/-- The function `drawLines(move = false, x = 0, y = 0)`. -/
def drawLines (move : Bool) (x y : α) : List (Stmt α) :=
  [ .identity ] ++
  (if move then [ .translate ⟨x, y, 0⟩ ] else []) ++
  [ .pushMatrix,
    .setColor [0.9, 0.9, 0.9, 0.8],
    .translate ⟨-0.7, -0.19, 0⟩,
    .rotate 4.71 ⟨0, 0, 1⟩,
    .scale ⟨0.003, 0.4, 1.0⟩,
    .draw .Square .global,
    .popMatrix ]

/-- The function `drawRiver()`. -/
def drawRiver : List (Stmt α) :=
  [ .identity,
    .pushMatrix,
    .setColor [0, 0, 0.8, 0.8],
    .translate ⟨0.0, -0.14, 0⟩,
    .scale ⟨3.0, 0.23, 1.0⟩,
    .draw .Square .global,
    .popMatrix ] ++
  drawLines false 0 0 ++
  drawLines true 0.85 0.1 ++
  drawLines true 1.5 (-0.06)

/-- The function `drawRoad()`. -/
def drawRoad : List (Stmt α) :=
  [ .identity,
    .pushMatrix,
    .setColor [0.30, 0.40, 0, 0.9],
    .translate ⟨0.568, -0.8, 0⟩,
    .rotate 7.2 ⟨0, 0, 1⟩,
    .scale ⟨1.6, 2.1, 1⟩,
    .draw .Triangle .global,
    .popMatrix ]

/-- The function `drawTrees(move = false, t_x = 0, t_y = 0, s_x = 0, s_y = 0)`. -/
def drawTrees (move : Bool) (t_x t_y s_x s_y : α) : List (Stmt α) :=
  [ .identity ] ++
  (if move then
    [ .translate ⟨t_x, t_y, 0⟩,
      .scale ⟨s_x, s_y, 0⟩ ]
  else []) ++
  [ .pushMatrix,
    .setColor [0.30, 0.41, 0, 0.9],
    .translate ⟨0.55, 0.45, 0⟩,
    .scale ⟨0.35, 0.3, 1.0⟩,
    .draw .Triangle .global,
    .popMatrix,

    .pushMatrix,
    .setColor [0.38, 0.51, 0, 0.9],
    .translate ⟨0.55, 0.5, 0⟩,
    .scale ⟨0.375, 0.3, 1.0⟩,
    .draw .Triangle .global,
    .popMatrix,

    .pushMatrix,
    .setColor [0.45, 0.60, 0, 0.9],
    .translate ⟨0.55, 0.55, 0⟩,
    .scale ⟨0.4, 0.3, 1.0⟩,
    .draw .Triangle .global,
    .popMatrix,

    .pushMatrix,
    .setColor [0.57, 0.36, 0.15, 1.0],
    .translate ⟨0.55, 0.14, 0⟩,
    .scale ⟨0.04, 0.33, 1.0⟩,
    .draw .Square .global,
    .popMatrix ]

/-- The function `drawBoat(translationX, tx, ty, s, cl = [1, 0, 0, 0.9])`. -/
def drawBoat (translationX tx ty s : α) (cl : List α) : List (Stmt α) :=
  [ .identity,
    .translate ⟨translationX / s - (1 - s) * 0.3, 0, 0⟩,

    .pushMatrix,
    .setColor [0.83, 0.83, 0.83, 1],
    .translate ⟨tx, ty - 0.15 * s, 0⟩,
    .scale ⟨0.18 * s, 0.06 * s, 1.0⟩,
    .draw .Square .global,
    .popMatrix,

    .pushMatrix,
    .translate ⟨tx - 0.09 * s, ty - 0.15 * s, 0⟩,
    .rotate (-3.15) ⟨0, 0, 1⟩,
    .scale ⟨0.1 * s, 0.06 * s, 1.0⟩,
    .draw .Triangle .global,
    .popMatrix,

    .pushMatrix,
    .translate ⟨tx + 0.09 * s, ty - 0.15 * s, 0⟩,
    .rotate (-3.15) ⟨0, 0, 1⟩,
    .scale ⟨0.1 * s, 0.06 * s, 1.0⟩,
    .draw .Triangle .global,
    .popMatrix,

    .pushMatrix,
    .setColor [0, 0, 0, 1.0],
    .translate ⟨tx + 0.01 * s, ty + 0.006 * s, 0⟩,
    .scale ⟨0.01 * s, 0.25 * s, 1.0⟩,
    .draw .Square .global,
    .popMatrix,

    .pushMatrix,
    .setColor [0, 0, 0, 1.0],
    .translate ⟨tx - 0.03 * s, ty - 0.01 * s, 0⟩,
    .rotate 5.9 ⟨0, 0, 1⟩,
    .scale ⟨0.005 * s, 0.23 * s, 1.0⟩,
    .draw .Square .global,
    .popMatrix,

    .pushMatrix,
    .setColor cl,
    .translate ⟨tx + 0.115 * s, ty + 0.006 * s, 0⟩,
    .rotate 4.72 ⟨0, 0, 1⟩,
    .scale ⟨0.2 * s, 0.2 * s, 1.0⟩,
    .draw .Triangle .global,
    .popMatrix ]

/-- The function `drawFan(rotationAngle, move = false, t_x = 0, t_y = 0, sc = 1)`. -/
def drawFan (rotationAngle : α) (move : Bool) (t_x t_y sc : α) : List (Stmt α) :=
  [ .identity ] ++
  (if move then [ .translate ⟨t_x, t_y, 0⟩ ] else []) ++
  [ .pushMatrix,
    .setColor [0.3, 0, 0, 1.0],
    .translate ⟨0.7 * sc, -0.25 * sc, 0⟩,
    .scale ⟨0.03 * sc, 0.55 * sc, 1.0⟩,
    .draw .Square .global,
    .popMatrix,

    .pushMatrix,
    .setColor [0.8, 0.65, 0, 1],
    .translate ⟨0.7 * sc, 0.06 * sc, 0⟩,
    .scale ⟨0.2 * sc, 0.2 * sc, 1.0⟩,
    .rotate rotationAngle ⟨0, 0, 1⟩,
    .draw .BladeFan .global,
    .popMatrix,

    .pushMatrix,
    .setColor [0, 0, 0, 1],
    .translate ⟨0.7 * sc, 0.053 * sc, 0⟩,
    .scale ⟨0.03 * sc, 0.03 * sc, 1.0⟩,
    .draw .Circle .global,
    .popMatrix ]

/-- The function `drawBush(move = false, t_x = 0, t_y = 0, s = 0)`. -/
def drawBush (move : Bool) (t_x t_y s : α) : List (Stmt α) :=
  [ .identity ] ++
  (if move then
    [ .translate ⟨t_x, t_y, 0⟩,
      .scale ⟨s, s, 0⟩ ]
  else []) ++
  [ .pushMatrix,
    .setColor [0, 0.7, 0, 0.9],
    .translate ⟨-1, -0.55, 0⟩,
    .scale ⟨0.075, 0.055, 1.0⟩,
    .draw .Circle .global,
    .popMatrix,

    .pushMatrix,
    .setColor [0, 0.4, 0, 0.9],
    .translate ⟨-0.72, -0.55, 0⟩,
    .scale ⟨0.07, 0.05, 1.0⟩,
    .draw .Circle .global,
    .popMatrix,

    .pushMatrix,
    .setColor [0, 0.51, 0, 0.9],
    .translate ⟨-0.86, -0.53, 0⟩,
    .scale ⟨0.13, 0.09, 1.0⟩,
    .draw .Circle .global,
    .popMatrix ]

/-- The function `drawHouse()`. -/
def drawHouse : List (Stmt α) :=
  [ .identity,

    .pushMatrix,
    .setColor [0.8, 0.3, 0.1, 1],
    .translate ⟨-0.57, -0.29, 0⟩,
    .scale ⟨0.4, 0.2, 1.0⟩,
    .draw .Square .global,
    .popMatrix,

    .pushMatrix,
    .translate ⟨-0.77, -0.29, 0⟩,
    .rotate 6.285 ⟨0, 0, 1⟩,
    .scale ⟨0.25, 0.2, 1.0⟩,
    .draw .Triangle .global,
    .popMatrix,

    .pushMatrix,
    .translate ⟨-0.37, -0.29, 0⟩,
    .rotate 6.285 ⟨0, 0, 1⟩,
    .scale ⟨0.25, 0.2, 1.0⟩,
    .draw .Triangle .global,
    .popMatrix,

    .pushMatrix,
    .setColor [0.83, 0.83, 0.83, 1],
    .translate ⟨-0.57, -0.515, 0⟩,
    .scale ⟨0.5, 0.25, 1.0⟩,
    .draw .Square .global,
    .popMatrix,

    .pushMatrix,
    .setColor [0.8, 0.55, 0.1, 0.9],
    .translate ⟨-0.715, -0.46, 0⟩,
    .scale ⟨0.07, 0.07, 1.0⟩,
    .draw .Square .global,
    .popMatrix,

    .pushMatrix,
    .translate ⟨-0.425, -0.46, 0⟩,
    .scale ⟨0.07, 0.07, 1.0⟩,
    .draw .Square .global,
    .popMatrix,

    .pushMatrix,
    .translate ⟨-0.57, -0.55, 0⟩,
    .scale ⟨0.08, 0.18, 1.0⟩,
    .draw .Square .global,
    .popMatrix ]

/-- The function `drawWheel(move = false, t_x = 0)`. -/
def drawWheel (move : Bool) (t_x : α) : List (Stmt α) :=
  [ .identity ] ++
  (if move then [ .translate ⟨t_x, 0, 0⟩ ] else []) ++
  [ .pushMatrix,
    .setColor [0, 0, 0, 1],
    .translate ⟨-0.652, -0.88, 0⟩,
    .scale ⟨0.055, 0.055, 1.0⟩,
    .draw .Circle .global,
    .popMatrix,

    .pushMatrix,
    .setColor [0.51, 0.51, 0.51, 1],
    .translate ⟨-0.652, -0.88, 0⟩,
    .scale ⟨0.04, 0.04, 1.0⟩,
    .draw .Circle .global,
    .popMatrix ]

/-- The function `drawCar()`. -/
def drawCar : List (Stmt α) :=
  [ .identity,
    .setColor [0, 0, 1, 0.9],
    .pushMatrix,
    .translate ⟨-0.501, -0.73, 0⟩,
    .rotate 6.285 ⟨0, 0, 1⟩,
    .scale ⟨0.18, 0.10, 1.0⟩,
    .draw .Circle .global,
    .popMatrix,

    .pushMatrix,
    .setColor [0.9, 0.9, 0.9, 1],
    .translate ⟨-0.5, -0.73, 0⟩,
    .scale ⟨0.198, 0.10, 1.0⟩,
    .draw .Square .global,
    .popMatrix ] ++
  drawWheel false 0 ++
  drawWheel true 0.3 ++
  [ .identity,
    .pushMatrix,
    .setColor [0, 0, 0.8, 0.7],
    .translate ⟨-0.5, -0.8, 0⟩,
    .scale ⟨0.429, 0.10, 1.0⟩,
    .draw .Square .global,
    .popMatrix,

    .pushMatrix,
    .translate ⟨-0.285, -0.8, 0⟩,
    .rotate 6.285 ⟨0, 0, 1⟩,
    .scale ⟨0.154, 0.10, 1.0⟩,
    .draw .Triangle .global,
    .popMatrix,

    .pushMatrix,
    .translate ⟨-0.716, -0.8, 0⟩,
    .rotate 6.285 ⟨0, 0, 1⟩,
    .scale ⟨0.154, 0.10, 1.0⟩,
    .draw .Triangle .global,
    .popMatrix ]

/-! ## The frame -/

/-- The constant `translationSpeed`. -/
def translationSpeed : α := 0.003

/-- The constant `translationRange`. -/
def translationRange : α := 0.7

/-- The constant `rotationSpeed`. -/
def rotationSpeed : α := 0.01

/-- The calls of the scene functions in `animate()`, from `drawSky()` to
`drawCar()`, with the values of `rotationAngle` and `translationX` at that
point. -/
def animateDraws (L : MathLib α) (rotationAngle translationX : α) : List (Stmt α) :=
  drawSky ++
  drawSun rotationAngle ++
  drawCloud ++
  drawStar L 0.4 0.8 0.015 0.025 0 1.2 ++
  drawStar L 0.55 0.95 0.012 0.02 0 0.8 ++
  drawStar L (-0.15) 0.75 0.01 0.015 0 1.2 ++
  drawStar L 0.02 0.65 0.005 0.01 0 1.7 ++
  drawStar L (-0.03) 0.5 0.003 0.006 0 2.0 ++
  drawMountain (-0.69) 0.097 1.1 0.25 (-0.665) 0.1 false ++
  drawMountain (-0.054) 0.1 1.5 0.5 0.00 0.106 false ++
  drawMountain 0.83 0.075 0.8 0.2 (-0.545) (-0.005) true ++
  drawGround ++
  drawRoad ++
  drawRiver ++
  drawTrees true 0.35 0.01 0.86 0.85 ++
  drawTrees true 0 0.005 1 1 ++
  drawTrees true (-0.15) 0.01 0.8 0.8 ++
  drawBoat translationX 0.08 0.055 0.75 [0.2, 0.2, 0.5, 0.9] ++
  drawBoat translationX 0 0 1 [1, 0, 0, 0.9] ++
  drawFan (-1 * rotationAngle) true 0.0 0.045 0.7 ++
  drawFan (-1 * rotationAngle) true (-0.04) 0.05 1 ++
  drawBush false 0 0 0 ++
  drawBush true 0.7 0.00 1.02 ++
  drawBush true 1.46 (-0.18) 1.6 ++
  drawBush true 2.15 0.25 1.3 ++
  drawHouse ++
  drawCar

/-- Modelled from the spec: the host's frame scheduler is not under `src/`.
The call `window.requestAnimationFrame(animate)` adds a pending callback and
returns its handle. -/
def requestAnimationFrame (s : State α) : Nat × State α :=
  (s.nextHandle,
   { s with pending := s.pending ++ [s.nextHandle], nextHandle := s.nextHandle + 1 })

/-- The first statements of `animate()`, which update the animation
parameters: `rotationAngle += rotationSpeed;`,
`translationX += translationSpeed * direction;` and
`if (Math.abs(translationX) > translationRange) { direction *= -1; }`. -/
def animateUpdate (s : State α) : State α :=
  let s1 := { s with rotationAngle := s.rotationAngle + rotationSpeed }
  let s2 := { s1 with translationX := s1.translationX + translationSpeed * s1.direction }
  if |s2.translationX| > translationRange then
    { s2 with direction := s2.direction * -1 }
  else s2

/-- The function `animate()` inside `drawScene()`: one frame. The parameters
are updated, the scene functions are called with the updated values, and the
next frame is requested: `animation = window.requestAnimationFrame(animate);`. -/
def animate (L : MathLib α) (s : State α) : Option (State α) :=
  let s3 := animateUpdate s
  match run L (animateDraws L s3.rotationAngle s3.translationX) s3 with
  | none => none
  | some s4 =>
    let (handle, s5) := requestAnimationFrame s4
    some { s5 with animation := some handle }

/-- The state the script sets up when it is loaded: `matrixStack = []`,
`mMatrix = mat4.create()` (a new matrix object, with the components `fresh`),
`translationX = 0`, `direction = 1`, `rotationAngle = 0.0`, `mode = 'Solid'`,
`color` and `animation` undefined, nothing logged, drawn or scheduled. -/
def State.init (fresh : Mat4 α) : State α :=
  { heap := [fresh], matrixStack := [], mMatrix := some 0, color := none, mode := "Solid",
    translationX := 0, direction := 1, rotationAngle := 0.0, animation := none,
    console := [], rendered := [], pending := [], nextHandle := 1 }

/-- Modelled from the spec: the host's frame scheduler is not under `src/`.
The call `window.cancelAnimationFrame(handle)` removes the pending callback
with that handle. -/
def cancelAnimationFrame (s : State α) (handle : Nat) : State α :=
  { s with pending := s.pending.filter (fun h => h != handle) }

/-- The function `drawScene()`: `if (animation) { window.cancelAnimationFrame(animation); }`
and then `animate();`. A handle is truthy when it is defined and not 0. The
calls that set the viewport and clear the canvas are not part of the state. -/
def drawScene (L : MathLib α) (s : State α) : Option (State α) :=
  let s1 := match s.animation with
    | some handle => if handle ≠ 0 then cancelAnimationFrame s handle else s
    | none => s
  animate L s1

/-- The function `webGLStart()`: after the set-up of the context, the shaders
and the buffers (not part of the state), `drawScene();`. -/
def webGLStart (L : MathLib α) (s : State α) : Option (State α) :=
  drawScene L s

/-- The function `changeView(view)`: `mode = view; drawScene();`. -/
def changeView (L : MathLib α) (view : String) (s : State α) : Option (State α) :=
  drawScene L { s with mode := view }

/-- Modelled from the spec: the host's frame scheduler is not under `src/`.
The host fires the pending callback with the handle `handle`: the callback is
no longer pending, and it runs `animate()`. A handle that is not pending is
not fired. -/
def fireFrame (L : MathLib α) (handle : Nat) (s : State α) : Option (State α) :=
  if handle ∈ s.pending then
    animate L { s with pending := s.pending.filter (fun h => h != handle) }
  else none

end Scene

end Program

/-! ## Specification vocabulary -/

section Vocabulary

variable {α : Type}

/-- The components of the current transform: those of the object `mMatrix`
refers to, `none` when `mMatrix` is `undefined`. -/
def State.current (s : State α) : Option (Mat4 α) :=
  match s.mMatrix with
  | none => none
  | some r => s.heap[r]?

/-- The references of the state are in order: the entries of the stack are
distinct matrix objects, and `mMatrix`, when defined, refers to a matrix object
that is no entry of the stack. The initial state is so, and every statement
keeps it so. -/
def State.Separate (s : State α) : Prop :=
  s.matrixStack.Nodup ∧ (∀ c ∈ s.matrixStack, c < s.heap.length) ∧
    ∀ r, s.mMatrix = some r → r < s.heap.length ∧ r ∉ s.matrixStack

/-- The heap after the matrices `ws` have been written, in order, into the
object `m`. -/
def writes (heap : Heap α) (m : Ref) (ws : List (Mat4 α)) : Heap α :=
  ws.foldl (fun h w => h.set m w) heap

/-- Whether a statement changes the components of the current transform in
place: `mat4.identity`, `mat4.translate`, `mat4.scale`, `mat4.rotate`. -/
def Stmt.isTransform : Stmt α → Bool
  | .identity => true
  | .translate _ => true
  | .scale _ => true
  | .rotate _ _ => true
  | _ => false

/-- Whether a statement is one of the operations of a push/pop sequence:
a push, a pop, a translate, a scale or a rotate. -/
def Stmt.isStackOp : Stmt α → Bool
  | .pushMatrix => true
  | .popMatrix => true
  | .translate _ => true
  | .scale _ => true
  | .rotate _ _ => true
  | _ => false

/-- Whether the pushes and pops of `p` are properly nested when `d` pushes are
open at its start: no pop without an open push, and none open at the end. -/
def balancedFrom : Nat → List (Stmt α) → Bool
  | d, [] => d == 0
  | d, st :: p =>
    match st with
    | .pushMatrix => balancedFrom (d + 1) p
    | .popMatrix =>
      match d with
      | 0 => false
      | d1 + 1 => balancedFrom d1 p
    | _ => balancedFrom d p

/-- Whether `p` is properly nested from depth `d` and every statement that
changes the current transform stands inside a push/pop pair. -/
def guardedFrom : Nat → List (Stmt α) → Bool
  | d, [] => d == 0
  | d, st :: p =>
    match st with
    | .pushMatrix => guardedFrom (d + 1) p
    | .popMatrix =>
      match d with
      | 0 => false
      | d1 + 1 => guardedFrom d1 p
    | st => (!st.isTransform || d != 0) && guardedFrom d p

/-- Whether `p` is a sequence of leaves: pushes and pops alternate, starting
inside a pair when `inside` is true, and no pair is open at the end. -/
def flatFrom : Bool → List (Stmt α) → Bool
  | b, [] => !b
  | b, st :: p =>
    match st with
    | .pushMatrix => !b && flatFrom true p
    | .popMatrix => b && flatFrom false p
    | _ => flatFrom b p

/-- The components a statement leaves in the current transform, from the
components before it; statements that are no matrix operation leave them. -/
def Stmt.apply [LinearOrderedField α] (L : MathLib α) : Stmt α → Mat4 α → Mat4 α
  | .identity, _ => mat4.identity
  | .translate v, M => mat4.translate M v
  | .scale v, M => mat4.scale M v
  | .rotate angle axis, M => mat4.rotate L M angle axis
  | _, M => M

/-- The components after the matrix operations among `ops`, in order, from `M`. -/
def applyAll [LinearOrderedField α] (L : MathLib α) (ops : List (Stmt α)) (M : Mat4 α) :
    Mat4 α :=
  ops.foldl (fun N st => st.apply L N) M

/-- What the renderer gets from `p` if every leaf is drawn from the base alone.
Here `base` is the transform in force outside the push/pop pairs, `own` the
statements of the open leaf since its push (`none` outside the pairs), and
`color` the global colour. Every draw inside a leaf gets `base` composed with
the leaf's own operations and nothing else. -/
def leafwise [LinearOrderedField α] (L : MathLib α) (mode : String) :
    List (Stmt α) → Mat4 α → Option (List (Stmt α)) → Option (List α) → List (Rendered α)
  | [], _, _, _ => []
  | st :: p, base, own, color =>
    match st with
    | .pushMatrix => leafwise L mode p base (some []) color
    | .popMatrix => leafwise L mode p base none color
    | .setColor c => leafwise L mode p base own (some c)
    | .draw k c =>
      drawPrimitive k mode
        (match c with
          | .global => color
          | .loc c1 => some c1)
        (applyAll L (own.getD []) base) :: leafwise L mode p base own color
    | st =>
      match own with
      | none => leafwise L mode p (st.apply L base) none color
      | some ops => leafwise L mode p base (some (ops ++ [st])) color

/-- A scene function called with some arguments: one of the sixteen functions
`animate()` draws the frame with. -/
def IsSceneFunction [LinearOrderedField α] (L : MathLib α) (p : List (Stmt α)) : Prop :=
  p = drawSky ∨ (∃ rotationAngle, p = drawSun rotationAngle) ∨ p = drawCloud ∨
  (∃ tx ty s_x s_y angle size, p = drawStar L tx ty s_x s_y angle size) ∨
  (∃ t_x1 t_y1 s_x s_y t_x2 t_y2 single,
    p = drawMountain t_x1 t_y1 s_x s_y t_x2 t_y2 single) ∨
  p = drawGround ∨ (∃ move x y, p = drawLines move x y) ∨ p = drawRiver ∨
  p = drawRoad ∨ (∃ move t_x t_y s_x s_y, p = drawTrees move t_x t_y s_x s_y) ∨
  (∃ translationX tx ty sc cl, p = drawBoat translationX tx ty sc cl) ∨
  (∃ rotationAngle move t_x t_y sc, p = drawFan rotationAngle move t_x t_y sc) ∨
  (∃ move t_x t_y sc, p = drawBush move t_x t_y sc) ∨ p = drawHouse ∨
  (∃ move t_x, p = drawWheel move t_x) ∨ p = drawCar

/-! ## The value view of a run -/

/-- The state as the transforms see it: the components of the current
transform, the components saved by the pushes of the run so far (the most
recent first), and the globals a statement reads or writes. -/
structure View (α : Type) where
  cur : Mat4 α
  saved : List (Mat4 α)
  color : Option (List α)
  mode : String
  console : List String
  rendered : List (Rendered α)

/-- One statement on the value view. A pop with nothing saved by this run has
no value here. -/
def View.step [LinearOrderedField α] (L : MathLib α) : Stmt α → View α → Option (View α)
  | .identity, a => some { a with cur := mat4.identity }
  | .translate v, a => some { a with cur := mat4.translate a.cur v }
  | .scale v, a => some { a with cur := mat4.scale a.cur v }
  | .rotate angle axis, a => some { a with cur := mat4.rotate L a.cur angle axis }
  | .pushMatrix, a => some { a with saved := a.cur :: a.saved }
  | .popMatrix, a =>
    match a.saved with
    | [] => none
    | M :: rest => some { a with cur := M, saved := rest }
  | .setColor c, a => some { a with color := some c }
  | .draw k c, a =>
    let col := match c with
      | .global => a.color
      | .loc c1 => some c1
    some { a with rendered := a.rendered ++ [drawPrimitive k a.mode col a.cur] }

/-- A sequence of statements on the value view. -/
def View.run [LinearOrderedField α] (L : MathLib α) : List (Stmt α) → View α → Option (View α)
  | [], a => some a
  | st :: rest, a =>
    match View.step L st a with
    | none => none
    | some a1 => View.run L rest a1

/-- The value view of a state whose current transform has the components `M`,
at the start of a run. -/
def View.start (s : State α) (M : Mat4 α) : View α :=
  { cur := M, saved := [], color := s.color, mode := s.mode, console := s.console,
    rendered := s.rendered }

/-- The state `s`, reached in a run from `s0`, has the value view `a`: the
stack is the one of `s0` followed by the references `refs` (listed the most
recent first) to copies made in the run, `mMatrix` is the reference `r`, and
no object that existed in `s0` has been written to, unless `mMatrix` referred
to it in `s0`. -/
structure Sim (s0 s : State α) (a : View α) (refs : List Ref) (r : Ref) : Prop where
  stack : s.matrixStack = s0.matrixStack ++ refs.reverse
  cur : s.mMatrix = some r
  curVal : s.heap[r]? = some a.cur
  saved : refs.map (fun c => s.heap[c]?) = a.saved.map some
  nodup : refs.Nodup
  fresh : ∀ c ∈ refs, s0.heap.length ≤ c
  notMem : r ∉ refs
  origin : s0.mMatrix = some r ∨ s0.heap.length ≤ r
  grows : s0.heap.length ≤ s.heap.length
  frame : ∀ c, c < s0.heap.length → s0.mMatrix ≠ some c → s.heap[c]? = s0.heap[c]?
  color : s.color = a.color
  mode : s.mode = a.mode
  modeKept : s.mode = s0.mode
  console : s.console = a.console
  rendered : s.rendered = a.rendered
  translationX : s.translationX = s0.translationX
  direction : s.direction = s0.direction
  rotationAngle : s.rotationAngle = s0.rotationAngle
  animation : s.animation = s0.animation
  pending : s.pending = s0.pending
  nextHandle : s.nextHandle = s0.nextHandle

end Vocabulary

/-! ## Vocabulary for frames, modes and the frame scheduler -/

section FrameVocabulary

variable {α : Type}

/-- What a draw call hands the renderer apart from the topology: the shape,
the colour and the transform. -/
def Rendered.triple (r : Rendered α) : PrimitiveKind × Option (List α) × Mat4 α :=
  (r.kind, r.color, r.transform)

/-- Two states that differ at most in the display mode and in the topologies
of the draw calls made so far: the matrix objects, the stack, `mMatrix`, the
colour, the animation parameters, the console and the frame scheduler are the
same, and the renderer was handed the same shapes, colours and transforms in
the same order. -/
def State.SameButMode (s t : State α) : Prop :=
  s.heap = t.heap ∧ s.matrixStack = t.matrixStack ∧ s.mMatrix = t.mMatrix ∧
  s.color = t.color ∧ s.translationX = t.translationX ∧ s.direction = t.direction ∧
  s.rotationAngle = t.rotationAngle ∧ s.animation = t.animation ∧ s.console = t.console ∧
  s.rendered.map Rendered.triple = t.rendered.map Rendered.triple ∧
  s.pending = t.pending ∧ s.nextHandle = t.nextHandle

/-- The state after `n` executions of `animate()` in a row, `none` when one of
them throws. -/
def animateTimes [LinearOrderedField α] (L : MathLib α) : Nat → State α → Option (State α)
  | 0, s => some s
  | n + 1, s =>
    match animateTimes L n s with
    | none => none
    | some t => animate L t

/-- What can happen to the page once `webGLStart()` has run: the host fires
the pending frame callback with a given handle, or a button calls
`changeView(view)`. -/
inductive Event where
  | frame (handle : Nat)
  | changeView (view : String)
deriving DecidableEq, Repr

/-- One event, in state `s`. -/
def Event.run [LinearOrderedField α] (L : MathLib α) : Event → State α → Option (State α)
  | .frame handle, s => fireFrame L handle s
  | .changeView view, s => Render.changeView L view s

/-- A sequence of events, in order, from state `s`: an interleaving of frame
firings and mode changes. -/
def runEvents [LinearOrderedField α] (L : MathLib α) : List Event → State α → Option (State α)
  | [], s => some s
  | e :: es, s =>
    match e.run L s with
    | none => none
    | some s1 => runEvents L es s1

/-- The back-and-forth motion is in bounds: `direction` is 1 or −1,
`translationX` is within `translationRange + translationSpeed` of 0, and where
it is beyond `translationRange` the direction points back towards 0. -/
def State.InBounds [LinearOrderedField α] (s : State α) : Prop :=
  (s.direction = 1 ∨ s.direction = -1) ∧
  |s.translationX| ≤ translationRange + translationSpeed ∧
  (translationRange < s.translationX → s.direction = -1) ∧
  (s.translationX < -translationRange → s.direction = 1)

/-- One animation loop is active: exactly one frame callback is pending, the
global `animation` holds its handle, the handle is not 0 and is older than the
handle the host hands out next, and `mMatrix` refers to a matrix. -/
def State.OneLoop (s : State α) : Prop :=
  (∃ M, s.current = some M) ∧
    ∃ h, s.pending = [h] ∧ s.animation = some h ∧ h ≠ 0 ∧ h < s.nextHandle

end FrameVocabulary

/-! ## The run on the state follows the run on the value view -/

section Simulation

variable {α : Type}

theorem Sim.start {s : State α} {r : Ref} {M : Mat4 α} (hr : s.mMatrix = some r)
    (hM : s.heap[r]? = some M) : Sim s s (View.start s M) [] r := by
  refine { stack := by simp, cur := hr, curVal := hM, saved := by simp [View.start],
           nodup := List.nodup_nil, fresh := by simp, notMem := by simp, origin := Or.inl hr,
           grows := le_refl _, frame := fun _ _ _ => rfl, color := rfl, mode := rfl,
           modeKept := rfl, console := rfl, rendered := rfl, translationX := rfl, direction := rfl,
           rotationAngle := rfl, animation := rfl, pending := rfl, nextHandle := rfl }

theorem Sim.valid {s0 s : State α} {a : View α} {refs : List Ref} {r : Ref}
    (h : Sim s0 s a refs r) : ∀ c ∈ refs, c < s.heap.length := by
  intro c hc
  have h1 : s.heap[c]? ∈ refs.map (fun c => s.heap[c]?) := List.mem_map_of_mem _ hc
  rw [h.saved] at h1
  obtain ⟨M, _, hM⟩ := List.mem_map.1 h1
  exact (List.getElem?_eq_some.1 hM.symm).1

theorem Sim.curValid {s0 s : State α} {a : View α} {refs : List Ref} {r : Ref}
    (h : Sim s0 s a refs r) : r < s.heap.length :=
  (List.getElem?_eq_some.1 h.curVal).1

/-- An in-place update of the current transform is the same update on the
value view. -/
theorem Sim.updateCurrent {s0 s : State α} {a : View α} {refs : List Ref} {r : Ref}
    (h : Sim s0 s a refs r) (f : Mat4 α → Mat4 α) :
    ∃ s1, s.updateCurrent f = some s1 ∧ Sim s0 s1 { a with cur := f a.cur } refs r := by
  have hr := h.curValid
  refine ⟨{ s with heap := s.heap.set r (f a.cur) }, ?_, ?_⟩
  · simp [State.updateCurrent, h.cur, h.curVal]
  · have hne : ∀ c ∈ refs, r ≠ c := fun c hc e => h.notMem (e ▸ hc)
    refine { stack := h.stack, cur := h.cur, curVal := ?_, saved := ?_,
             nodup := h.nodup, fresh := h.fresh, notMem := h.notMem, origin := h.origin,
             grows := ?_, frame := ?_, color := h.color, mode := h.mode, modeKept := h.modeKept,
             console := h.console, rendered := h.rendered, translationX := h.translationX,
             direction := h.direction, rotationAngle := h.rotationAngle,
             animation := h.animation, pending := h.pending, nextHandle := h.nextHandle }
    · simp [List.getElem?_set_self hr]
    · rw [← h.saved]
      apply List.map_congr_left
      intro c hc
      simp [List.getElem?_set_ne (hne c hc)]
    · simpa using h.grows
    · intro c hc hc0
      have : r ≠ c := by
        rcases h.origin with ho | ho
        · intro e; exact hc0 (e ▸ ho)
        · intro e; subst e; omega
      simp [List.getElem?_set_ne this, h.frame c hc hc0]

/-- Every statement that succeeds on the value view succeeds on the state, and
the value view follows it. -/
theorem Sim.step [LinearOrderedField α] (L : MathLib α) {s0 s : State α} {a a1 : View α}
    {refs : List Ref} {r : Ref} (h : Sim s0 s a refs r) (st : Stmt α)
    (ha : View.step L st a = some a1) :
    ∃ s1 refs1 r1, Render.step L st s = some s1 ∧ Sim s0 s1 a1 refs1 r1 := by
  cases st with
  | identity =>
    obtain ⟨s1, h1, h2⟩ := h.updateCurrent (fun _ => mat4.identity)
    simp only [View.step, Option.some.injEq] at ha
    exact ⟨s1, refs, r, h1, ha ▸ h2⟩
  | translate v =>
    obtain ⟨s1, h1, h2⟩ := h.updateCurrent (fun M => mat4.translate M v)
    simp only [View.step, Option.some.injEq] at ha
    exact ⟨s1, refs, r, h1, ha ▸ h2⟩
  | scale v =>
    obtain ⟨s1, h1, h2⟩ := h.updateCurrent (fun M => mat4.scale M v)
    simp only [View.step, Option.some.injEq] at ha
    exact ⟨s1, refs, r, h1, ha ▸ h2⟩
  | rotate angle axis =>
    obtain ⟨s1, h1, h2⟩ := h.updateCurrent (fun M => mat4.rotate L M angle axis)
    simp only [View.step, Option.some.injEq] at ha
    exact ⟨s1, refs, r, h1, ha ▸ h2⟩
  | setColor c =>
    simp only [View.step, Option.some.injEq] at ha
    subst ha
    exact ⟨{ s with color := some c }, refs, r, rfl,
      { h with color := rfl }⟩
  | draw k c =>
    cases c with
    | global =>
      simp only [View.step, Option.some.injEq] at ha
      subst ha
      refine ⟨{ s with rendered := s.rendered ++ [drawPrimitive k s.mode s.color a.cur] },
        refs, r, ?_, ?_⟩
      · simp [Render.step, h.cur, h.curVal]
      · exact { h with rendered := by simp [h.rendered, h.mode, h.color] }
    | loc c1 =>
      simp only [View.step, Option.some.injEq] at ha
      subst ha
      refine ⟨{ s with rendered := s.rendered ++ [drawPrimitive k s.mode (some c1) a.cur] },
        refs, r, ?_, ?_⟩
      · simp [Render.step, h.cur, h.curVal]
      · exact { h with rendered := by simp [h.rendered, h.mode] }
  | pushMatrix =>
    simp only [View.step, Option.some.injEq] at ha
    subst ha
    have hr := h.curValid
    have hv := h.valid
    refine ⟨{ s with heap := s.heap ++ [a.cur], matrixStack := s.matrixStack ++ [s.heap.length] },
      s.heap.length :: refs, r, ?_, ?_⟩
    · simp [Render.step, h.cur, Render.pushMatrix, mat4.create, h.curVal]
    · refine { stack := ?_, cur := h.cur, curVal := ?_, saved := ?_,
               nodup := ?_, fresh := ?_, notMem := ?_, origin := h.origin,
               grows := ?_, frame := ?_, color := h.color, mode := h.mode, modeKept := h.modeKept,
               console := h.console, rendered := h.rendered, translationX := h.translationX,
               direction := h.direction, rotationAngle := h.rotationAngle,
               animation := h.animation, pending := h.pending, nextHandle := h.nextHandle }
      · simp [h.stack]
      · simp [List.getElem?_append_left hr, h.curVal]
      · simp only [List.map_cons, List.getElem?_concat_length, List.cons.injEq, true_and]
        rw [← h.saved]
        apply List.map_congr_left
        intro c hc
        simp [List.getElem?_append_left (hv c hc)]
      · refine List.nodup_cons.2 ⟨fun hm => ?_, h.nodup⟩
        exact absurd (hv _ hm) (lt_irrefl _)
      · intro c hc
        rcases List.mem_cons.1 hc with e | hc
        · subst e; exact h.grows
        · exact h.fresh c hc
      · intro hm
        rcases List.mem_cons.1 hm with e | hm
        · subst e; exact absurd hr (lt_irrefl _)
        · exact h.notMem hm
      · have := h.grows
        simp only [List.length_append, List.length_singleton]
        omega
      · intro c hc hc0
        have : c < s.heap.length := lt_of_lt_of_le hc h.grows
        simp [List.getElem?_append_left this, h.frame c hc hc0]
  | popMatrix =>
    cases hs : a.saved with
    | nil => simp [View.step, hs] at ha
    | cons M rest =>
      simp only [View.step, hs, Option.some.injEq] at ha
      subst ha
      have hsaved := h.saved
      rw [hs] at hsaved
      cases refs with
      | nil => simp at hsaved
      | cons c refs1 =>
        simp only [List.map_cons, List.cons.injEq] at hsaved
        have hst : s.matrixStack = (s0.matrixStack ++ refs1.reverse) ++ [c] := by
          simp [h.stack]
        refine ⟨{ s with mMatrix := some c, matrixStack := s0.matrixStack ++ refs1.reverse },
          refs1, c, ?_, ?_⟩
        · simp [Render.step, Render.popMatrix, hst]
        · refine { stack := rfl, cur := rfl, curVal := hsaved.1, saved := hsaved.2,
                   nodup := (List.nodup_cons.1 h.nodup).2,
                   fresh := fun d hd => h.fresh d (List.mem_cons_of_mem _ hd),
                   notMem := (List.nodup_cons.1 h.nodup).1,
                   origin := Or.inr (h.fresh c (List.mem_cons_self _ _)),
                   grows := h.grows, frame := h.frame, color := h.color, mode := h.mode,
                   modeKept := h.modeKept,
                   console := h.console, rendered := h.rendered,
                   translationX := h.translationX,
                   direction := h.direction, rotationAngle := h.rotationAngle,
                   animation := h.animation, pending := h.pending,
                   nextHandle := h.nextHandle }

/-- A sequence of statements that succeeds on the value view succeeds on the
state, and the value view follows it. -/
theorem Sim.run [LinearOrderedField α] (L : MathLib α) {s0 : State α} (p : List (Stmt α)) :
    ∀ {s : State α} {a a1 : View α} {refs : List Ref} {r : Ref}, Sim s0 s a refs r →
      View.run L p a = some a1 →
      ∃ s1 refs1 r1, Render.run L p s = some s1 ∧ Sim s0 s1 a1 refs1 r1 := by
  induction p with
  | nil =>
    intro s a a1 refs r h ha
    simp only [View.run, Option.some.injEq] at ha
    subst ha
    exact ⟨s, refs, r, rfl, h⟩
  | cons st rest ih =>
    intro s a a1 refs r h ha
    cases hst : View.step L st a with
    | none => simp [View.run, hst] at ha
    | some a2 =>
      simp only [View.run, hst] at ha
      obtain ⟨s2, refs2, r2, h1, h2⟩ := h.step L st hst
      obtain ⟨s1, refs1, r1, h3, h4⟩ := ih h2 ha
      exact ⟨s1, refs1, r1, by simp [Render.run, h1, h3], h4⟩

/-- A sequence of leaves is properly nested. -/
theorem balancedFrom_of_flatFrom (p : List (Stmt α)) :
    ∀ b : Bool, flatFrom b p = true → balancedFrom (if b then 1 else 0) p = true := by
  induction p with
  | nil =>
    intro b h
    cases b <;> simp_all [flatFrom, balancedFrom]
  | cons st p ih =>
    intro b h
    cases st with
    | pushMatrix =>
      cases b with
      | true => simp [flatFrom] at h
      | false =>
        simp only [flatFrom, Bool.not_false, Bool.true_and] at h
        simpa [balancedFrom] using ih true h
    | popMatrix =>
      cases b with
      | false => simp [flatFrom] at h
      | true =>
        simp only [flatFrom, Bool.true_and] at h
        simpa [balancedFrom] using ih false h
    | identity => simpa [balancedFrom, flatFrom] using ih b h
    | translate v => simpa [balancedFrom, flatFrom] using ih b h
    | scale v => simpa [balancedFrom, flatFrom] using ih b h
    | rotate angle axis => simpa [balancedFrom, flatFrom] using ih b h
    | setColor c => simpa [balancedFrom, flatFrom] using ih b h
    | draw k c => simpa [balancedFrom, flatFrom] using ih b h

theorem flatFrom_append (p q : List (Stmt α)) :
    ∀ b : Bool, flatFrom b p = true → flatFrom false q = true →
      flatFrom b (p ++ q) = true := by
  induction p with
  | nil =>
    intro b hp hq
    cases b with
    | true => simp [flatFrom] at hp
    | false => simpa using hq
  | cons st p ih =>
    intro b hp hq
    cases st with
    | pushMatrix =>
      cases b with
      | true => simp [flatFrom] at hp
      | false =>
        simp only [flatFrom, Bool.not_false, Bool.true_and, List.cons_append] at hp ⊢
        exact ih true hp hq
    | popMatrix =>
      cases b with
      | false => simp [flatFrom] at hp
      | true =>
        simp only [flatFrom, Bool.true_and, List.cons_append] at hp ⊢
        exact ih false hp hq
    | identity =>
      simp only [flatFrom, List.cons_append] at hp ⊢
      exact ih b hp hq
    | translate v =>
      simp only [flatFrom, List.cons_append] at hp ⊢
      exact ih b hp hq
    | scale v =>
      simp only [flatFrom, List.cons_append] at hp ⊢
      exact ih b hp hq
    | rotate angle axis =>
      simp only [flatFrom, List.cons_append] at hp ⊢
      exact ih b hp hq
    | setColor c =>
      simp only [flatFrom, List.cons_append] at hp ⊢
      exact ih b hp hq
    | draw k c =>
      simp only [flatFrom, List.cons_append] at hp ⊢
      exact ih b hp hq

variable [LinearOrderedField α]

theorem View.run_concat (L : MathLib α) (p q : List (Stmt α)) :
    ∀ a : View α, View.run L (p ++ q) a = (View.run L p a).bind (View.run L q) := by
  induction p with
  | nil => intro a; simp [View.run]
  | cons st p ih =>
    intro a
    cases h : View.step L st a with
    | none => simp [View.run, h]
    | some a1 => simp [View.run, h, ih]

theorem run_append (L : MathLib α) (p q : List (Stmt α)) :
    ∀ s : State α, run L (p ++ q) s = (run L p s).bind (run L q) := by
  induction p with
  | nil => intro s; simp [run]
  | cons st p ih =>
    intro s
    cases h : step L st s with
    | none => simp [run, h]
    | some s1 => simp [run, h, ih]

/-- A properly nested sequence runs on the value view and leaves what was saved
below its starting depth. -/
theorem View.balanced_run (L : MathLib α) (p : List (Stmt α)) :
    ∀ (d : Nat) (a : View α) (top base : List (Mat4 α)), a.saved = top ++ base →
      top.length = d → balancedFrom d p = true →
      ∃ a1, View.run L p a = some a1 ∧ a1.saved = base := by
  induction p with
  | nil =>
    intro d a top base hs hd hb
    simp only [balancedFrom, beq_iff_eq] at hb
    subst hb
    have : top = [] := List.length_eq_zero.1 hd
    subst this
    exact ⟨a, rfl, by simpa using hs⟩
  | cons st p ih =>
    intro d a top base hs hd hb
    cases st with
    | pushMatrix =>
      simp only [balancedFrom] at hb
      obtain ⟨a1, h1, h2⟩ := ih (d + 1) { a with saved := a.cur :: a.saved } (a.cur :: top) base
        (by simp [hs]) (by simp [hd]) hb
      exact ⟨a1, by simpa [View.run, View.step] using h1, h2⟩
    | popMatrix =>
      cases d with
      | zero => simp [balancedFrom] at hb
      | succ d1 =>
        simp only [balancedFrom] at hb
        cases top with
        | nil => simp at hd
        | cons M top1 =>
          obtain ⟨a1, h1, h2⟩ := ih d1 { a with cur := M, saved := top1 ++ base } top1 base
            rfl (by simpa using hd) hb
          refine ⟨a1, ?_, h2⟩
          simp only [List.cons_append] at hs
          simpa [View.run, View.step, hs] using h1
    | identity =>
      simp only [balancedFrom] at hb
      obtain ⟨a1, h1, h2⟩ := ih d { a with cur := mat4.identity } top base hs hd hb
      exact ⟨a1, by simpa [View.run, View.step] using h1, h2⟩
    | translate v =>
      simp only [balancedFrom] at hb
      obtain ⟨a1, h1, h2⟩ := ih d { a with cur := mat4.translate a.cur v } top base hs hd hb
      exact ⟨a1, by simpa [View.run, View.step] using h1, h2⟩
    | scale v =>
      simp only [balancedFrom] at hb
      obtain ⟨a1, h1, h2⟩ := ih d { a with cur := mat4.scale a.cur v } top base hs hd hb
      exact ⟨a1, by simpa [View.run, View.step] using h1, h2⟩
    | rotate angle axis =>
      simp only [balancedFrom] at hb
      obtain ⟨a1, h1, h2⟩ := ih d { a with cur := mat4.rotate L a.cur angle axis } top base
        hs hd hb
      exact ⟨a1, by simpa [View.run, View.step] using h1, h2⟩
    | setColor c =>
      simp only [balancedFrom] at hb
      obtain ⟨a1, h1, h2⟩ := ih d { a with color := some c } top base hs hd hb
      exact ⟨a1, by simpa [View.run, View.step] using h1, h2⟩
    | draw k c =>
      simp only [balancedFrom] at hb
      cases c with
      | global =>
        obtain ⟨a1, h1, h2⟩ := ih d
          { a with rendered := a.rendered ++ [drawPrimitive k a.mode a.color a.cur] }
          top base hs hd hb
        exact ⟨a1, by simpa [View.run, View.step] using h1, h2⟩
      | loc c1 =>
        obtain ⟨a1, h1, h2⟩ := ih d
          { a with rendered := a.rendered ++ [drawPrimitive k a.mode (some c1) a.cur] }
          top base hs hd hb
        exact ⟨a1, by simpa [View.run, View.step] using h1, h2⟩

section
variable (L : MathLib α) (p : List (Stmt α)) (cur : Mat4 α) (saved : List (Mat4 α))
  (color : Option (List α)) (mode : String) (console : List String)
  (rendered : List (Rendered α))

theorem View.run_nil (a : View α) : View.run L [] a = some a := by
  simp [View.run]

theorem View.run_identity :
    View.run L (.identity :: p) ⟨cur, saved, color, mode, console, rendered⟩ =
      View.run L p ⟨mat4.identity, saved, color, mode, console, rendered⟩ := by
  simp [View.run, View.step]

theorem View.run_translate (v : Vec3 α) :
    View.run L (.translate v :: p) ⟨cur, saved, color, mode, console, rendered⟩ =
      View.run L p ⟨mat4.translate cur v, saved, color, mode, console, rendered⟩ := by
  simp [View.run, View.step]

theorem View.run_scale (v : Vec3 α) :
    View.run L (.scale v :: p) ⟨cur, saved, color, mode, console, rendered⟩ =
      View.run L p ⟨mat4.scale cur v, saved, color, mode, console, rendered⟩ := by
  simp [View.run, View.step]

theorem View.run_rotate (angle : α) (axis : Vec3 α) :
    View.run L (.rotate angle axis :: p) ⟨cur, saved, color, mode, console, rendered⟩ =
      View.run L p ⟨mat4.rotate L cur angle axis, saved, color, mode, console, rendered⟩ := by
  simp [View.run, View.step]

theorem View.run_pushMatrix :
    View.run L (.pushMatrix :: p) ⟨cur, saved, color, mode, console, rendered⟩ =
      View.run L p ⟨cur, cur :: saved, color, mode, console, rendered⟩ := by
  simp [View.run, View.step]

theorem View.run_popMatrix (M : Mat4 α) :
    View.run L (.popMatrix :: p) ⟨cur, M :: saved, color, mode, console, rendered⟩ =
      View.run L p ⟨M, saved, color, mode, console, rendered⟩ := by
  simp [View.run, View.step]

theorem View.run_setColor (c : List α) :
    View.run L (.setColor c :: p) ⟨cur, saved, color, mode, console, rendered⟩ =
      View.run L p ⟨cur, saved, some c, mode, console, rendered⟩ := by
  simp [View.run, View.step]

theorem View.run_draw_global (k : PrimitiveKind) :
    View.run L (.draw k .global :: p) ⟨cur, saved, color, mode, console, rendered⟩ =
      View.run L p ⟨cur, saved, color, mode, console,
        rendered ++ [drawPrimitive k mode color cur]⟩ := by
  simp [View.run, View.step]

theorem View.run_draw_loc (k : PrimitiveKind) (c : List α) :
    View.run L (.draw k (.loc c) :: p) ⟨cur, saved, color, mode, console, rendered⟩ =
      View.run L p ⟨cur, saved, color, mode, console,
        rendered ++ [drawPrimitive k mode (some c) cur]⟩ := by
  simp [View.run, View.step]

end

end Simulation

/-! ## Runs from a state whose current transform is defined -/

section Runs

variable {α : Type}

theorem State.current_eq_some {s : State α} {M : Mat4 α} (h : s.current = some M) :
    ∃ r, s.mMatrix = some r ∧ s.heap[r]? = some M := by
  unfold State.current at h
  cases hm : s.mMatrix with
  | none => simp [hm] at h
  | some r => exact ⟨r, rfl, by simpa [hm] using h⟩

theorem Sim.current {s0 s : State α} {a : View α} {refs : List Ref} {r : Ref}
    (h : Sim s0 s a refs r) : s.current = some a.cur := by
  simp [State.current, h.cur, h.curVal]

theorem Sim.stack_eq {s0 s : State α} {a : View α} {refs : List Ref} {r : Ref}
    (h : Sim s0 s a refs r) (hs : a.saved = []) : s.matrixStack = s0.matrixStack := by
  have h1 := h.saved
  rw [hs] at h1
  have : refs = [] := by simpa using h1
  simp [h.stack, this]

variable [LinearOrderedField α]

/-- A run that succeeds on the value view of a state succeeds on the state. -/
theorem run_of_view (L : MathLib α) {s : State α} {M : Mat4 α} (hs : s.current = some M)
    {p : List (Stmt α)} {a1 : View α} (ha : View.run L p (View.start s M) = some a1) :
    ∃ s1 refs r1, run L p s = some s1 ∧ Sim s s1 a1 refs r1 := by
  obtain ⟨r, hr, hM⟩ := State.current_eq_some hs
  exact Sim.run L p (Sim.start hr hM) ha

/-- A properly nested sequence runs from every state whose current transform
is defined, leaves the stack as it was and the current transform defined. -/
theorem run_balanced (L : MathLib α) {s : State α} {M : Mat4 α} (hs : s.current = some M)
    {p : List (Stmt α)} (hp : balancedFrom 0 p = true) :
    ∃ s1 M1, run L p s = some s1 ∧ s1.matrixStack = s.matrixStack ∧ s1.current = some M1 ∧
      s1.translationX = s.translationX ∧ s1.direction = s.direction ∧
      s1.rotationAngle = s.rotationAngle ∧ s1.animation = s.animation ∧
      s1.pending = s.pending ∧ s1.nextHandle = s.nextHandle ∧ s1.mode = s.mode := by
  obtain ⟨a1, ha, hsaved⟩ := View.balanced_run L p 0 (View.start s M) [] [] rfl rfl hp
  obtain ⟨s1, refs, r1, hrun, hsim⟩ := run_of_view L hs ha
  exact ⟨s1, a1.cur, hrun, hsim.stack_eq hsaved, hsim.current, hsim.translationX,
    hsim.direction, hsim.rotationAngle, hsim.animation, hsim.pending, hsim.nextHandle,
    hsim.modeKept⟩

end Runs

section Transforms

variable {α : Type} [LinearOrderedField α]

/-- Matrix operations in a row act on the current transform alone. -/
theorem View.run_transforms (L : MathLib α) (ops : List (Stmt α))
    (hops : ∀ o ∈ ops, o.isTransform = true) (q : List (Stmt α)) (saved : List (Mat4 α))
    (color : Option (List α)) (mode : String) (console : List String)
    (rendered : List (Rendered α)) :
    ∀ cur : Mat4 α, View.run L (ops ++ q) ⟨cur, saved, color, mode, console, rendered⟩ =
      View.run L q ⟨applyAll L ops cur, saved, color, mode, console, rendered⟩ := by
  induction ops with
  | nil => intro cur; rfl
  | cons o ops ih =>
    intro cur
    have ho : o.isTransform = true := hops o (List.mem_cons_self _ _)
    have hrest : ∀ o1 ∈ ops, o1.isTransform = true :=
      fun o1 h1 => hops o1 (List.mem_cons_of_mem _ h1)
    cases o with
    | identity =>
      simp only [List.cons_append, View.run_identity, ih hrest]
      rfl
    | translate v =>
      simp only [List.cons_append, View.run_translate, ih hrest]
      rfl
    | scale v =>
      simp only [List.cons_append, View.run_scale, ih hrest]
      rfl
    | rotate angle axis =>
      simp only [List.cons_append, View.run_rotate, ih hrest]
      rfl
    | pushMatrix => simp [Stmt.isTransform] at ho
    | popMatrix => simp [Stmt.isTransform] at ho
    | setColor c => simp [Stmt.isTransform] at ho
    | draw k c => simp [Stmt.isTransform] at ho

end Transforms

section Guarded

variable {α : Type} [LinearOrderedField α]

/-- A properly nested sequence whose matrix operations all stand inside a
push/pop pair runs on the value view, leaves what was saved below its starting
depth, and leaves as the current transform the one saved by the outermost open
push (the current one, when no push is open at the start). -/
theorem View.run_guarded (L : MathLib α) (p : List (Stmt α)) :
    ∀ (d : Nat) (a : View α) (top base : List (Mat4 α)), a.saved = top ++ base →
      top.length = d → guardedFrom d p = true →
      ∃ a1, View.run L p a = some a1 ∧ a1.saved = base ∧ a1.cur = top.getLast?.getD a.cur := by
  induction p with
  | nil =>
    intro d a top base hs hd hb
    simp only [guardedFrom, beq_iff_eq] at hb
    subst hb
    have : top = [] := List.length_eq_zero.1 hd
    subst this
    exact ⟨a, rfl, by simpa using hs, rfl⟩
  | cons st p ih =>
    intro d a top base hs hd hb
    have key : ∀ M : Mat4 α, st.isTransform = true → guardedFrom d (st :: p) = true →
        st ≠ .pushMatrix → st ≠ .popMatrix →
        View.step L st a = some { a with cur := M } →
        ∃ a1, View.run L (st :: p) a = some a1 ∧ a1.saved = base ∧
          a1.cur = top.getLast?.getD a.cur := by
      intro M ht hg hne1 hne2 hstep
      have hg2 : d ≠ 0 ∧ guardedFrom d p = true := by
        cases st <;> simp_all [guardedFrom, Stmt.isTransform]
      obtain ⟨a1, h1, h2, h3⟩ := ih d { a with cur := M } top base hs hd hg2.2
      refine ⟨a1, by simp [View.run, hstep, h1], h2, ?_⟩
      cases top with
      | nil => exact absurd hd.symm hg2.1
      | cons N top1 => simpa [List.getLast?_cons] using h3
    cases st with
    | pushMatrix =>
      simp only [guardedFrom] at hb
      obtain ⟨a1, h1, h2, h3⟩ := ih (d + 1) { a with saved := a.cur :: a.saved }
        (a.cur :: top) base (by simp [hs]) (by simp [hd]) hb
      exact ⟨a1, by simpa [View.run, View.step] using h1, h2,
        by simpa [List.getLast?_cons] using h3⟩
    | popMatrix =>
      cases d with
      | zero => simp [guardedFrom] at hb
      | succ d1 =>
        simp only [guardedFrom] at hb
        cases top with
        | nil => simp at hd
        | cons M top1 =>
          obtain ⟨a1, h1, h2, h3⟩ := ih d1 { a with cur := M, saved := top1 ++ base } top1
            base rfl (by simpa using hd) hb
          refine ⟨a1, ?_, h2, by simpa [List.getLast?_cons] using h3⟩
          simp only [List.cons_append] at hs
          simpa [View.run, View.step, hs] using h1
    | identity => exact key mat4.identity rfl hb (by simp) (by simp) rfl
    | translate v => exact key (mat4.translate a.cur v) rfl hb (by simp) (by simp) rfl
    | scale v => exact key (mat4.scale a.cur v) rfl hb (by simp) (by simp) rfl
    | rotate angle axis =>
      exact key (mat4.rotate L a.cur angle axis) rfl hb (by simp) (by simp) rfl
    | setColor c =>
      simp only [guardedFrom, Stmt.isTransform, Bool.not_false, Bool.true_or,
        Bool.true_and] at hb
      obtain ⟨a1, h1, h2, h3⟩ := ih d { a with color := some c } top base hs hd hb
      exact ⟨a1, by simpa [View.run, View.step] using h1, h2, h3⟩
    | draw k c =>
      simp only [guardedFrom, Stmt.isTransform, Bool.not_false, Bool.true_or,
        Bool.true_and] at hb
      cases c with
      | global =>
        obtain ⟨a1, h1, h2, h3⟩ := ih d
          { a with rendered := a.rendered ++ [drawPrimitive k a.mode a.color a.cur] }
          top base hs hd hb
        exact ⟨a1, by simpa [View.run, View.step] using h1, h2, h3⟩
      | loc c1 =>
        obtain ⟨a1, h1, h2, h3⟩ := ih d
          { a with rendered := a.rendered ++ [drawPrimitive k a.mode (some c1) a.cur] }
          top base hs hd hb
        exact ⟨a1, by simpa [View.run, View.step] using h1, h2, h3⟩

end Guarded

section Closed

variable {α : Type} [LinearOrderedField α]

/-- A run that ends on the value view with nothing saved ends on the state
with the stack it found, and the state shows what the value view shows. -/
theorem run_of_view_closed (L : MathLib α) {s : State α} {M : Mat4 α}
    (hs : s.current = some M) {p : List (Stmt α)} {a1 : View α}
    (ha : View.run L p (View.start s M) = some a1) (hsaved : a1.saved = []) :
    ∃ s1, run L p s = some s1 ∧ s1.matrixStack = s.matrixStack ∧
      s1.current = some a1.cur ∧ s1.rendered = a1.rendered ∧ s1.color = a1.color ∧
      s1.console = a1.console := by
  obtain ⟨s1, refs, r1, hrun, hsim⟩ := run_of_view L hs ha
  exact ⟨s1, hrun, hsim.stack_eq hsaved, hsim.current, hsim.rendered, hsim.color,
    hsim.console⟩

/-- The transforms a run hands the renderer, read off the value view. -/
theorem run_transforms_of_view (L : MathLib α) {s : State α} {M : Mat4 α}
    (hs : s.current = some M) {p : List (Stmt α)} (T : List (Mat4 α))
    (h : ∃ a1, View.run L p (View.start s M) = some a1 ∧ a1.saved = [] ∧
      a1.rendered.map (fun r => r.transform) = s.rendered.map (fun r => r.transform) ++ T) :
    ∃ s1, run L p s = some s1 ∧
      s1.rendered.map (fun r => r.transform) = s.rendered.map (fun r => r.transform) ++ T := by
  obtain ⟨a1, ha, hsaved, hT⟩ := h
  obtain ⟨s1, h1, _, _, h2, _⟩ := run_of_view_closed L hs ha hsaved
  exact ⟨s1, h1, by rw [h2, hT]⟩

end Closed

/-! ## Sequences of leaves -/

section Flat

variable {α : Type} [LinearOrderedField α]

theorem applyAll_append (L : MathLib α) (ops : List (Stmt α)) (st : Stmt α) (M : Mat4 α) :
    applyAll L (ops ++ [st]) M = st.apply L (applyAll L ops M) := by
  simp [applyAll, List.foldl_append]

/-- On a sequence of leaves the stack machine draws what the leaf-by-leaf
reading says: inside a leaf the current transform is the base with the leaf's
own operations, and the base is what the push saved. -/
theorem View.flat_run (L : MathLib α) (mode : String) (console : List String)
    (saved : List (Mat4 α)) (p : List (Stmt α)) :
    ∀ (base : Mat4 α) (own : Option (List (Stmt α))) (color : Option (List α))
      (rendered : List (Rendered α)), flatFrom own.isSome p = true →
      ∃ a1, View.run L p
          ⟨applyAll L (own.getD []) base,
           (match own with
            | none => saved
            | some _ => base :: saved), color, mode, console, rendered⟩ = some a1 ∧
        a1.saved = saved ∧ a1.rendered = rendered ++ leafwise L mode p base own color ∧
        a1.mode = mode ∧ a1.console = console := by
  induction p with
  | nil =>
    intro base own color rendered hf
    cases own with
    | some ops => simp [flatFrom] at hf
    | none => exact ⟨_, rfl, rfl, by simp [leafwise], rfl, rfl⟩
  | cons st p ih =>
    intro base own color rendered hf
    have key : st.isTransform = true → flatFrom own.isSome p = true →
        (∀ M, View.step L st ⟨M,
           (match own with
            | none => saved
            | some _ => base :: saved), color, mode, console, rendered⟩ =
          some ⟨st.apply L M,
           (match own with
            | none => saved
            | some _ => base :: saved), color, mode, console, rendered⟩) →
        leafwise L mode (st :: p) base own color =
          (match own with
           | none => leafwise L mode p (st.apply L base) none color
           | some ops => leafwise L mode p base (some (ops ++ [st])) color) →
        ∃ a1, View.run L (st :: p)
            ⟨applyAll L (own.getD []) base,
             (match own with
              | none => saved
              | some _ => base :: saved), color, mode, console, rendered⟩ = some a1 ∧
          a1.saved = saved ∧
          a1.rendered = rendered ++ leafwise L mode (st :: p) base own color ∧
          a1.mode = mode ∧ a1.console = console := by
      intro _ hf2 hstep hleaf
      cases own with
      | none =>
        obtain ⟨a1, h1, h2, h3, h4, h5⟩ := ih (st.apply L base) none color rendered hf2
        refine ⟨a1, ?_, h2, ?_, h4, h5⟩
        · simp only [View.run, hstep]
          exact h1
        · rw [h3, hleaf]
      | some ops =>
        obtain ⟨a1, h1, h2, h3, h4, h5⟩ := ih base (some (ops ++ [st])) color rendered hf2
        refine ⟨a1, ?_, h2, ?_, h4, h5⟩
        · simp only [View.run, hstep]
          simpa [applyAll_append] using h1
        · rw [h3, hleaf]
    cases st with
    | pushMatrix =>
      cases own with
      | some ops => simp [flatFrom] at hf
      | none =>
        simp only [flatFrom, Option.isSome_none, Bool.not_false, Bool.true_and] at hf
        obtain ⟨a1, h1, h2, h3, h4, h5⟩ := ih base (some []) color rendered hf
        exact ⟨a1, by simpa [View.run_pushMatrix, applyAll] using h1, h2,
          by simpa [leafwise] using h3, h4, h5⟩
    | popMatrix =>
      cases own with
      | none => simp [flatFrom] at hf
      | some ops =>
        simp only [flatFrom, Option.isSome_some, Bool.true_and] at hf
        obtain ⟨a1, h1, h2, h3, h4, h5⟩ := ih base none color rendered hf
        exact ⟨a1, by simpa [View.run_popMatrix, applyAll] using h1, h2,
          by simpa [leafwise] using h3, h4, h5⟩
    | setColor c =>
      simp only [flatFrom] at hf
      obtain ⟨a1, h1, h2, h3, h4, h5⟩ := ih base own (some c) rendered hf
      exact ⟨a1, by simpa [View.run_setColor] using h1, h2, by simpa [leafwise] using h3,
        h4, h5⟩
    | draw k c =>
      simp only [flatFrom] at hf
      cases c with
      | global =>
        obtain ⟨a1, h1, h2, h3, h4, h5⟩ := ih base own color
          (rendered ++ [drawPrimitive k mode color (applyAll L (own.getD []) base)]) hf
        exact ⟨a1, by simpa [View.run_draw_global] using h1, h2,
          by simpa [leafwise] using h3, h4, h5⟩
      | loc c1 =>
        obtain ⟨a1, h1, h2, h3, h4, h5⟩ := ih base own color
          (rendered ++ [drawPrimitive k mode (some c1) (applyAll L (own.getD []) base)]) hf
        exact ⟨a1, by simpa [View.run_draw_loc] using h1, h2,
          by simpa [leafwise] using h3, h4, h5⟩
    | identity => exact key rfl hf (fun _ => rfl) (by cases own <;> rfl)
    | translate v => exact key rfl hf (fun _ => rfl) (by cases own <;> rfl)
    | scale v => exact key rfl hf (fun _ => rfl) (by cases own <;> rfl)
    | rotate angle axis => exact key rfl hf (fun _ => rfl) (by cases own <;> rfl)

/-- A sequence of leaves runs from every state whose current transform is
defined, leaves the stack it found, and hands the renderer what the
leaf-by-leaf reading says. -/
theorem run_flat (L : MathLib α) {s : State α} {M : Mat4 α} (hs : s.current = some M)
    {p : List (Stmt α)} (hp : flatFrom false p = true) :
    ∃ s1, run L p s = some s1 ∧ s1.matrixStack = s.matrixStack ∧
      s1.rendered = s.rendered ++ leafwise L s.mode p M none s.color := by
  obtain ⟨a1, ha, hsaved, hrend, _⟩ :=
    View.flat_run L s.mode s.console [] p M none s.color s.rendered hp
  obtain ⟨s1, refs, r1, hrun, hsim⟩ := run_of_view L hs ha
  exact ⟨s1, hrun, hsim.stack_eq hsaved, by rw [hsim.rendered, hrend]⟩

end Flat

/-! ## The scene functions are sequences of leaves -/

section SceneShape

variable {α : Type} [LinearOrderedField α]

theorem drawSky_flat : flatFrom false (drawSky : List (Stmt α)) = true := rfl

theorem drawSun_flat (rotationAngle : α) :
    flatFrom false (drawSun rotationAngle) = true := rfl

theorem drawCloud_flat : flatFrom false (drawCloud : List (Stmt α)) = true := rfl

theorem drawStar_flat (L : MathLib α) (tx ty s_x s_y angle size : α) :
    flatFrom false (drawStar L tx ty s_x s_y angle size) = true := rfl

theorem drawMountain_flat (t_x1 t_y1 s_x s_y t_x2 t_y2 : α) (single : Bool) :
    flatFrom false (drawMountain t_x1 t_y1 s_x s_y t_x2 t_y2 single) = true := by
  cases single <;> rfl

theorem drawGround_flat : flatFrom false (drawGround : List (Stmt α)) = true := rfl

theorem drawLines_flat (move : Bool) (x y : α) :
    flatFrom false (drawLines move x y) = true := by
  cases move <;> rfl

theorem drawRiver_flat : flatFrom false (drawRiver : List (Stmt α)) = true := rfl

theorem drawRoad_flat : flatFrom false (drawRoad : List (Stmt α)) = true := rfl

theorem drawTrees_flat (move : Bool) (t_x t_y s_x s_y : α) :
    flatFrom false (drawTrees move t_x t_y s_x s_y) = true := by
  cases move <;> rfl

theorem drawBoat_flat (translationX tx ty s : α) (cl : List α) :
    flatFrom false (drawBoat translationX tx ty s cl) = true := rfl

theorem drawFan_flat (rotationAngle : α) (move : Bool) (t_x t_y sc : α) :
    flatFrom false (drawFan rotationAngle move t_x t_y sc) = true := by
  cases move <;> rfl

theorem drawBush_flat (move : Bool) (t_x t_y s : α) :
    flatFrom false (drawBush move t_x t_y s) = true := by
  cases move <;> rfl

theorem drawHouse_flat : flatFrom false (drawHouse : List (Stmt α)) = true := rfl

theorem drawWheel_flat (move : Bool) (t_x : α) :
    flatFrom false (drawWheel move t_x) = true := by
  cases move <;> rfl

theorem drawCar_flat : flatFrom false (drawCar : List (Stmt α)) = true := rfl

theorem animateDraws_flat (L : MathLib α) (rotationAngle translationX : α) :
    flatFrom false (animateDraws L rotationAngle translationX) = true := by
  unfold animateDraws
  refine flatFrom_append _ _ false ?_ (drawCar_flat)
  refine flatFrom_append _ _ false ?_ (drawHouse_flat)
  refine flatFrom_append _ _ false ?_ (drawBush_flat _ _ _ _)
  refine flatFrom_append _ _ false ?_ (drawBush_flat _ _ _ _)
  refine flatFrom_append _ _ false ?_ (drawBush_flat _ _ _ _)
  refine flatFrom_append _ _ false ?_ (drawBush_flat _ _ _ _)
  refine flatFrom_append _ _ false ?_ (drawFan_flat _ _ _ _ _)
  refine flatFrom_append _ _ false ?_ (drawFan_flat _ _ _ _ _)
  refine flatFrom_append _ _ false ?_ (drawBoat_flat _ _ _ _ _)
  refine flatFrom_append _ _ false ?_ (drawBoat_flat _ _ _ _ _)
  refine flatFrom_append _ _ false ?_ (drawTrees_flat _ _ _ _ _)
  refine flatFrom_append _ _ false ?_ (drawTrees_flat _ _ _ _ _)
  refine flatFrom_append _ _ false ?_ (drawTrees_flat _ _ _ _ _)
  refine flatFrom_append _ _ false ?_ (drawRiver_flat)
  refine flatFrom_append _ _ false ?_ (drawRoad_flat)
  refine flatFrom_append _ _ false ?_ (drawGround_flat)
  refine flatFrom_append _ _ false ?_ (drawMountain_flat _ _ _ _ _ _ _)
  refine flatFrom_append _ _ false ?_ (drawMountain_flat _ _ _ _ _ _ _)
  refine flatFrom_append _ _ false ?_ (drawMountain_flat _ _ _ _ _ _ _)
  refine flatFrom_append _ _ false ?_ (drawStar_flat _ _ _ _ _ _ _)
  refine flatFrom_append _ _ false ?_ (drawStar_flat _ _ _ _ _ _ _)
  refine flatFrom_append _ _ false ?_ (drawStar_flat _ _ _ _ _ _ _)
  refine flatFrom_append _ _ false ?_ (drawStar_flat _ _ _ _ _ _ _)
  refine flatFrom_append _ _ false ?_ (drawStar_flat _ _ _ _ _ _ _)
  refine flatFrom_append _ _ false ?_ (drawCloud_flat)
  refine flatFrom_append _ _ false ?_ (drawSun_flat _)
  exact drawSky_flat

theorem IsSceneFunction.flat {L : MathLib α} {p : List (Stmt α)} (hp : IsSceneFunction L p) :
    flatFrom false p = true := by
  rcases hp with h | ⟨_, h⟩ | h | ⟨_, _, _, _, _, _, h⟩ | ⟨_, _, _, _, _, _, _, h⟩ | h |
    ⟨_, _, _, h⟩ | h | h | ⟨_, _, _, _, _, h⟩ | ⟨_, _, _, _, _, h⟩ | ⟨_, _, _, _, _, h⟩ |
    ⟨_, _, _, _, h⟩ | h | ⟨_, _, h⟩ | h <;> subst h
  · exact drawSky_flat
  · exact drawSun_flat _
  · exact drawCloud_flat
  · exact drawStar_flat _ _ _ _ _ _ _
  · exact drawMountain_flat _ _ _ _ _ _ _
  · exact drawGround_flat
  · exact drawLines_flat _ _ _
  · exact drawRiver_flat
  · exact drawRoad_flat
  · exact drawTrees_flat _ _ _ _ _
  · exact drawBoat_flat _ _ _ _ _
  · exact drawFan_flat _ _ _ _ _
  · exact drawBush_flat _ _ _ _
  · exact drawHouse_flat
  · exact drawWheel_flat _ _
  · exact drawCar_flat

end SceneShape

/-! ## The stack never shares an object with `mMatrix` -/

section Separate

variable {α : Type}

theorem State.Separate.after_update {s s1 : State α} (h : s.Separate)
    (f : Mat4 α → Mat4 α) (hs : s.updateCurrent f = some s1) : s1.Separate := by
  unfold State.updateCurrent at hs
  cases hm : s.mMatrix with
  | none => simp [hm] at hs
  | some r =>
    cases hr : s.heap[r]? with
    | none => simp [hm, hr] at hs
    | some M =>
      simp only [hm, hr, Option.some.injEq] at hs
      subst hs
      simpa [State.Separate, hm] using h

theorem init_separate [LinearOrderedField α] (fresh : Mat4 α) : (State.init fresh).Separate := by
  simp [State.Separate, State.init]

variable [LinearOrderedField α]

/-- Every statement keeps the references in order. -/
theorem State.Separate.after_step (L : MathLib α) {s s1 : State α} (h : s.Separate) (st : Stmt α)
    (hs : Render.step L st s = some s1) : s1.Separate := by
  cases st with
  | identity => exact h.after_update _ hs
  | translate v => exact h.after_update _ hs
  | scale v => exact h.after_update _ hs
  | rotate angle axis => exact h.after_update _ hs
  | setColor c =>
    simp only [Render.step, Option.some.injEq] at hs
    subst hs
    exact h
  | draw k c =>
    simp only [Render.step] at hs
    cases hm : s.mMatrix with
    | none => simp [hm] at hs
    | some r =>
      cases hr : s.heap[r]? with
      | none => simp [hm, hr] at hs
      | some M =>
        simp only [hm, hr, Option.some.injEq] at hs
        subst hs
        simpa [State.Separate, hm] using h
  | pushMatrix =>
    simp only [Render.step] at hs
    cases hm : s.mMatrix with
    | none => simp [hm] at hs
    | some r =>
      cases hr : s.heap[r]? with
      | none => simp [hm, Render.pushMatrix, mat4.create, hr] at hs
      | some M =>
        simp only [hm, Render.pushMatrix, mat4.create, hr, Option.some.injEq] at hs
        subst hs
        obtain ⟨hnd, hval, hcur⟩ := h
        have hrl : r < s.heap.length := (hcur r hm).1
        refine ⟨?_, ?_, ?_⟩
        · refine List.Nodup.append hnd (List.nodup_singleton _) ?_
          intro c hc hc2
          simp only [List.mem_singleton] at hc2
          exact absurd (hc2 ▸ hval c hc) (lt_irrefl _)
        · intro c hc
          simp only [List.mem_append, List.mem_singleton] at hc
          simp only [List.length_append, List.length_singleton]
          rcases hc with hc | hc
          · exact Nat.lt_succ_of_lt (hval c hc)
          · exact hc ▸ Nat.lt_succ_self _
        · intro r1 hr1
          simp only [hm, Option.some.injEq] at hr1
          subst hr1
          simp only [List.length_append, List.length_singleton, List.mem_append,
            List.mem_singleton, not_or]
          exact ⟨Nat.lt_succ_of_lt hrl, (hcur r hm).2, Nat.ne_of_lt hrl⟩
  | popMatrix =>
    simp only [Render.step, Option.some.injEq] at hs
    subst hs
    obtain ⟨hnd, hval, hcur⟩ := h
    rcases List.eq_nil_or_concat s.matrixStack with hnil | ⟨rest, x, hx⟩
    · simp [State.Separate, Render.popMatrix, hnil]
    · rw [List.concat_eq_append] at hx
      have hnd2 : (rest ++ [x]).Nodup := hx ▸ hnd
      have hval2 : ∀ c ∈ rest ++ [x], c < s.heap.length := hx ▸ hval
      have hpop : Render.popMatrix s.matrixStack =
          { value := some x, stack := rest, logged := [] } := by
        simp [Render.popMatrix, hx]
      simp only [State.Separate, hpop, Option.some.injEq, forall_eq']
      refine ⟨(List.nodup_append.1 hnd2).1, fun c hc => hval2 c (List.mem_append_left _ hc),
        hval2 x (by simp), ?_⟩
      intro hmem
      exact (List.nodup_append.1 hnd2).2.2 hmem (by simp)

/-- Every run keeps the references in order. -/
theorem State.Separate.after_run (L : MathLib α) (p : List (Stmt α)) :
    ∀ {s s1 : State α}, s.Separate → Render.run L p s = some s1 → s1.Separate := by
  induction p with
  | nil =>
    intro s s1 h hs
    simp only [Render.run, Option.some.injEq] at hs
    exact hs ▸ h
  | cons st p ih =>
    intro s s1 h hs
    cases hst : Render.step L st s with
    | none => simp [Render.run, hst] at hs
    | some s2 =>
      simp only [Render.run, hst] at hs
      exact ih (h.after_step L st hst) hs

end Separate

/-! ## One frame -/

section FrameLemmas

variable {α : Type} [LinearOrderedField α]

/-- The update of the animation parameters changes the three parameters and
nothing else. -/
theorem animateUpdate_fields (s : State α) :
    (animateUpdate s).heap = s.heap ∧ (animateUpdate s).mMatrix = s.mMatrix ∧
    (animateUpdate s).matrixStack = s.matrixStack ∧ (animateUpdate s).color = s.color ∧
    (animateUpdate s).mode = s.mode ∧ (animateUpdate s).animation = s.animation ∧
    (animateUpdate s).console = s.console ∧ (animateUpdate s).rendered = s.rendered ∧
    (animateUpdate s).pending = s.pending ∧ (animateUpdate s).nextHandle = s.nextHandle ∧
    (animateUpdate s).rotationAngle = s.rotationAngle + rotationSpeed ∧
    (animateUpdate s).translationX = s.translationX + translationSpeed * s.direction := by
  by_cases h : |s.translationX + translationSpeed * s.direction| > translationRange
  · simp [animateUpdate, h]
  · simp [animateUpdate, h]

/-- The direction after the update of the animation parameters. -/
theorem animateUpdate_direction (s : State α) :
    (animateUpdate s).direction =
      if |s.translationX + translationSpeed * s.direction| > translationRange then
        s.direction * -1
      else s.direction := by
  by_cases h : |s.translationX + translationSpeed * s.direction| > translationRange
  · simp [animateUpdate, h]
  · simp [animateUpdate, h]

/-- One frame, field by field: from a state whose current transform is defined,
`animate()` runs the draws to their end in a state `s4` and requests the next
frame there. The draws leave the stack, the animation parameters (as updated),
the mode, the console and the scheduler as they were, and hand the renderer the
leaf-by-leaf reading of the frame. -/
theorem animate_frame (L : MathLib α) (s : State α) (M : Mat4 α) (hs : s.current = some M) :
    ∃ s4 M4,
      run L (animateDraws L (animateUpdate s).rotationAngle (animateUpdate s).translationX)
        (animateUpdate s) = some s4 ∧
      animate L s = some { s4 with pending := s4.pending ++ [s4.nextHandle],
                                   nextHandle := s4.nextHandle + 1,
                                   animation := some s4.nextHandle } ∧
      s4.matrixStack = s.matrixStack ∧ s4.current = some M4 ∧
      s4.translationX = (animateUpdate s).translationX ∧
      s4.direction = (animateUpdate s).direction ∧
      s4.rotationAngle = (animateUpdate s).rotationAngle ∧
      s4.pending = s.pending ∧ s4.nextHandle = s.nextHandle ∧ s4.mode = s.mode ∧
      s4.console = s.console ∧
      s4.rendered = s.rendered ++
        leafwise L s.mode
          (animateDraws L (animateUpdate s).rotationAngle (animateUpdate s).translationX)
          M none s.color := by
  obtain ⟨hheap, hcur, hstack, hcolor, hmode, _, hconsole, hrend, hpend, hnext, _, _⟩ :=
    animateUpdate_fields s
  have h3 : (animateUpdate s).current = some M := by
    simpa [State.current, hheap, hcur] using hs
  obtain ⟨a1, ha, hsaved, hrendered, _, hcons⟩ :=
    View.flat_run L (animateUpdate s).mode (animateUpdate s).console []
      (animateDraws L (animateUpdate s).rotationAngle (animateUpdate s).translationX) M none
      (animateUpdate s).color (animateUpdate s).rendered
      (animateDraws_flat L (animateUpdate s).rotationAngle (animateUpdate s).translationX)
  obtain ⟨s4, refs, r1, hrun, hsim⟩ := run_of_view L h3 ha
  refine ⟨s4, a1.cur, hrun, ?_, ?_, hsim.current, hsim.translationX, hsim.direction,
    hsim.rotationAngle, ?_, ?_, ?_, ?_, ?_⟩
  · simp only [animate, hrun, requestAnimationFrame]
  · rw [hsim.stack_eq hsaved, hstack]
  · rw [hsim.pending, hpend]
  · rw [hsim.nextHandle, hnext]
  · rw [hsim.modeKept, hmode]
  · rw [hsim.console, hcons, hconsole]
  · rw [hsim.rendered, hrendered, hrend, hmode, hcolor]

/-- One frame, seen from outside: what `animate()` returns, field by field. -/
theorem animate_result (L : MathLib α) (s : State α) (M : Mat4 α) (hs : s.current = some M) :
    ∃ s1 M1, animate L s = some s1 ∧ s1.matrixStack = s.matrixStack ∧
      s1.current = some M1 ∧
      s1.translationX = (animateUpdate s).translationX ∧
      s1.direction = (animateUpdate s).direction ∧
      s1.rotationAngle = (animateUpdate s).rotationAngle ∧
      s1.pending = s.pending ++ [s.nextHandle] ∧ s1.nextHandle = s.nextHandle + 1 ∧
      s1.animation = some s.nextHandle ∧ s1.mode = s.mode ∧ s1.console = s.console ∧
      s1.rendered = s.rendered ++
        leafwise L s.mode
          (animateDraws L (animateUpdate s).rotationAngle (animateUpdate s).translationX)
          M none s.color := by
  obtain ⟨s4, M4, _, h2, h3, h4, h5, h6, h7, h8, h9, h10, h11, h12⟩ := animate_frame L s M hs
  refine ⟨_, M4, h2, h3, ?_, h5, h6, h7, ?_, ?_, ?_, h10, h11, h12⟩
  · simpa [State.current] using h4
  · simp only [h8, h9]
  · simp only [h9]
  · simp only [h9]

/-- The function `drawScene()` is `animate()` after the cancellation: only the
pending callbacks may differ, and the callback `animation` names is removed
from them when `animation` is truthy. -/
theorem drawScene_eq (L : MathLib α) (s : State α) :
    ∃ pend, drawScene L s = animate L { s with pending := pend } ∧
      (∀ h, s.animation = some h → h ≠ 0 → pend = s.pending.filter (fun x => x != h)) ∧
      (s.animation = none → pend = s.pending) := by
  obtain ⟨heap, stack, mM, color, mode, x, d, a, anim, cons, rend, pend, next⟩ := s
  cases anim with
  | none => exact ⟨pend, rfl, by simp, by simp⟩
  | some h =>
    by_cases h0 : h = 0
    · subst h0
      exact ⟨pend, rfl, by simp, by simp⟩
    · refine ⟨pend.filter (fun x => x != h), ?_, ?_, by simp⟩
      · simp only [drawScene, ne_eq, h0, not_false_eq_true, if_true, cancelAnimationFrame]
      · intro h1 e _
        rw [Option.some.inj e]

/-- Every record of the leaf-by-leaf reading is what the draw function of its
shape returns under the mode. -/
theorem leafwise_records (L : MathLib α) (mode : String) (p : List (Stmt α)) :
    ∀ (base : Mat4 α) (own : Option (List (Stmt α))) (color : Option (List α)),
      ∀ r ∈ leafwise L mode p base own color, ∃ k col T, r = drawPrimitive k mode col T := by
  induction p with
  | nil =>
    intro base own color r hr
    simp [leafwise] at hr
  | cons st p ih =>
    intro base own color r hr
    cases st with
    | pushMatrix => exact ih _ _ _ r (by simpa [leafwise] using hr)
    | popMatrix => exact ih _ _ _ r (by simpa [leafwise] using hr)
    | setColor c => exact ih _ _ _ r (by simpa [leafwise] using hr)
    | draw k c =>
      simp only [leafwise, List.mem_cons] at hr
      rcases hr with hr | hr
      · exact ⟨k, _, _, hr⟩
      · exact ih _ _ _ r hr
    | identity =>
      cases own with
      | none => exact ih _ _ _ r (by simpa [leafwise] using hr)
      | some ops => exact ih _ _ _ r (by simpa [leafwise] using hr)
    | translate v =>
      cases own with
      | none => exact ih _ _ _ r (by simpa [leafwise] using hr)
      | some ops => exact ih _ _ _ r (by simpa [leafwise] using hr)
    | scale v =>
      cases own with
      | none => exact ih _ _ _ r (by simpa [leafwise] using hr)
      | some ops => exact ih _ _ _ r (by simpa [leafwise] using hr)
    | rotate angle axis =>
      cases own with
      | none => exact ih _ _ _ r (by simpa [leafwise] using hr)
      | some ops => exact ih _ _ _ r (by simpa [leafwise] using hr)

/-- The frame starts with the sky. -/
theorem animateDraws_sky (L : MathLib α) (a x : α) :
    ∃ rest, animateDraws L a x = drawSky ++ rest := by
  simp only [animateDraws, List.append_assoc]
  exact ⟨_, rfl⟩

/-- The leaf-by-leaf reading of the sky and what follows it. -/
theorem leafwise_drawSky (L : MathLib α) (mode : String) (rest : List (Stmt α)) (M : Mat4 α)
    (color : Option (List α)) :
    leafwise L mode (drawSky ++ rest) M none color =
      drawSquare mode (some [0.0, 0.0, 0.0, 1.0])
        (mat4.scale (mat4.translate mat4.identity ⟨0.0, 0.6, 0⟩) ⟨3.0, 1.2, 1.0⟩) ::
      leafwise L mode rest mat4.identity none (some [0.0, 0.0, 0.0, 1.0]) := by
  generalize hrest : rest = q
  simp only [drawSky, List.cons_append, List.nil_append,
      leafwise, Stmt.apply, applyAll, List.foldl, Option.getD, drawPrimitive]
  rfl

end FrameLemmas

/-! ## The mode is read by the draw functions only -/

section ModeLemmas

variable {α : Type}

theorem drawPrimitive_triple (k : PrimitiveKind) (mode : String) (color : Option (List α))
    (M : Mat4 α) : (drawPrimitive k mode color M).triple = (k, color, M) := by
  cases k <;> rfl

theorem drawPrimitive_kind (k : PrimitiveKind) (mode : String) (color : Option (List α))
    (M : Mat4 α) : (drawPrimitive k mode color M).kind = k := by
  cases k <;> rfl

theorem drawPrimitive_color (k : PrimitiveKind) (mode : String) (color : Option (List α))
    (M : Mat4 α) : (drawPrimitive k mode color M).color = color := by
  cases k <;> rfl

theorem drawPrimitive_transform (k : PrimitiveKind) (mode : String)
    (color : Option (List α)) (M : Mat4 α) : (drawPrimitive k mode color M).transform = M := by
  cases k <;> rfl

theorem State.SameButMode.current_eq {s t : State α} (h : s.SameButMode t) :
    s.current = t.current := by
  obtain ⟨h1, _, h3, _⟩ := h
  simp [State.current, h1, h3]

variable [LinearOrderedField α]

/-- The leaf-by-leaf reading under one mode is the reading under another with
every record drawn again under the first. -/
theorem leafwise_mode (L : MathLib α) (mode mode0 : String) (p : List (Stmt α)) :
    ∀ (base : Mat4 α) (own : Option (List (Stmt α))) (color : Option (List α)),
      leafwise L mode p base own color =
        (leafwise L mode0 p base own color).map
          (fun r => drawPrimitive r.kind mode r.color r.transform) := by
  induction p with
  | nil => intro base own color; simp [leafwise]
  | cons st p ih =>
    intro base own color
    cases st with
    | pushMatrix => simpa [leafwise] using ih _ _ _
    | popMatrix => simpa [leafwise] using ih _ _ _
    | setColor c => simpa [leafwise] using ih _ _ _
    | draw k c =>
      cases c <;>
        simp only [leafwise, List.map_cons, drawPrimitive_kind, drawPrimitive_color,
          drawPrimitive_transform, ← ih]
    | identity => cases own <;> simpa [leafwise] using ih _ _ _
    | translate v => cases own <;> simpa [leafwise] using ih _ _ _
    | scale v => cases own <;> simpa [leafwise] using ih _ _ _
    | rotate angle axis => cases own <;> simpa [leafwise] using ih _ _ _

/-- The leaf-by-leaf reading under a mode, from the triples of the reading
under another. -/
theorem leafwise_of_triples (L : MathLib α) (mode mode0 : String) (p : List (Stmt α))
    (base : Mat4 α) (own : Option (List (Stmt α))) (color : Option (List α)) :
    leafwise L mode p base own color =
      ((leafwise L mode0 p base own color).map Rendered.triple).map
        (fun x => drawPrimitive x.1 mode x.2.1 x.2.2) := by
  rw [List.map_map]
  exact leafwise_mode L mode mode0 p base own color

/-- A statement keeps two states the same but for the mode: it fails in both
or succeeds in both. -/
theorem step_sameButMode (L : MathLib α) (st : Stmt α) {s t : State α}
    (h : s.SameButMode t) :
    (step L st s = none ∧ step L st t = none) ∨
      ∃ s1 t1, step L st s = some s1 ∧ step L st t = some t1 ∧ s1.SameButMode t1 := by
  obtain ⟨heap, stack, mM, color, mode1, x, d, a, anim, cons, rend1, pend, next⟩ := s
  obtain ⟨heap2, stack2, mM2, color2, mode2, x2, d2, a2, anim2, cons2, rend2, pend2, next2⟩ := t
  obtain ⟨h1, h2, h3, h4, h5, h6, h7, h8, h9, h10, h11, h12⟩ := h
  simp only at h1 h2 h3 h4 h5 h6 h7 h8 h9 h10 h11 h12
  subst h1 h2 h3 h4 h5 h6 h7 h8 h9 h11 h12
  cases st with
  | setColor c => simp [step, State.SameButMode, h10]
  | popMatrix => simp [step, State.SameButMode, h10]
  | pushMatrix =>
    cases mM with
    | none => exact Or.inl ⟨rfl, rfl⟩
    | some r =>
      cases hp : pushMatrix heap stack r with
      | none => exact Or.inl ⟨by simp [step, hp], by simp [step, hp]⟩
      | some res => simp [step, hp, State.SameButMode, h10]
  | draw k c =>
    cases mM with
    | none => exact Or.inl ⟨rfl, rfl⟩
    | some r =>
      cases hM : heap[r]? with
      | none => exact Or.inl ⟨by simp [step, hM], by simp [step, hM]⟩
      | some M => cases c <;> simp [step, hM, State.SameButMode, h10, drawPrimitive_triple]
  | identity =>
    cases mM with
    | none => exact Or.inl ⟨rfl, rfl⟩
    | some r =>
      cases hM : heap[r]? with
      | none =>
        exact Or.inl ⟨by simp [step, State.updateCurrent, hM],
          by simp [step, State.updateCurrent, hM]⟩
      | some M => simp [step, State.updateCurrent, hM, State.SameButMode, h10]
  | translate v =>
    cases mM with
    | none => exact Or.inl ⟨rfl, rfl⟩
    | some r =>
      cases hM : heap[r]? with
      | none =>
        exact Or.inl ⟨by simp [step, State.updateCurrent, hM],
          by simp [step, State.updateCurrent, hM]⟩
      | some M => simp [step, State.updateCurrent, hM, State.SameButMode, h10]
  | scale v =>
    cases mM with
    | none => exact Or.inl ⟨rfl, rfl⟩
    | some r =>
      cases hM : heap[r]? with
      | none =>
        exact Or.inl ⟨by simp [step, State.updateCurrent, hM],
          by simp [step, State.updateCurrent, hM]⟩
      | some M => simp [step, State.updateCurrent, hM, State.SameButMode, h10]
  | rotate angle axis =>
    cases mM with
    | none => exact Or.inl ⟨rfl, rfl⟩
    | some r =>
      cases hM : heap[r]? with
      | none =>
        exact Or.inl ⟨by simp [step, State.updateCurrent, hM],
          by simp [step, State.updateCurrent, hM]⟩
      | some M => simp [step, State.updateCurrent, hM, State.SameButMode, h10]

/-- A sequence of statements keeps two states the same but for the mode. -/
theorem run_sameButMode (L : MathLib α) (p : List (Stmt α)) :
    ∀ {s t : State α}, s.SameButMode t →
      (run L p s = none ∧ run L p t = none) ∨
        ∃ s1 t1, run L p s = some s1 ∧ run L p t = some t1 ∧ s1.SameButMode t1 := by
  induction p with
  | nil => intro s t h; exact Or.inr ⟨s, t, rfl, rfl, h⟩
  | cons st p ih =>
    intro s t h
    rcases step_sameButMode L st h with ⟨h1, h2⟩ | ⟨s1, t1, h1, h2, h3⟩
    · exact Or.inl ⟨by simp [run, h1], by simp [run, h2]⟩
    · simpa [run, h1, h2] using ih h3

/-- The update of the animation parameters keeps two states the same but for
the mode. -/
theorem animateUpdate_sameButMode {s t : State α} (h : s.SameButMode t) :
    (animateUpdate s).SameButMode (animateUpdate t) := by
  obtain ⟨h1, h2, h3, h4, h5, h6, h7, h8, h9, h10, h11, h12⟩ := h
  obtain ⟨a1, a2, a3, a4, _, a6, a7, a8, a9, a10, a11, a12⟩ := animateUpdate_fields s
  obtain ⟨b1, b2, b3, b4, _, b6, b7, b8, b9, b10, b11, b12⟩ := animateUpdate_fields t
  refine ⟨by rw [a1, b1, h1], by rw [a3, b3, h2], by rw [a2, b2, h3], by rw [a4, b4, h4],
    by rw [a12, b12, h5, h6], ?_, by rw [a11, b11, h7], by rw [a6, b6, h8],
    by rw [a7, b7, h9], by rw [a8, b8, h10], by rw [a9, b9, h11], by rw [a10, b10, h12]⟩
  rw [animateUpdate_direction, animateUpdate_direction, h5, h6]

/-- One frame keeps two states the same but for the mode. -/
theorem animate_sameButMode (L : MathLib α) {s t : State α} (h : s.SameButMode t) :
    (animate L s = none ∧ animate L t = none) ∨
      ∃ s1 t1, animate L s = some s1 ∧ animate L t = some t1 ∧ s1.SameButMode t1 := by
  have hu := animateUpdate_sameButMode h
  have hx : (animateUpdate s).translationX = (animateUpdate t).translationX := hu.2.2.2.2.1
  have ha : (animateUpdate s).rotationAngle = (animateUpdate t).rotationAngle :=
    hu.2.2.2.2.2.2.1
  rcases run_sameButMode L
      (animateDraws L (animateUpdate s).rotationAngle (animateUpdate s).translationX) hu with
    ⟨h1, h2⟩ | ⟨s1, t1, h1, h2, h3⟩
  · rw [hx, ha] at h2
    exact Or.inl ⟨by simp only [animate, h1], by simp only [animate, h2]⟩
  · rw [hx, ha] at h2
    obtain ⟨g1, g2, g3, g4, g5, g6, g7, g8, g9, g10, g11, g12⟩ := h3
    refine Or.inr
      ⟨{ s1 with pending := s1.pending ++ [s1.nextHandle], nextHandle := s1.nextHandle + 1,
                 animation := some s1.nextHandle },
       { t1 with pending := t1.pending ++ [t1.nextHandle], nextHandle := t1.nextHandle + 1,
                 animation := some t1.nextHandle },
       by simp only [animate, h1, requestAnimationFrame],
       by simp only [animate, h2, requestAnimationFrame], ?_⟩
    exact ⟨g1, g2, g3, g4, g5, g6, g7, by simp [g12], g9, g10, by simp [g11, g12],
      by simp [g12]⟩

end ModeLemmas

/-! ## Columns under translate and scale -/

section ScaleLemmas

variable {α : Type} [LinearOrderedField α]

/-- The columns of the linear part after `mat4.scale`: each is the column
before, times the factor of its axis. -/
theorem scale_columns (t : Mat4 α) (v : Vec3 α) (i : Fin 4) :
    (mat4.scale t v) i 0 = t i 0 * v.x ∧ (mat4.scale t v) i 1 = t i 1 * v.y ∧
      (mat4.scale t v) i 2 = t i 2 * v.z ∧ (mat4.scale t v) i 3 = t i 3 := by
  simp [mat4.scale, mat4.scaling, Matrix.mul_apply, Fin.sum_univ_four, Matrix.vecHead,
    Matrix.vecTail]

/-- The columns of the linear part are left as they are by `mat4.translate`. -/
theorem translate_columns (t : Mat4 α) (v : Vec3 α) (i : Fin 4) :
    (mat4.translate t v) i 0 = t i 0 ∧ (mat4.translate t v) i 1 = t i 1 ∧
      (mat4.translate t v) i 2 = t i 2 := by
  simp [mat4.translate, mat4.translation, Matrix.mul_apply, Fin.sum_univ_four, Matrix.vecHead,
    Matrix.vecTail]

/-- A matrix with a zero column sends two points that differ in that
coordinate only to the same image. -/
theorem mulVec_zero_column (A : Mat4 α) (j : Fin 4) (hA : ∀ i, A i j = 0) (p q : Fin 4 → α)
    (hpq : ∀ k, k ≠ j → p k = q k) : Matrix.mulVec A p = Matrix.mulVec A q := by
  funext i
  simp only [Matrix.mulVec, Matrix.dotProduct]
  refine Finset.sum_congr rfl (fun k _ => ?_)
  by_cases hk : k = j
  · rw [hk, hA i]; simp
  · rw [hpq k hk]

end ScaleLemmas

/-! ## Every point inside a sequence of leaves -/

section CutLemmas

variable {α : Type} [LinearOrderedField α]

/-- A sequence of leaves cut in two: the first part runs on the value view, at
its end at most one push of the run is open, nothing has been logged, and the
second part is a sequence of leaves from there. -/
theorem View.flat_cut (L : MathLib α) (pre post : List (Stmt α)) :
    ∀ (b : Bool) (a : View α), flatFrom b (pre ++ post) = true →
      a.saved.length = (if b then 1 else 0) →
      ∃ a1 b1, View.run L pre a = some a1 ∧ a1.saved.length = (if b1 then 1 else 0) ∧
        flatFrom b1 post = true ∧ a1.console = a.console := by
  induction pre with
  | nil =>
    intro b a h hlen
    exact ⟨a, b, rfl, hlen, by simpa using h, rfl⟩
  | cons st pre ih =>
    intro b a h hlen
    cases st with
    | pushMatrix =>
      cases b with
      | true => simp [flatFrom] at h
      | false =>
        have h1 : flatFrom true (pre ++ post) = true := by simpa [flatFrom] using h
        obtain ⟨a1, b1, hrun, hl, hf, hc⟩ :=
          ih true { a with saved := a.cur :: a.saved } h1 (by simpa using hlen)
        exact ⟨a1, b1, by simpa [View.run, View.step] using hrun, hl, hf, hc⟩
    | popMatrix =>
      cases b with
      | false => simp [flatFrom] at h
      | true =>
        have h1 : flatFrom false (pre ++ post) = true := by simpa [flatFrom] using h
        cases hsaved : a.saved with
        | nil => simp [hsaved] at hlen
        | cons N rest =>
          have hrest : rest = [] := by
            rw [hsaved] at hlen
            simpa using hlen
          obtain ⟨a1, b1, hrun, hl, hf, hc⟩ :=
            ih false { a with cur := N, saved := rest } h1 (by simp [hrest])
          exact ⟨a1, b1, by simpa [View.run, View.step, hsaved] using hrun, hl, hf, hc⟩
    | identity =>
      obtain ⟨a1, b1, hrun, hl, hf, hc⟩ :=
        ih b { a with cur := mat4.identity } (by simpa [flatFrom] using h) hlen
      exact ⟨a1, b1, by simpa [View.run, View.step] using hrun, hl, hf, hc⟩
    | translate v =>
      obtain ⟨a1, b1, hrun, hl, hf, hc⟩ :=
        ih b { a with cur := mat4.translate a.cur v } (by simpa [flatFrom] using h) hlen
      exact ⟨a1, b1, by simpa [View.run, View.step] using hrun, hl, hf, hc⟩
    | scale v =>
      obtain ⟨a1, b1, hrun, hl, hf, hc⟩ :=
        ih b { a with cur := mat4.scale a.cur v } (by simpa [flatFrom] using h) hlen
      exact ⟨a1, b1, by simpa [View.run, View.step] using hrun, hl, hf, hc⟩
    | rotate angle axis =>
      obtain ⟨a1, b1, hrun, hl, hf, hc⟩ :=
        ih b { a with cur := mat4.rotate L a.cur angle axis } (by simpa [flatFrom] using h) hlen
      exact ⟨a1, b1, by simpa [View.run, View.step] using hrun, hl, hf, hc⟩
    | setColor c =>
      obtain ⟨a1, b1, hrun, hl, hf, hc⟩ :=
        ih b { a with color := some c } (by simpa [flatFrom] using h) hlen
      exact ⟨a1, b1, by simpa [View.run, View.step] using hrun, hl, hf, hc⟩
    | draw k c =>
      obtain ⟨a1, b1, hrun, hl, hf, hc⟩ :=
        ih b { a with rendered := a.rendered ++
            [drawPrimitive k a.mode
              (match c with
                | .global => a.color
                | .loc c1 => some c1) a.cur] }
          (by simpa [flatFrom] using h) hlen
      exact ⟨a1, b1, by cases c <;> simpa [View.run, View.step] using hrun, hl, hf, hc⟩

/-- A sequence of leaves cut in two, on the state: the first part runs from
every state whose current transform is defined; at the cut the current
transform is defined, nothing has been logged, the stack is the one at the
start with at most one entry more, and the second part is a sequence of
leaves from there. -/
theorem run_cut (L : MathLib α) {s : State α} {M : Mat4 α} (hs : s.current = some M)
    (pre post : List (Stmt α)) (h : flatFrom false (pre ++ post) = true) :
    ∃ t Mt inside, run L pre s = some t ∧ t.current = some Mt ∧ t.console = s.console ∧
      t.matrixStack.length = s.matrixStack.length + (if inside then 1 else 0) ∧
      flatFrom inside post = true := by
  obtain ⟨a1, b1, hrun, hl, hf, hc⟩ :=
    View.flat_cut L pre post false (View.start s M) h rfl
  obtain ⟨t, refs, r1, hrun1, hsim⟩ := run_of_view L hs hrun
  refine ⟨t, a1.cur, b1, hrun1, hsim.current, by rw [hsim.console, hc]; rfl, ?_, hf⟩
  have hlen : refs.length = a1.saved.length := by
    simpa using congrArg List.length hsim.saved
  rw [hsim.stack, List.length_append, List.length_reverse, hlen, hl]

end CutLemmas

/-! ## The animation parameters over the frames -/

section MotionLemmas

variable {α : Type} [LinearOrderedField α]

theorem translationSpeed_pos : (0 : α) < translationSpeed := by
  norm_num [translationSpeed]

theorem translationRange_pos : (0 : α) < translationRange := by
  norm_num [translationRange]

theorem translationSpeed_lt_range : (translationSpeed : α) < translationRange := by
  norm_num [translationSpeed, translationRange]

/-- One update of the position and the direction, on the numbers: the bounds
are kept, the direction is reversed exactly when the new position is beyond
the range, and after a reversal the next position is within the range. -/
theorem motion_step (x d : α) (hd : d = 1 ∨ d = -1)
    (hb : |x| ≤ translationRange + translationSpeed)
    (h1 : translationRange < x → d = -1) (h2 : x < -translationRange → d = 1) :
    ((if |x + translationSpeed * d| > translationRange then d * -1 else d) = 1 ∨
      (if |x + translationSpeed * d| > translationRange then d * -1 else d) = -1) ∧
    |x + translationSpeed * d| ≤ translationRange + translationSpeed ∧
    (translationRange < x + translationSpeed * d →
      (if |x + translationSpeed * d| > translationRange then d * -1 else d) = -1) ∧
    (x + translationSpeed * d < -translationRange →
      (if |x + translationSpeed * d| > translationRange then d * -1 else d) = 1) ∧
    ((if |x + translationSpeed * d| > translationRange then d * -1 else d) = -d ↔
      |x + translationSpeed * d| > translationRange) ∧
    (|x + translationSpeed * d| > translationRange →
      |x + translationSpeed * d + translationSpeed * (d * -1)| ≤ translationRange) := by
  have hS : (0 : α) < translationSpeed := translationSpeed_pos
  have hR : (0 : α) < translationRange := translationRange_pos
  have hSR : (translationSpeed : α) < translationRange := translationSpeed_lt_range
  have hne : (1 : α) ≠ -1 := by norm_num
  obtain ⟨hlo, hhi⟩ := abs_le.1 hb
  rcases hd with hd | hd
  · subst hd
    have hx : x ≤ translationRange := by
      by_contra hcon
      exact hne (h1 (not_le.1 hcon))
    by_cases hrev : |x + translationSpeed * 1| > translationRange
    · have hpos : translationRange < x + translationSpeed * 1 := by
        rcases lt_abs.1 hrev with h | h
        · exact h
        · linarith
      rw [if_pos hrev]
      refine ⟨Or.inr (by ring), abs_le.2 ⟨by linarith, by linarith⟩, fun _ => by ring,
        fun h => by linarith, ⟨fun _ => hrev, fun _ => by ring⟩,
        fun _ => abs_le.2 ⟨by linarith, by linarith⟩⟩
    · rw [if_neg hrev]
      have hle := abs_le.1 (not_lt.1 hrev)
      refine ⟨Or.inl rfl, abs_le.2 ⟨by linarith, by linarith⟩, fun h => by linarith,
        fun h => by linarith, ⟨fun h => absurd h hne, fun h => absurd h hrev⟩,
        fun h => absurd h hrev⟩
  · subst hd
    have hx : -translationRange ≤ x := by
      by_contra hcon
      exact hne (h2 (not_le.1 hcon)).symm
    by_cases hrev : |x + translationSpeed * -1| > translationRange
    · have hneg : x + translationSpeed * -1 < -translationRange := by
        rcases lt_abs.1 hrev with h | h
        · linarith
        · linarith
      rw [if_pos hrev]
      refine ⟨Or.inl (by ring), abs_le.2 ⟨by linarith, by linarith⟩, fun h => by linarith,
        fun _ => by ring, ⟨fun _ => hrev, fun _ => by ring⟩,
        fun _ => abs_le.2 ⟨by linarith, by linarith⟩⟩
    · rw [if_neg hrev]
      have hle := abs_le.1 (not_lt.1 hrev)
      refine ⟨Or.inr rfl, abs_le.2 ⟨by linarith, by linarith⟩, fun h => by linarith,
        fun h => by linarith, ⟨fun h => absurd h.symm (by simpa using hne), fun h => absurd h hrev⟩,
        fun h => absurd h hrev⟩

/-- The update of the animation parameters keeps the motion in bounds. -/
theorem animateUpdate_inBounds (s : State α) (h : s.InBounds) : (animateUpdate s).InBounds := by
  obtain ⟨hd, hb, h1, h2⟩ := h
  obtain ⟨g1, g2, g3, g4, _, _⟩ := motion_step s.translationX s.direction hd hb h1 h2
  unfold State.InBounds
  rw [animateUpdate_direction, (animateUpdate_fields s).2.2.2.2.2.2.2.2.2.2.2]
  exact ⟨g1, g2, g3, g4⟩

/-- The state after `n` frames: every frame runs to its end, the angle has
grown by `rotationSpeed` per frame, the motion stays in bounds, and the stack,
the mode and the console are as at the start. -/
theorem animateTimes_spec (L : MathLib α) (s : State α) (M : Mat4 α) (hs : s.current = some M)
    (n : Nat) :
    ∃ t Mt, animateTimes L n s = some t ∧ t.current = some Mt ∧
      t.rotationAngle = s.rotationAngle + n * rotationSpeed ∧ (s.InBounds → t.InBounds) ∧
      t.matrixStack = s.matrixStack ∧ t.mode = s.mode ∧ t.console = s.console := by
  induction n with
  | zero => exact ⟨s, M, rfl, hs, by simp, fun h => h, rfl, rfl, rfl⟩
  | succ n ih =>
    obtain ⟨t, Mt, h1, h2, h3, h4, h5, h6, h7⟩ := ih
    obtain ⟨u, Mu, g1, g2, g3, g4, g5, g6, _, _, _, g10, g11, _⟩ := animate_result L t Mt h2
    refine ⟨u, Mu, by simp only [animateTimes, h1, g1], g3, ?_, ?_, by rw [g2, h5],
      by rw [g10, h6], by rw [g11, h7]⟩
    · rw [g6, (animateUpdate_fields t).2.2.2.2.2.2.2.2.2.2.1, h3]
      push_cast
      ring
    · intro hin
      have hu := animateUpdate_inBounds t (h4 hin)
      unfold State.InBounds at hu ⊢
      rw [g4, g5]
      exact hu

end MotionLemmas

/-! ## Where the frame uses the rotation angle -/

section AngleLemmas

variable {α : Type} [LinearOrderedField α]

/-- The leaf-by-leaf reading of a sequence of leaves followed by more
statements: the reading of the leaves, then the reading of what follows from
the base and the colour the leaves leave. -/
theorem leafwise_append (L : MathLib α) (mode : String) (p : List (Stmt α)) :
    ∀ (base : Mat4 α) (own : Option (List (Stmt α))) (color : Option (List α)),
      flatFrom own.isSome p = true →
      ∃ base1 color1, ∀ q : List (Stmt α),
        leafwise L mode (p ++ q) base own color =
          leafwise L mode p base own color ++ leafwise L mode q base1 none color1 := by
  induction p with
  | nil =>
    intro base own color h
    cases own with
    | some ops => simp [flatFrom] at h
    | none => exact ⟨base, color, fun q => by simp [leafwise]⟩
  | cons st p ih =>
    intro base own color h
    cases st with
    | pushMatrix =>
      cases own with
      | some ops => simp [flatFrom] at h
      | none =>
        obtain ⟨b1, c1, h1⟩ := ih base (some []) color (by simpa [flatFrom] using h)
        exact ⟨b1, c1, fun q => by simpa [leafwise] using h1 q⟩
    | popMatrix =>
      cases own with
      | none => simp [flatFrom] at h
      | some ops =>
        obtain ⟨b1, c1, h1⟩ := ih base none color (by simpa [flatFrom] using h)
        exact ⟨b1, c1, fun q => by simpa [leafwise] using h1 q⟩
    | setColor c =>
      obtain ⟨b1, c1, h1⟩ := ih base own (some c) (by simpa [flatFrom] using h)
      exact ⟨b1, c1, fun q => by simpa [leafwise] using h1 q⟩
    | draw k c =>
      obtain ⟨b1, c1, h1⟩ := ih base own color (by simpa [flatFrom] using h)
      exact ⟨b1, c1, fun q => by simpa [leafwise] using h1 q⟩
    | identity =>
      cases own with
      | none =>
        obtain ⟨b1, c1, h1⟩ := ih (Stmt.identity.apply L base) none color
          (by simpa [flatFrom] using h)
        exact ⟨b1, c1, fun q => by simpa [leafwise] using h1 q⟩
      | some ops =>
        obtain ⟨b1, c1, h1⟩ := ih base (some (ops ++ [.identity])) color
          (by simpa [flatFrom] using h)
        exact ⟨b1, c1, fun q => by simpa [leafwise] using h1 q⟩
    | translate v =>
      cases own with
      | none =>
        obtain ⟨b1, c1, h1⟩ := ih ((Stmt.translate v).apply L base) none color
          (by simpa [flatFrom] using h)
        exact ⟨b1, c1, fun q => by simpa [leafwise] using h1 q⟩
      | some ops =>
        obtain ⟨b1, c1, h1⟩ := ih base (some (ops ++ [.translate v])) color
          (by simpa [flatFrom] using h)
        exact ⟨b1, c1, fun q => by simpa [leafwise] using h1 q⟩
    | scale v =>
      cases own with
      | none =>
        obtain ⟨b1, c1, h1⟩ := ih ((Stmt.scale v).apply L base) none color
          (by simpa [flatFrom] using h)
        exact ⟨b1, c1, fun q => by simpa [leafwise] using h1 q⟩
      | some ops =>
        obtain ⟨b1, c1, h1⟩ := ih base (some (ops ++ [.scale v])) color
          (by simpa [flatFrom] using h)
        exact ⟨b1, c1, fun q => by simpa [leafwise] using h1 q⟩
    | rotate angle axis =>
      cases own with
      | none =>
        obtain ⟨b1, c1, h1⟩ := ih ((Stmt.rotate angle axis).apply L base) none color
          (by simpa [flatFrom] using h)
        exact ⟨b1, c1, fun q => by simpa [leafwise] using h1 q⟩
      | some ops =>
        obtain ⟨b1, c1, h1⟩ := ih base (some (ops ++ [.rotate angle axis])) color
          (by simpa [flatFrom] using h)
        exact ⟨b1, c1, fun q => by simpa [leafwise] using h1 q⟩

/-- What `drawSun(rotationAngle)` hands the renderer, whatever the transform and
the colour before it: the disc, and the rays turned by the angle. -/
theorem leafwise_drawSun (L : MathLib α) (mode : String) (a : α) (base : Mat4 α)
    (color : Option (List α)) :
    leafwise L mode (drawSun a) base none color =
      [drawCircle mode (some [1.0, 1.0, 1.0, 1.0])
        (mat4.scale (mat4.translate mat4.identity ⟨-0.68, 0.84, 0⟩) ⟨0.09, 0.09, 1.0⟩),
       drawRays mode (some [1.0, 1.0, 1.0, 1.0])
        (mat4.rotate L
          (mat4.scale (mat4.translate mat4.identity ⟨-0.68, 0.84, 0⟩) ⟨0.135, 0.135, 1.0⟩)
          a ⟨0, 0, 1⟩)] := by
  simp only [drawSun, leafwise, Stmt.apply, applyAll, List.foldl, Option.getD, drawPrimitive,
    List.nil_append, List.cons_append]

/-- What `drawFan(rotationAngle, true, t_x, t_y, sc)` hands the renderer,
whatever the transform and the colour before it: the pole, the blades turned by
the angle, and the hub. -/
theorem leafwise_drawFan (L : MathLib α) (mode : String) (a t_x t_y sc : α) (base : Mat4 α)
    (color : Option (List α)) :
    leafwise L mode (drawFan a true t_x t_y sc) base none color =
      [drawSquare mode (some [0.3, 0, 0, 1.0])
        (mat4.scale
          (mat4.translate (mat4.translate mat4.identity ⟨t_x, t_y, 0⟩)
            ⟨0.7 * sc, -0.25 * sc, 0⟩)
          ⟨0.03 * sc, 0.55 * sc, 1.0⟩),
       drawFanBlades mode (some [0.8, 0.65, 0, 1])
        (mat4.rotate L
          (mat4.scale
            (mat4.translate (mat4.translate mat4.identity ⟨t_x, t_y, 0⟩)
              ⟨0.7 * sc, 0.06 * sc, 0⟩)
            ⟨0.2 * sc, 0.2 * sc, 1.0⟩)
          a ⟨0, 0, 1⟩),
       drawCircle mode (some [0, 0, 0, 1])
        (mat4.scale
          (mat4.translate (mat4.translate mat4.identity ⟨t_x, t_y, 0⟩)
            ⟨0.7 * sc, 0.053 * sc, 0⟩)
          ⟨0.03 * sc, 0.03 * sc, 1.0⟩)] := by
  simp only [drawFan, if_true, leafwise, Stmt.apply, applyAll, List.foldl, Option.getD,
    drawPrimitive, List.nil_append, List.cons_append]

/-- The frame, cut at the calls that take the rotation angle: the sky, the
sun with the angle, a sequence of leaves, the two fans with minus the angle,
and the rest. -/
theorem animateDraws_split (L : MathLib α) (a x : α) :
    ∃ mid post : List (Stmt α), flatFrom false mid = true ∧
      animateDraws L a x =
        drawSky ++ (drawSun a ++ (mid ++ (drawFan (-1 * a) true 0.0 0.045 0.7 ++
          (drawFan (-1 * a) true (-0.04) 0.05 1 ++ post)))) := by
  refine ⟨drawCloud ++
      drawStar L 0.4 0.8 0.015 0.025 0 1.2 ++
      drawStar L 0.55 0.95 0.012 0.02 0 0.8 ++
      drawStar L (-0.15) 0.75 0.01 0.015 0 1.2 ++
      drawStar L 0.02 0.65 0.005 0.01 0 1.7 ++
      drawStar L (-0.03) 0.5 0.003 0.006 0 2.0 ++
      drawMountain (-0.69) 0.097 1.1 0.25 (-0.665) 0.1 false ++
      drawMountain (-0.054) 0.1 1.5 0.5 0.00 0.106 false ++
      drawMountain 0.83 0.075 0.8 0.2 (-0.545) (-0.005) true ++
      drawGround ++
      drawRoad ++
      drawRiver ++
      drawTrees true 0.35 0.01 0.86 0.85 ++
      drawTrees true 0 0.005 1 1 ++
      drawTrees true (-0.15) 0.01 0.8 0.8 ++
      drawBoat x 0.08 0.055 0.75 [0.2, 0.2, 0.5, 0.9] ++
      drawBoat x 0 0 1 [1, 0, 0, 0.9],
    drawBush false 0 0 0 ++
      drawBush true 0.7 0.00 1.02 ++
      drawBush true 1.46 (-0.18) 1.6 ++
      drawBush true 2.15 0.25 1.3 ++
      drawHouse ++
      drawCar, ?_, ?_⟩
  ·
    refine flatFrom_append _ _ false ?_ (drawBoat_flat _ _ _ _ _)
    refine flatFrom_append _ _ false ?_ (drawBoat_flat _ _ _ _ _)
    refine flatFrom_append _ _ false ?_ (drawTrees_flat _ _ _ _ _)
    refine flatFrom_append _ _ false ?_ (drawTrees_flat _ _ _ _ _)
    refine flatFrom_append _ _ false ?_ (drawTrees_flat _ _ _ _ _)
    refine flatFrom_append _ _ false ?_ (drawRiver_flat)
    refine flatFrom_append _ _ false ?_ (drawRoad_flat)
    refine flatFrom_append _ _ false ?_ (drawGround_flat)
    refine flatFrom_append _ _ false ?_ (drawMountain_flat _ _ _ _ _ _ _)
    refine flatFrom_append _ _ false ?_ (drawMountain_flat _ _ _ _ _ _ _)
    refine flatFrom_append _ _ false ?_ (drawMountain_flat _ _ _ _ _ _ _)
    refine flatFrom_append _ _ false ?_ (drawStar_flat _ _ _ _ _ _ _)
    refine flatFrom_append _ _ false ?_ (drawStar_flat _ _ _ _ _ _ _)
    refine flatFrom_append _ _ false ?_ (drawStar_flat _ _ _ _ _ _ _)
    refine flatFrom_append _ _ false ?_ (drawStar_flat _ _ _ _ _ _ _)
    refine flatFrom_append _ _ false ?_ (drawStar_flat _ _ _ _ _ _ _)
    exact drawCloud_flat
  · simp only [animateDraws, List.append_assoc]

/-- What one frame hands the renderer contains the rays of the sun turned by the
angle and the blades of the two fans turned by minus the angle. -/
theorem leafwise_animateDraws (L : MathLib α) (mode : String) (a x : α) (M : Mat4 α)
    (color : Option (List α)) :
    ∃ A B C D : List (Rendered α),
      leafwise L mode (animateDraws L a x) M none color =
        A ++ [drawRays mode (some [1.0, 1.0, 1.0, 1.0])
          (mat4.rotate L
            (mat4.scale (mat4.translate mat4.identity ⟨-0.68, 0.84, 0⟩) ⟨0.135, 0.135, 1.0⟩)
            a ⟨0, 0, 1⟩)] ++
        B ++ [drawFanBlades mode (some [0.8, 0.65, 0, 1])
          (mat4.rotate L
            (mat4.scale
              (mat4.translate (mat4.translate mat4.identity ⟨0.0, 0.045, 0⟩)
                ⟨0.7 * 0.7, 0.06 * 0.7, 0⟩)
              ⟨0.2 * 0.7, 0.2 * 0.7, 1.0⟩)
            (-1 * a) ⟨0, 0, 1⟩)] ++
        C ++ [drawFanBlades mode (some [0.8, 0.65, 0, 1])
          (mat4.rotate L
            (mat4.scale
              (mat4.translate (mat4.translate mat4.identity ⟨-0.04, 0.05, 0⟩)
                ⟨0.7 * 1, 0.06 * 1, 0⟩)
              ⟨0.2 * 1, 0.2 * 1, 1.0⟩)
            (-1 * a) ⟨0, 0, 1⟩)] ++ D := by
  obtain ⟨mid, post, hmid, hsplit⟩ := animateDraws_split L a x
  obtain ⟨b1, c1, h1⟩ := leafwise_append L mode drawSky M none color drawSky_flat
  obtain ⟨b2, c2, h2⟩ := leafwise_append L mode (drawSun a) b1 none c1 (drawSun_flat a)
  obtain ⟨b3, c3, h3⟩ := leafwise_append L mode mid b2 none c2 hmid
  obtain ⟨b4, c4, h4⟩ := leafwise_append L mode (drawFan (-1 * a) true 0.0 0.045 0.7) b3 none c3
    (drawFan_flat _ _ _ _ _)
  obtain ⟨b5, c5, h5⟩ := leafwise_append L mode (drawFan (-1 * a) true (-0.04) 0.05 1) b4 none
    c4 (drawFan_flat _ _ _ _ _)
  obtain ⟨disc, e0⟩ : ∃ disc, leafwise L mode (drawSun a) b1 none c1 = [disc, _] :=
    ⟨_, leafwise_drawSun L mode a b1 c1⟩
  obtain ⟨pole1, hub1, e1⟩ : ∃ pole hub,
      leafwise L mode (drawFan (-1 * a) true 0.0 0.045 0.7) b3 none c3 = [pole, _, hub] :=
    ⟨_, _, leafwise_drawFan L mode (-1 * a) 0.0 0.045 0.7 b3 c3⟩
  obtain ⟨pole2, hub2, e2⟩ : ∃ pole hub,
      leafwise L mode (drawFan (-1 * a) true (-0.04) 0.05 1) b4 none c4 = [pole, _, hub] :=
    ⟨_, _, leafwise_drawFan L mode (-1 * a) (-0.04) 0.05 1 b4 c4⟩
  rw [hsplit, h1, h2, h3, h4, h5, e0, e1, e2]
  exact ⟨leafwise L mode drawSky M none color ++ [disc],
    leafwise L mode mid b2 none c2 ++ [pole1], [hub1, pole2],
    hub2 :: leafwise L mode post b5 none c5,
    by simp only [List.append_assoc, List.cons_append, List.nil_append]⟩

end AngleLemmas

/-! ## The frame scheduler -/

section LoopLemmas

variable {α : Type} [LinearOrderedField α]

/-- One frame from a state with nothing pending leaves one animation loop. -/
theorem animate_oneLoop (L : MathLib α) (s : State α) (M : Mat4 α) (hs : s.current = some M)
    (hp : s.pending = []) (hn : s.nextHandle ≠ 0) :
    ∃ s1, animate L s = some s1 ∧ s1.OneLoop ∧ s1.pending = [s.nextHandle] ∧
      s1.animation = some s.nextHandle ∧ s1.nextHandle = s.nextHandle + 1 := by
  obtain ⟨s1, M1, h1, _, h3, _, _, _, h7, h8, h9, _⟩ := animate_result L s M hs
  rw [hp, List.nil_append] at h7
  exact ⟨s1, h1, ⟨⟨M1, h3⟩, s.nextHandle, h7, h9, hn, by rw [h8]; exact Nat.lt_succ_self _⟩,
    h7, h9, h8⟩

/-- With one animation loop active, `drawScene()` cancels the pending callback
and then runs one frame. -/
theorem drawScene_cancels (L : MathLib α) (s : State α) (h : Nat) (ha : s.animation = some h)
    (h0 : h ≠ 0) : drawScene L s = animate L (cancelAnimationFrame s h) := by
  simp only [drawScene, ha, ne_eq, h0, not_false_eq_true, if_true]

/-- With one animation loop active, `drawScene()` leaves one animation loop,
with a new callback. -/
theorem drawScene_oneLoop (L : MathLib α) (s : State α) (hs : s.OneLoop) :
    ∃ s1, drawScene L s = some s1 ∧ s1.OneLoop ∧ s1.pending = [s.nextHandle] ∧
      s1.animation = some s.nextHandle ∧ s1.nextHandle = s.nextHandle + 1 ∧ s1.mode = s.mode := by
  obtain ⟨⟨M, hM⟩, h, hp, ha, h0, hlt⟩ := hs
  have hc : (cancelAnimationFrame s h).current = some M := hM
  have hpend : (cancelAnimationFrame s h).pending = [] := by
    simp [cancelAnimationFrame, hp]
  have hn : (cancelAnimationFrame s h).nextHandle ≠ 0 := by
    show s.nextHandle ≠ 0
    exact Nat.not_eq_zero_of_lt hlt
  obtain ⟨s1, h1, h2, h3, h4, h5⟩ := animate_oneLoop L _ M hc hpend hn
  obtain ⟨_, _, g1, _, _, _, _, _, _, _, _, g10, _⟩ := animate_result L _ M hc
  refine ⟨s1, by rw [drawScene_cancels L s h ha h0, h1], h2, h3, h4, h5, ?_⟩
  rw [h1] at g1
  rw [Option.some.inj g1]
  exact g10

/-- With one animation loop active, firing the pending callback leaves one
animation loop, with a new callback. -/
theorem fireFrame_oneLoop (L : MathLib α) (s : State α) (hs : s.OneLoop) (h : Nat)
    (hp : s.pending = [h]) :
    ∃ s1, fireFrame L h s = some s1 ∧ s1.OneLoop ∧ s1.pending = [s.nextHandle] ∧
      s1.animation = some s.nextHandle := by
  obtain ⟨⟨M, hM⟩, h1, hp1, _, _, hlt⟩ := hs
  have hc : State.current { s with pending := s.pending.filter (fun x => x != h) } = some M := hM
  have hn : s.nextHandle ≠ 0 := Nat.not_eq_zero_of_lt hlt
  obtain ⟨s1, g1, g2, g3, g4, _⟩ := animate_oneLoop L _ M hc (by simp [hp]) hn
  have hmem : h ∈ s.pending := by
    rw [hp]
    exact List.mem_singleton_self _
  exact ⟨s1, by rw [fireFrame, if_pos hmem]; exact g1, g2, g3, g4⟩

/-- Every event that happens keeps one animation loop active. -/
theorem Event.run_oneLoop (L : MathLib α) (e : Event) (s s1 : State α) (hs : s.OneLoop)
    (h : e.run L s = some s1) : s1.OneLoop := by
  cases e with
  | changeView view =>
    have hv : State.OneLoop { s with mode := view } := hs
    obtain ⟨s2, h2, h3, _⟩ := drawScene_oneLoop L _ hv
    have e : Render.changeView L view s = some s2 := h2
    simp only [Event.run, e, Option.some.injEq] at h
    exact h ▸ h3
  | frame handle =>
    obtain ⟨h1, hp1, _⟩ := hs.2
    by_cases hmem : handle ∈ s.pending
    · have e : handle = h1 := by simpa [hp1] using hmem
      subst e
      obtain ⟨s2, h2, h3, _⟩ := fireFrame_oneLoop L s hs handle hp1
      simp only [Event.run, h2, Option.some.injEq] at h
      exact h ▸ h3
    · simp [Event.run, fireFrame, hmem] at h

/-- Every interleaving of events keeps one animation loop active. -/
theorem runEvents_oneLoop (L : MathLib α) (evs : List Event) :
    ∀ s s1 : State α, s.OneLoop → runEvents L evs s = some s1 → s1.OneLoop := by
  induction evs with
  | nil =>
    intro s s1 hs h
    simp only [runEvents, Option.some.injEq] at h
    exact h ▸ hs
  | cons e evs ih =>
    intro s s1 hs h
    cases he : e.run L s with
    | none => simp [runEvents, he] at h
    | some s2 =>
      simp only [runEvents, he] at h
      exact ih s2 s1 (Event.run_oneLoop L e s s2 hs he) h

/-- The first `drawScene()`, from the state the script sets up, runs and leaves
one animation loop. -/
theorem webGLStart_oneLoop (L : MathLib α) (fresh : Mat4 α) :
    ∃ s0, webGLStart L (State.init fresh) = some s0 ∧ s0.OneLoop := by
  obtain ⟨s1, h1, h2, _⟩ :=
    animate_oneLoop L (State.init fresh) fresh rfl rfl (by simp [State.init])
  exact ⟨s1, h1, h2⟩

end LoopLemmas

/-! ## The matrix stack: `pushMatrix` and `popMatrix` -/

section StackClaims

variable {α : Type}

theorem writes_getElem?_ne (m c : Ref) (hc : m ≠ c) (ws : List (Mat4 α)) :
    ∀ heap : Heap α, (writes heap m ws)[c]? = heap[c]? := by
  induction ws with
  | nil => intro heap; rfl
  | cons w ws ih =>
    intro heap
    simp only [writes, List.foldl_cons] at ih ⊢
    rw [ih, List.getElem?_set_ne hc]

/-- C1: `pushMatrix` copies by value. For every heap, every stack `s` and every
reference `m` to a matrix with the components `M`, the call succeeds, the new
stack is `s` followed by one new entry `c`, the object `c` has the components
`M`, `c` is none of the objects that existed before (so neither `m` nor an
earlier entry), every object that existed before keeps its components, and
after any sequence of later writes into the object `m` the object `c` still has
the components `M`. In a program state with this heap and stack and with
`mMatrix` referring to `m`, the statement `pushMatrix(matrixStack, mMatrix)`
followed by any matrix operations on `mMatrix` (identity, translate, scale,
rotate) leaves the stack `s` followed by an entry with the components `M`,
while the current transform has become `M` with the operations applied. -/
theorem pushMatrix_copies_by_value [LinearOrderedField α] (heap : Heap α) (s : List Ref)
    (m : Ref) (M : Mat4 α) (hm : heap[m]? = some M) :
    (∃ heap1 c, pushMatrix heap s m = some (heap1, s ++ [c]) ∧
      heap1[c]? = some M ∧
      c ≠ m ∧ (∀ e, e < heap.length → c ≠ e) ∧
      (∀ e, e < heap.length → heap1[e]? = heap[e]?) ∧
      (∀ ws : List (Mat4 α), (writes heap1 m ws)[c]? = some M)) ∧
    (∀ (L : MathLib α) (st : State α) (ops : List (Stmt α)),
      st.heap = heap → st.matrixStack = s → st.mMatrix = some m →
      (∀ o ∈ ops, o.isTransform = true) →
      ∃ st1 c, run L (Stmt.pushMatrix :: ops) st = some st1 ∧
        st1.matrixStack = s ++ [c] ∧ st1.heap[c]? = some M ∧
        st1.current = some (applyAll L ops M)) := by
  have hlt : m < heap.length := (List.getElem?_eq_some.1 hm).1
  constructor
  · refine ⟨heap ++ [M], heap.length, ?_, ?_, ?_, ?_, ?_, ?_⟩
    · simp [pushMatrix, mat4.create, hm]
    · simp
    · exact Nat.ne_of_gt hlt
    · intro e he; exact Nat.ne_of_gt he
    · intro e he; exact List.getElem?_append_left he
    · intro ws
      rw [writes_getElem?_ne m heap.length (Nat.ne_of_lt hlt)]
      simp
  · intro L st ops hheap hstack hcur hops
    have hs : st.current = some M := by simp [State.current, hcur, hheap, hm]
    have hv : View.run L (Stmt.pushMatrix :: ops) (View.start st M) =
        some ⟨applyAll L ops M, [M], st.color, st.mode, st.console, st.rendered⟩ := by
      have h1 := View.run_transforms L ops hops [] [M] st.color st.mode st.console
        st.rendered M
      simp only [List.append_nil, View.run_nil] at h1
      simp only [View.start, View.run_pushMatrix, h1]
    obtain ⟨st1, refs, r1, hrun, hsim⟩ := run_of_view L hs hv
    have hsaved := hsim.saved
    cases refs with
    | nil => simp at hsaved
    | cons c refs1 =>
      cases refs1 with
      | cons c2 refs2 => simp at hsaved
      | nil =>
        refine ⟨st1, c, hrun, ?_, ?_, hsim.current⟩
        · simp [hsim.stack, hstack]
        · simpa using hsaved

/-- C1 at a concrete input: a heap with one matrix, pushed onto the empty stack. -/
theorem pushMatrix_copies_by_value_witness :
    ([1] : Heap ℚ)[0]? = some 1 ∧
    ∃ heap1 c, pushMatrix ([1] : Heap ℚ) [] 0 = some (heap1, [] ++ [c]) ∧
      heap1[c]? = some 1 ∧
      c ≠ 0 ∧ (∀ e, e < ([1] : Heap ℚ).length → c ≠ e) ∧
      (∀ e, e < ([1] : Heap ℚ).length → heap1[e]? = ([1] : Heap ℚ)[e]?) ∧
      (∀ ws : List (Mat4 ℚ), (writes heap1 0 ws)[c]? = some 1) :=
  ⟨rfl, (pushMatrix_copies_by_value [1] [] 0 1 rfl).1⟩

/-- C2: `popMatrix` is last-in first-out. A stack `t` that is not empty is some
`rest` followed by a last entry `x`, and `popMatrix` returns `x`, leaves `rest`
(the other entries, unchanged and in order) and logs nothing. A `pushMatrix` of
a matrix with the components `M` followed by `popMatrix` returns a reference to
a matrix with the components `M` and restores the stack `s`, and every object
that existed before the push has kept its components. -/
theorem popMatrix_lifo (heap : Heap α) (s : List Ref) (m : Ref) (M : Mat4 α)
    (hm : heap[m]? = some M) (t : List Ref) (ht : t ≠ []) :
    (∃ rest x, t = rest ++ [x] ∧
      popMatrix t = { value := some x, stack := rest, logged := [] }) ∧
    (∃ heap1 s1 c, pushMatrix heap s m = some (heap1, s1) ∧
      popMatrix s1 = { value := some c, stack := s, logged := [] } ∧
      heap1[c]? = some M ∧ ∀ e, e < heap.length → heap1[e]? = heap[e]?) := by
  constructor
  · refine ⟨t.dropLast, t.getLast ht, (List.dropLast_append_getLast ht).symm, ?_⟩
    have hlen : 0 < t.length := List.length_pos.2 ht
    simp [popMatrix, hlen, List.getLast?_eq_getLast _ ht]
  · refine ⟨heap ++ [M], s ++ [heap.length], heap.length, ?_, ?_, ?_, ?_⟩
    · simp [pushMatrix, mat4.create, hm]
    · simp [popMatrix]
    · simp
    · intro e he; exact List.getElem?_append_left he

/-- C2 at a concrete input: the stack `[0, 1]` is popped, and the matrix `0` of a
heap of two is pushed onto the stack `[1]` and popped again. -/
theorem popMatrix_lifo_witness :
    (∃ rest x, [0, 1] = rest ++ [x] ∧
      popMatrix [0, 1] = { value := some x, stack := rest, logged := [] }) ∧
    ∃ heap1 s1 c, pushMatrix ([1, 0] : Heap ℚ) [1] 0 = some (heap1, s1) ∧
      popMatrix s1 = { value := some c, stack := [1], logged := [] } ∧
      heap1[c]? = some 1 ∧ ∀ e, e < ([1, 0] : Heap ℚ).length → heap1[e]? = ([1, 0] : Heap ℚ)[e]? :=
  popMatrix_lifo ([1, 0] : Heap ℚ) [1] 0 1 rfl [0, 1] (by decide)

/-- C3: `popMatrix` on the empty stack writes the line "Stack is empty. No matrix
to pop!" on the console, returns no value (`undefined`, no matrix of any kind)
and leaves the stack empty; on every stack it logs that line or nothing; it
logs the line exactly when the stack is empty, and returns no value exactly
when the stack is empty. -/
theorem popMatrix_empty_signals :
    popMatrix [] =
      { value := none, stack := [], logged := ["Stack is empty. No matrix to pop!"] } ∧
    (∀ s : List Ref, (popMatrix s).logged = ["Stack is empty. No matrix to pop!"] ∨
      (popMatrix s).logged = []) ∧
    (∀ s : List Ref, (popMatrix s).logged ≠ [] ↔ s = []) ∧
    (∀ s : List Ref, (popMatrix s).value = none ↔ s = []) := by
  refine ⟨rfl, ?_, ?_, ?_⟩
  · intro s
    cases s <;> simp [popMatrix]
  · intro s
    cases s <;> simp [popMatrix]
  · intro s
    cases s with
    | nil => simp [popMatrix]
    | cons x xs => simp [popMatrix, List.getLast?_eq_getLast _ (List.cons_ne_nil x xs)]

end StackClaims

/-! ## Balanced sequences and the frame -/

section BalanceClaims

variable {α : Type} [LinearOrderedField α]

/-- C4, as stated, fails: the sequence translate; push; pop is a properly nested
sequence of push/pop operations with a translate among them, it runs from the
initial state (current transform the identity) and leaves the stack as it was,
but the current transform after it is the identity translated by (1, 0, 0),
not the identity it was before. -/
theorem balanced_sequence_keeps_translate_outside_pairs :
    (∀ o ∈ ([.translate ⟨1, 0, 0⟩, .pushMatrix, .popMatrix] : List (Stmt ℝ)),
      o.isStackOp = true) ∧
    balancedFrom 0 ([.translate ⟨1, 0, 0⟩, .pushMatrix, .popMatrix] : List (Stmt ℝ)) = true ∧
    (State.init (1 : Mat4 ℝ)).current = some 1 ∧
    ∃ s1, run ⟨Real.sin, Real.cos, Real.sqrt, Real.pi⟩
        [.translate ⟨1, 0, 0⟩, .pushMatrix, .popMatrix] (State.init (1 : Mat4 ℝ)) = some s1 ∧
      s1.matrixStack = (State.init (1 : Mat4 ℝ)).matrixStack ∧
      s1.current = some (mat4.translate 1 ⟨1, 0, 0⟩) ∧
      s1.current ≠ (State.init (1 : Mat4 ℝ)).current := by
  refine ⟨by simp [Stmt.isStackOp], rfl, rfl, ?_⟩
  have hs : (State.init (1 : Mat4 ℝ)).current = some 1 := rfl
  have hv : View.run ⟨Real.sin, Real.cos, Real.sqrt, Real.pi⟩
      [.translate ⟨1, 0, 0⟩, .pushMatrix, .popMatrix] (View.start (State.init (1 : Mat4 ℝ)) 1) =
      some ⟨mat4.translate 1 ⟨1, 0, 0⟩, [], none, "Solid", [], []⟩ := by
    simp only [View.start, State.init, View.run_translate, View.run_pushMatrix,
      View.run_popMatrix, View.run_nil]
  obtain ⟨s1, refs, r1, hrun, hsim⟩ := run_of_view _ hs hv
  refine ⟨s1, hrun, hsim.stack_eq rfl, hsim.current, ?_⟩
  rw [hsim.current, hs]
  intro h
  have h1 := congrFun (congrFun (Option.some.inj h) 0) 3
  simp [mat4.translate, mat4.translation, Matrix.mul_apply, Fin.sum_univ_four] at h1

/-- C4, amended. From every state whose current transform is defined: a properly
nested sequence of statements runs to its end (no pop finds the stack without
an entry of its own) and leaves the stack it found; when in addition every
matrix operation of the sequence stands inside a push/pop pair, the current
transform afterwards has the components it had before, and every matrix object
that existed before, other than the one `mMatrix` referred to, has kept its
components. So when the references are in order at the start (`Separate`: no
entry of the stack is the object `mMatrix` refers to, as in every state the
program reaches), every entry of the stack has the components it had, and the
references are in order at the end. -/
theorem balanced_round_trip (L : MathLib α) (s : State α) (M : Mat4 α)
    (hs : s.current = some M) :
    (∀ p : List (Stmt α), balancedFrom 0 p = true →
      ∃ s1, run L p s = some s1 ∧ s1.matrixStack = s.matrixStack) ∧
    (∀ p : List (Stmt α), guardedFrom 0 p = true →
      ∃ s1, run L p s = some s1 ∧ s1.matrixStack = s.matrixStack ∧
        s1.current = some M ∧
        (∀ c, c < s.heap.length → s.mMatrix ≠ some c → s1.heap[c]? = s.heap[c]?) ∧
        (s.Separate → s1.Separate ∧ ∀ c ∈ s.matrixStack, s1.heap[c]? = s.heap[c]?)) := by
  constructor
  · intro p hp
    obtain ⟨s1, M1, h1, h2, _⟩ := run_balanced L hs hp
    exact ⟨s1, h1, h2⟩
  · intro p hp
    obtain ⟨a1, ha, hsaved, hcur⟩ := View.run_guarded L p 0 (View.start s M) [] [] rfl rfl hp
    obtain ⟨s1, refs, r1, hrun, hsim⟩ := run_of_view L hs ha
    refine ⟨s1, hrun, hsim.stack_eq hsaved, ?_, hsim.frame, ?_⟩
    · rw [hsim.current, hcur]
      rfl
    · intro hsep
      refine ⟨hsep.after_run L p hrun, fun c hc => hsim.frame c (hsep.2.1 c hc) ?_⟩
      intro hm
      exact (hsep.2.2 c hm).2 hc

/-- C4, amended, at a concrete input: push; translate; pop from the initial state. -/
theorem balanced_round_trip_witness :
    (State.init (1 : Mat4 ℝ)).current = some 1 ∧
    ∃ s1, run ⟨Real.sin, Real.cos, Real.sqrt, Real.pi⟩
        [.pushMatrix, .translate ⟨1, 0, 0⟩, .popMatrix] (State.init (1 : Mat4 ℝ)) = some s1 ∧
      s1.matrixStack = (State.init (1 : Mat4 ℝ)).matrixStack ∧
      s1.current = some 1 ∧
      (∀ c, c < (State.init (1 : Mat4 ℝ)).heap.length →
        (State.init (1 : Mat4 ℝ)).mMatrix ≠ some c →
        s1.heap[c]? = (State.init (1 : Mat4 ℝ)).heap[c]?) ∧
      ((State.init (1 : Mat4 ℝ)).Separate → s1.Separate ∧
        ∀ c ∈ (State.init (1 : Mat4 ℝ)).matrixStack,
          s1.heap[c]? = (State.init (1 : Mat4 ℝ)).heap[c]?) :=
  ⟨rfl, (balanced_round_trip ⟨Real.sin, Real.cos, Real.sqrt, Real.pi⟩ (State.init 1) 1 rfl).2
    [.pushMatrix, .translate ⟨1, 0, 0⟩, .popMatrix] rfl⟩

end BalanceClaims

section FrameClaims

variable {α : Type} [LinearOrderedField α]

/-- The update of the animation parameters touches neither the matrices nor
the stack. -/
theorem animateUpdate_matrices (s : State α) :
    (animateUpdate s).heap = s.heap ∧ (animateUpdate s).mMatrix = s.mMatrix ∧
      (animateUpdate s).matrixStack = s.matrixStack := by
  by_cases h : |s.translationX + translationSpeed * s.direction| > translationRange
  · simp [animateUpdate, h]
  · simp [animateUpdate, h]

/-- One frame runs from every state whose current transform is defined and
leaves the stack it found. -/
theorem animate_balanced (L : MathLib α) (s : State α) (M : Mat4 α)
    (hs : s.current = some M) :
    ∃ s1 M1, animate L s = some s1 ∧ s1.matrixStack = s.matrixStack ∧
      s1.current = some M1 := by
  obtain ⟨hheap, hcur, hstack⟩ := animateUpdate_matrices s
  have h3 : (animateUpdate s).current = some M := by
    simpa [State.current, hheap, hcur] using hs
  obtain ⟨s4, M4, hrun, hst, hcur4, _⟩ :=
    run_balanced L h3 (balancedFrom_of_flatFrom _ false
      (animateDraws_flat L (animateUpdate s).rotationAngle (animateUpdate s).translationX))
  refine ⟨{ s4 with pending := s4.pending ++ [s4.nextHandle],
                      nextHandle := s4.nextHandle + 1,
                      animation := some s4.nextHandle }, M4, ?_, ?_, ?_⟩
  · simp only [animate, hrun, requestAnimationFrame]
  · simp [hst, hstack]
  · simpa [State.current] using hcur4

/-- C5: frame balance. From every state whose `mMatrix` refers to a matrix
(whatever the stack and the animation parameters are), one execution of
`animate()` runs to its end, the depth of `matrixStack` after it equals its
depth before (the stack is the same list of entries) and `mMatrix` again
refers to a matrix, so the next frame starts the same way. The balance holds
as well for each scene function (`IsSceneFunction`: `drawSky`, `drawSun`,
`drawCloud`, `drawStar`, `drawMountain`, `drawGround`, `drawLines`,
`drawRiver`, `drawRoad`, `drawTrees`, `drawBoat`, `drawFan`, `drawBush`,
`drawHouse`, `drawWheel`, `drawCar`), for all values of its arguments, both
values of the `single` flag of `drawMountain` and of the `move` flags
included. -/
theorem frame_balance (L : MathLib α) (s : State α) (M : Mat4 α) (hs : s.current = some M) :
    (∃ s1 M1, animate L s = some s1 ∧ s1.matrixStack = s.matrixStack ∧
      s1.matrixStack.length = s.matrixStack.length ∧ s1.current = some M1) ∧
    (∀ p : List (Stmt α), IsSceneFunction L p →
      ∃ s1, run L p s = some s1 ∧ s1.matrixStack = s.matrixStack ∧
        s1.matrixStack.length = s.matrixStack.length) := by
  constructor
  · obtain ⟨s1, M1, h1, h2, h3⟩ := animate_balanced L s M hs
    exact ⟨s1, M1, h1, h2, by rw [h2], h3⟩
  · intro p hp
    obtain ⟨s1, M1, h1, h2, _⟩ := run_balanced L hs (balancedFrom_of_flatFrom p false hp.flat)
    exact ⟨s1, h1, h2, by rw [h2]⟩

/-- C5 at a concrete input: the first frame, from the initial state. -/
theorem frame_balance_witness :
    (State.init (0 : Mat4 ℝ)).current = some 0 ∧
    ∃ s1 M1, animate ⟨Real.sin, Real.cos, Real.sqrt, Real.pi⟩ (State.init (0 : Mat4 ℝ)) =
        some s1 ∧
      s1.matrixStack = (State.init (0 : Mat4 ℝ)).matrixStack ∧
      s1.matrixStack.length = (State.init (0 : Mat4 ℝ)).matrixStack.length ∧
      s1.current = some M1 :=
  ⟨rfl, (frame_balance ⟨Real.sin, Real.cos, Real.sqrt, Real.pi⟩ (State.init 0) 0 rfl).1⟩

end FrameClaims

/-! ## Sibling leaves -/

section SiblingClaims

variable {α : Type} [LinearOrderedField α]

/-- C6: sibling independence. From every state whose current transform is
defined:
* the sequence reset to identity; push; translate `A`, then any further matrix
  operations `ops`; draw; pop; push; translate `B`; draw; pop runs to its end
  and hands the renderer two transforms, for the first leaf the identity
  translated by `A` with `ops` applied, for the second leaf
  `translate(identity(), B)`, which depends neither on `A` nor on `ops`;
* every sequence of leaves (pushes and pops alternating), so every scene
  function, hands the renderer for each draw the base in force at the push of
  its leaf composed with that leaf's own operations and nothing else
  (`leafwise`);
* `drawCloud`, `drawSun` and `drawHouse` hand the renderer, leaf by leaf, the
  identity (the transform in force at the first push) composed with the leaf's
  own translate, rotate and scale. -/
theorem sibling_independence (L : MathLib α) (s : State α) (M : Mat4 α)
    (hs : s.current = some M) :
    (∀ (A B : Vec3 α) (ops : List (Stmt α)) (k1 k2 : PrimitiveKind) (c1 c2 : ColorArg α),
      (∀ o ∈ ops, o.isTransform = true) →
      ∃ s1 r1 r2,
        run L ([.identity, .pushMatrix, .translate A] ++ ops ++
          [.draw k1 c1, .popMatrix, .pushMatrix, .translate B, .draw k2 c2, .popMatrix]) s =
          some s1 ∧
        s1.rendered = s.rendered ++ [r1, r2] ∧
        r1.transform = applyAll L ops (mat4.translate mat4.identity A) ∧
        r2.transform = mat4.translate mat4.identity B) ∧
    (∀ p : List (Stmt α), flatFrom false p = true ∨ IsSceneFunction L p →
      ∃ s1, run L p s = some s1 ∧
        s1.rendered = s.rendered ++ leafwise L s.mode p M none s.color) ∧
    (∃ s1, run L drawCloud s = some s1 ∧
      s1.rendered.map (fun r => r.transform) = s.rendered.map (fun r => r.transform) ++
        [ mat4.scale (mat4.translate mat4.identity ⟨-0.82, 0.55, 0⟩) ⟨0.23, 0.13, 1.0⟩,
          mat4.scale (mat4.translate mat4.identity ⟨-0.6, 0.514, 0⟩) ⟨0.17, 0.095, 1.0⟩,
          mat4.scale (mat4.translate mat4.identity ⟨-0.39, 0.515, 0⟩) ⟨0.09, 0.055, 1.0⟩ ]) ∧
    (∀ rotationAngle : α, ∃ s1, run L (drawSun rotationAngle) s = some s1 ∧
      s1.rendered.map (fun r => r.transform) = s.rendered.map (fun r => r.transform) ++
        [ mat4.scale (mat4.translate mat4.identity ⟨-0.68, 0.84, 0⟩) ⟨0.09, 0.09, 1.0⟩,
          mat4.rotate L
            (mat4.scale (mat4.translate mat4.identity ⟨-0.68, 0.84, 0⟩) ⟨0.135, 0.135, 1.0⟩)
            rotationAngle ⟨0, 0, 1⟩ ]) ∧
    (∃ s1, run L drawHouse s = some s1 ∧
      s1.rendered.map (fun r => r.transform) = s.rendered.map (fun r => r.transform) ++
        [ mat4.scale (mat4.translate mat4.identity ⟨-0.57, -0.29, 0⟩) ⟨0.4, 0.2, 1.0⟩,
          mat4.scale (mat4.rotate L (mat4.translate mat4.identity ⟨-0.77, -0.29, 0⟩)
            6.285 ⟨0, 0, 1⟩) ⟨0.25, 0.2, 1.0⟩,
          mat4.scale (mat4.rotate L (mat4.translate mat4.identity ⟨-0.37, -0.29, 0⟩)
            6.285 ⟨0, 0, 1⟩) ⟨0.25, 0.2, 1.0⟩,
          mat4.scale (mat4.translate mat4.identity ⟨-0.57, -0.515, 0⟩) ⟨0.5, 0.25, 1.0⟩,
          mat4.scale (mat4.translate mat4.identity ⟨-0.715, -0.46, 0⟩) ⟨0.07, 0.07, 1.0⟩,
          mat4.scale (mat4.translate mat4.identity ⟨-0.425, -0.46, 0⟩) ⟨0.07, 0.07, 1.0⟩,
          mat4.scale (mat4.translate mat4.identity ⟨-0.57, -0.55, 0⟩) ⟨0.08, 0.18, 1.0⟩ ]) := by
  refine ⟨?_, ?_, ?_, ?_, ?_⟩
  · intro A B ops k1 k2 c1 c2 hops
    have h1 := View.run_transforms L ops hops
      [.draw k1 c1, .popMatrix, .pushMatrix, .translate B, .draw k2 c2, .popMatrix]
      [mat4.identity] s.color s.mode s.console s.rendered (mat4.translate mat4.identity A)
    have hv : ∃ r1 r2 cur, View.run L ([.identity, .pushMatrix, .translate A] ++ ops ++
          [.draw k1 c1, .popMatrix, .pushMatrix, .translate B, .draw k2 c2, .popMatrix])
          (View.start s M) =
          some ⟨cur, [], s.color, s.mode, s.console, s.rendered ++ [r1, r2]⟩ ∧
        r1.transform = applyAll L ops (mat4.translate mat4.identity A) ∧
        r2.transform = mat4.translate mat4.identity B := by
      simp only [View.start, List.cons_append, List.nil_append, List.append_assoc,
        View.run_identity, View.run_pushMatrix, View.run_translate, h1]
      cases c1 <;> cases c2 <;>
        simp only [View.run_draw_global, View.run_draw_loc, View.run_popMatrix,
          View.run_pushMatrix, View.run_translate, View.run_nil, List.append_assoc,
          List.singleton_append] <;>
        exact ⟨_, _, _, rfl, by cases k1 <;> rfl, by cases k2 <;> rfl⟩
    obtain ⟨r1, r2, cur, hrun, hr1, hr2⟩ := hv
    obtain ⟨s1, h2, _, _, h3, _⟩ := run_of_view_closed L hs hrun rfl
    exact ⟨s1, r1, r2, h2, h3, hr1, hr2⟩
  · intro p hp
    have hflat : flatFrom false p = true := hp.elim id IsSceneFunction.flat
    obtain ⟨s1, h1, _, h2⟩ := run_flat L hs hflat
    exact ⟨s1, h1, h2⟩
  · refine run_transforms_of_view L hs _ ?_
    simp only [View.start, drawCloud, View.run_identity, View.run_pushMatrix,
      View.run_setColor, View.run_translate, View.run_scale, View.run_draw_global,
      View.run_popMatrix, View.run_nil]
    exact ⟨_, rfl, rfl, by simp [drawPrimitive, drawCircle]⟩
  · intro rotationAngle
    refine run_transforms_of_view L hs _ ?_
    simp only [View.start, drawSun, View.run_identity, View.run_pushMatrix,
      View.run_setColor, View.run_translate, View.run_scale, View.run_rotate,
      View.run_draw_global, View.run_popMatrix, View.run_nil]
    exact ⟨_, rfl, rfl, by simp [drawPrimitive, drawCircle, drawRays]⟩
  · refine run_transforms_of_view L hs _ ?_
    simp only [View.start, drawHouse, View.run_identity, View.run_pushMatrix,
      View.run_setColor, View.run_translate, View.run_scale, View.run_rotate,
      View.run_draw_global, View.run_popMatrix, View.run_nil]
    exact ⟨_, rfl, rfl, by simp [drawPrimitive, drawSquare, drawTriangle]⟩

/-- C6 at a concrete input, from the initial state: a square translated by
(1, 0, 0) and scaled, then a circle translated by (0, 1, 0); and the three
leaves of `drawCloud`. -/
theorem sibling_independence_witness :
    (State.init (0 : Mat4 ℝ)).current = some 0 ∧
    (∀ o ∈ ([.scale ⟨2, 1, 1⟩] : List (Stmt ℝ)), o.isTransform = true) ∧
    (∃ s1 r1 r2,
      run ⟨Real.sin, Real.cos, Real.sqrt, Real.pi⟩
        ([.identity, .pushMatrix, .translate ⟨1, 0, 0⟩] ++ [.scale ⟨2, 1, 1⟩] ++
          [.draw .Square .global, .popMatrix, .pushMatrix, .translate ⟨0, 1, 0⟩,
           .draw .Circle .global, .popMatrix]) (State.init (0 : Mat4 ℝ)) = some s1 ∧
      s1.rendered = (State.init (0 : Mat4 ℝ)).rendered ++ [r1, r2] ∧
      r1.transform = applyAll ⟨Real.sin, Real.cos, Real.sqrt, Real.pi⟩ [.scale ⟨2, 1, 1⟩]
        (mat4.translate mat4.identity ⟨1, 0, 0⟩) ∧
      r2.transform = mat4.translate mat4.identity ⟨0, 1, 0⟩) ∧
    ∃ s1, run ⟨Real.sin, Real.cos, Real.sqrt, Real.pi⟩ drawCloud (State.init (0 : Mat4 ℝ)) =
        some s1 ∧
      s1.rendered.map (fun r => r.transform) =
        (State.init (0 : Mat4 ℝ)).rendered.map (fun r => r.transform) ++
        [ mat4.scale (mat4.translate mat4.identity ⟨-0.82, 0.55, 0⟩) ⟨0.23, 0.13, 1.0⟩,
          mat4.scale (mat4.translate mat4.identity ⟨-0.6, 0.514, 0⟩) ⟨0.17, 0.095, 1.0⟩,
          mat4.scale (mat4.translate mat4.identity ⟨-0.39, 0.515, 0⟩) ⟨0.09, 0.055, 1.0⟩ ] :=
  have hops : ∀ o ∈ ([.scale ⟨2, 1, 1⟩] : List (Stmt ℝ)), o.isTransform = true := by
    intro o ho
    rw [List.mem_singleton] at ho
    rw [ho]
    rfl
  ⟨rfl, hops,
    (sibling_independence ⟨Real.sin, Real.cos, Real.sqrt, Real.pi⟩ (State.init 0) 0 rfl).1
      ⟨1, 0, 0⟩ ⟨0, 1, 0⟩ [.scale ⟨2, 1, 1⟩] .Square .Circle .global .global hops,
    (sibling_independence ⟨Real.sin, Real.cos, Real.sqrt, Real.pi⟩
      (State.init 0) 0 rfl).2.2.1⟩

end SiblingClaims

/-! ## The matrix operations -/

section MatrixClaims

variable {α : Type} [LinearOrderedField α]

theorem gl_Position_scale_translate (offset factors : Vec3 α) (x y : α) :
    gl_Position (mat4.scale (mat4.translate mat4.identity offset) factors) (x, y) =
      ![offset.x + factors.x * x, offset.y + factors.y * y, offset.z, 1] := by
  funext i
  fin_cases i <;>
    simp [gl_Position, mat4.scale, mat4.translate, mat4.identity, mat4.scaling,
      mat4.translation, Matrix.mulVec, Matrix.dotProduct, Matrix.mul_apply,
      Fin.sum_univ_four, Matrix.one_apply] <;> ring

/-- C7: translate, then scale, in the local frame. From every state whose
current transform is defined, the sequence reset to identity; push; translate
by (1, 0, 0); scale by (2, 1, 1); draw hands the renderer a transform that the
vertex shader applies to the local point (0, 0) as (1, 0, 0, 1) and to (1, 0)
as (3, 0, 0, 1). For every offset and all factors,
`scale(translate(identity(), offset), factors)` takes the local point
(x, y, 0) to (ox + fx·x, oy + fy·y, oz). `drawSky` hands the renderer this
transform with offset (0, 0.6, 0) and factors (3, 1.2, 1). -/
theorem translate_then_scale_local_frame (L : MathLib α) (s : State α) (M : Mat4 α)
    (hs : s.current = some M) :
    (∀ (k : PrimitiveKind) (c : ColorArg α), ∃ s1 r,
      run L [.identity, .pushMatrix, .translate ⟨1, 0, 0⟩, .scale ⟨2, 1, 1⟩, .draw k c] s =
        some s1 ∧
      s1.rendered = s.rendered ++ [r] ∧
      gl_Position r.transform (0, 0) = ![1, 0, 0, 1] ∧
      gl_Position r.transform (1, 0) = ![3, 0, 0, 1]) ∧
    (∀ (offset factors : Vec3 α) (x y : α),
      gl_Position (mat4.scale (mat4.translate mat4.identity offset) factors) (x, y) =
        ![offset.x + factors.x * x, offset.y + factors.y * y, offset.z, 1]) ∧
    (∃ s1 r, run L drawSky s = some s1 ∧ s1.rendered = s.rendered ++ [r] ∧
      r.transform = mat4.scale (mat4.translate mat4.identity ⟨0.0, 0.6, 0⟩) ⟨3.0, 1.2, 1.0⟩ ∧
      ∀ x y : α, gl_Position r.transform (x, y) = ![0.0 + 3.0 * x, 0.6 + 1.2 * y, 0, 1]) := by
  refine ⟨?_, gl_Position_scale_translate, ?_⟩
  · intro k c
    have hv : ∃ r, View.run L
          [.identity, .pushMatrix, .translate ⟨1, 0, 0⟩, .scale ⟨2, 1, 1⟩, .draw k c]
          (View.start s M) =
          some ⟨mat4.scale (mat4.translate mat4.identity ⟨1, 0, 0⟩) ⟨2, 1, 1⟩,
            [mat4.identity], s.color, s.mode, s.console, s.rendered ++ [r]⟩ ∧
        r.transform = mat4.scale (mat4.translate mat4.identity ⟨1, 0, 0⟩) ⟨2, 1, 1⟩ := by
      cases c <;>
        simp only [View.start, View.run_identity, View.run_pushMatrix, View.run_translate,
          View.run_scale, View.run_draw_global, View.run_draw_loc, View.run_nil] <;>
        exact ⟨_, rfl, by cases k <;> rfl⟩
    obtain ⟨r, hrun, hr⟩ := hv
    obtain ⟨s1, refs, r1, h1, hsim⟩ := run_of_view L hs hrun
    refine ⟨s1, r, h1, hsim.rendered, ?_, ?_⟩
    · rw [hr, gl_Position_scale_translate]
      simp
    · rw [hr, gl_Position_scale_translate]
      norm_num
  · have hv : View.run L drawSky (View.start s M) =
        some ⟨mat4.identity, [], some [0.0, 0.0, 0.0, 1.0], s.mode, s.console,
          s.rendered ++ [drawSquare s.mode (some [0.0, 0.0, 0.0, 1.0])
            (mat4.scale (mat4.translate mat4.identity ⟨0.0, 0.6, 0⟩) ⟨3.0, 1.2, 1.0⟩)]⟩ := by
      simp only [View.start, drawSky, View.run_identity, View.run_pushMatrix,
        View.run_setColor, View.run_translate, View.run_scale, View.run_draw_global,
        View.run_popMatrix, View.run_nil, drawPrimitive]
    obtain ⟨s1, h1, _, _, h2, _⟩ := run_of_view_closed L hs hv rfl
    refine ⟨s1, _, h1, h2, rfl, ?_⟩
    intro x y
    exact gl_Position_scale_translate _ _ x y

/-- C7 at a concrete input: the scenario and `drawSky` from the initial state. -/
theorem translate_then_scale_local_frame_witness :
    (State.init (0 : Mat4 ℝ)).current = some 0 ∧
    ∃ s1 r, run ⟨Real.sin, Real.cos, Real.sqrt, Real.pi⟩ drawSky (State.init (0 : Mat4 ℝ)) =
        some s1 ∧
      s1.rendered = (State.init (0 : Mat4 ℝ)).rendered ++ [r] ∧
      r.transform = mat4.scale (mat4.translate mat4.identity ⟨0.0, 0.6, 0⟩) ⟨3.0, 1.2, 1.0⟩ ∧
      ∀ x y : ℝ, gl_Position r.transform (x, y) = ![0.0 + 3.0 * x, 0.6 + 1.2 * y, 0, 1] :=
  ⟨rfl, (translate_then_scale_local_frame ⟨Real.sin, Real.cos, Real.sqrt, Real.pi⟩
    (State.init 0) 0 rfl).2.2⟩

end MatrixClaims

section OrderClaims

/-- The rotation about the z axis, with the sine, cosine and square root of
the reals. -/
theorem rotation_z (θ : ℝ) :
    mat4.rotation ⟨Real.sin, Real.cos, Real.sqrt, Real.pi⟩ θ ⟨0, 0, 1⟩ =
      !![Real.cos θ, -Real.sin θ, 0, 0;
         Real.sin θ, Real.cos θ, 0, 0;
         0, 0, 1, 0;
         0, 0, 0, 1] := by
  ext i j
  fin_cases i <;> fin_cases j <;> simp [mat4.rotation]

/-- C8: composition order matters. For every real angle θ that is no integer
multiple of 2π and every (tx, ty) other than (0, 0), with the sine and cosine
of the reals and `z = [0, 0, 1]`: `translate(rotate(identity(), θ, z), [tx, ty, 0])`
and `rotate(translate(identity(), [tx, ty, 0]), θ, z)` are different matrices;
they agree in the first three columns (the rotational part), and the fourth
column is the rotated offset in the first and the offset itself in the second. -/
theorem composition_order_matters (θ tx ty : ℝ) (hθ : ∀ k : ℤ, θ ≠ k * (2 * Real.pi))
    (ht : (tx, ty) ≠ (0, 0)) :
    mat4.translate (mat4.rotate ⟨Real.sin, Real.cos, Real.sqrt, Real.pi⟩ mat4.identity θ
        ⟨0, 0, 1⟩) ⟨tx, ty, 0⟩ ≠
      mat4.rotate ⟨Real.sin, Real.cos, Real.sqrt, Real.pi⟩
        (mat4.translate mat4.identity ⟨tx, ty, 0⟩) θ ⟨0, 0, 1⟩ ∧
    (∀ i j : Fin 4, j ≠ 3 →
      mat4.translate (mat4.rotate ⟨Real.sin, Real.cos, Real.sqrt, Real.pi⟩ mat4.identity θ
          ⟨0, 0, 1⟩) ⟨tx, ty, 0⟩ i j =
        mat4.rotate ⟨Real.sin, Real.cos, Real.sqrt, Real.pi⟩
          (mat4.translate mat4.identity ⟨tx, ty, 0⟩) θ ⟨0, 0, 1⟩ i j) ∧
    (∀ i : Fin 4,
      mat4.translate (mat4.rotate ⟨Real.sin, Real.cos, Real.sqrt, Real.pi⟩ mat4.identity θ
          ⟨0, 0, 1⟩) ⟨tx, ty, 0⟩ i 3 =
        ![Real.cos θ * tx - Real.sin θ * ty, Real.sin θ * tx + Real.cos θ * ty, 0, 1] i) ∧
    (∀ i : Fin 4,
      mat4.rotate ⟨Real.sin, Real.cos, Real.sqrt, Real.pi⟩
          (mat4.translate mat4.identity ⟨tx, ty, 0⟩) θ ⟨0, 0, 1⟩ i 3 =
        ![tx, ty, 0, 1] i) := by
  have hA : ∀ i : Fin 4,
      mat4.translate (mat4.rotate ⟨Real.sin, Real.cos, Real.sqrt, Real.pi⟩ mat4.identity θ
          ⟨0, 0, 1⟩) ⟨tx, ty, 0⟩ i 3 =
        ![Real.cos θ * tx - Real.sin θ * ty, Real.sin θ * tx + Real.cos θ * ty, 0, 1] i := by
    intro i
    fin_cases i <;>
      simp [mat4.translate, mat4.rotate, mat4.identity, rotation_z, mat4.translation,
        Matrix.mul_apply, Fin.sum_univ_four]
    ring
  have hB : ∀ i : Fin 4,
      mat4.rotate ⟨Real.sin, Real.cos, Real.sqrt, Real.pi⟩
          (mat4.translate mat4.identity ⟨tx, ty, 0⟩) θ ⟨0, 0, 1⟩ i 3 =
        ![tx, ty, 0, 1] i := by
    intro i
    fin_cases i <;>
      simp [mat4.translate, mat4.rotate, mat4.identity, rotation_z, mat4.translation,
        Matrix.mul_apply, Fin.sum_univ_four]
  refine ⟨?_, ?_, hA, hB⟩
  · intro h
    have h0 := hA 0
    have h1 := hA 1
    rw [h, hB] at h0 h1
    simp only [Fin.isValue, Matrix.cons_val_zero, Matrix.cons_val_one, Matrix.head_cons] at h0 h1
    have hq : ((Real.cos θ - 1) ^ 2 + Real.sin θ ^ 2) * tx = 0 ∧
        ((Real.cos θ - 1) ^ 2 + Real.sin θ ^ 2) * ty = 0 := by
      constructor
      · linear_combination (-(Real.cos θ - 1)) * h0 + (-(Real.sin θ)) * h1
      · linear_combination (Real.sin θ) * h0 + (-(Real.cos θ - 1)) * h1
    have hz : (Real.cos θ - 1) ^ 2 + Real.sin θ ^ 2 = 0 := by
      by_contra hne
      rcases hq with ⟨hx, hy⟩
      have hx0 : tx = 0 := (mul_eq_zero.1 hx).resolve_left hne
      have hy0 : ty = 0 := (mul_eq_zero.1 hy).resolve_left hne
      exact ht (by rw [hx0, hy0])
    have hc : Real.cos θ = 1 := by nlinarith [sq_nonneg (Real.cos θ - 1), sq_nonneg (Real.sin θ)]
    obtain ⟨n, hn⟩ := (Real.cos_eq_one_iff θ).1 hc
    exact hθ n hn.symm
  · intro i j hj
    fin_cases i <;> fin_cases j <;>
      first
      | exact absurd rfl hj
      | simp [mat4.translate, mat4.rotate, mat4.identity, rotation_z, mat4.translation,
          Matrix.mul_apply, Fin.sum_univ_four, Matrix.vecHead, Matrix.vecTail]

/-- C8 at a concrete input: a half turn and the offset (1, 0). -/
theorem composition_order_matters_witness :
    (∀ k : ℤ, Real.pi ≠ k * (2 * Real.pi)) ∧ ((1 : ℝ), (0 : ℝ)) ≠ (0, 0) ∧
    mat4.translate (mat4.rotate ⟨Real.sin, Real.cos, Real.sqrt, Real.pi⟩ mat4.identity Real.pi
        ⟨0, 0, 1⟩) ⟨1, 0, 0⟩ ≠
      mat4.rotate ⟨Real.sin, Real.cos, Real.sqrt, Real.pi⟩
        (mat4.translate mat4.identity ⟨1, 0, 0⟩) Real.pi ⟨0, 0, 1⟩ := by
  have h1 : ∀ k : ℤ, Real.pi ≠ k * (2 * Real.pi) := by
    intro k h
    have hpos := Real.pi_pos
    have h2 : (1 : ℝ) = 2 * k := by
      have : Real.pi * 1 = Real.pi * (2 * k) := by linarith
      exact mul_left_cancel₀ (ne_of_gt hpos) this
    have h3 : (1 : ℤ) = 2 * k := by exact_mod_cast h2
    omega
  have h2 : ((1 : ℝ), (0 : ℝ)) ≠ (0, 0) := by simp
  exact ⟨h1, h2, (composition_order_matters Real.pi 1 0 h1 h2).1⟩

end OrderClaims

section NeutralClaims

variable {α : Type} [LinearOrderedField α]

theorem translation_zero : mat4.translation (⟨0, 0, 0⟩ : Vec3 α) = 1 := by
  ext i j
  fin_cases i <;> fin_cases j <;> simp [mat4.translation, Matrix.vecHead, Matrix.vecTail]

theorem scaling_one : mat4.scaling (⟨1, 1, 1⟩ : Vec3 α) = 1 := by
  ext i j
  fin_cases i <;> fin_cases j <;> simp [mat4.scaling, Matrix.vecHead, Matrix.vecTail]

theorem rotation_zero (L : MathLib α) (hsin : L.sin 0 = 0) (hcos : L.cos 0 = 1)
    (axis : Vec3 α) : mat4.rotation L 0 axis = 1 := by
  ext i j
  fin_cases i <;> fin_cases j <;> simp [mat4.rotation, hsin, hcos, Matrix.vecHead, Matrix.vecTail]

/-- C9: neutral elements. With a `Math` object whose sine of 0 is 0 and whose
cosine of 0 is 1, for every transform `t`: `translate(t, [0, 0, 0])` is `t`,
`scale(t, [1, 1, 1])` is `t`, and `rotate(t, 0, axis)` is `t` for every axis.
In the code: from every state whose current transform is defined,
`drawStar(tx, ty, s_x, s_y, 0, size)` runs to its end, and the transform of its
first triangle, which is rotated by `0 + angles[0] = 0`, is
`scale(translate(identity(), [tx, ty, 0]), [s_x * size, s_y * size, 1])`. -/
theorem neutral_elements (L : MathLib α) (hsin : L.sin 0 = 0) (hcos : L.cos 0 = 1)
    (t : Mat4 α) :
    mat4.translate t ⟨0, 0, 0⟩ = t ∧
    mat4.scale t ⟨1, 1, 1⟩ = t ∧
    (∀ axis : Vec3 α, mat4.rotate L t 0 axis = t) ∧
    (∀ (s : State α) (M : Mat4 α) (tx ty s_x s_y size : α), s.current = some M →
      ∃ s1 r rest, run L (drawStar L tx ty s_x s_y 0 size) s = some s1 ∧
        s1.rendered = s.rendered ++ r :: rest ∧
        r.transform =
          mat4.scale (mat4.translate mat4.identity ⟨tx, ty, 0⟩) ⟨s_x * size, s_y * size, 1⟩) := by
  refine ⟨?_, ?_, ?_, ?_⟩
  · rw [mat4.translate, translation_zero, mul_one]
  · rw [mat4.scale, scaling_one, mul_one]
  · intro axis
    rw [mat4.rotate, rotation_zero L hsin hcos, mul_one]
  · intro s M tx ty s_x s_y size hs
    have hv : ∃ a1 r rest, View.run L (drawStar L tx ty s_x s_y 0 size) (View.start s M) =
          some a1 ∧ a1.saved = [] ∧ a1.rendered = s.rendered ++ r :: rest ∧
        r.transform = mat4.scale (mat4.rotate L (mat4.translate mat4.identity ⟨tx, ty, 0⟩)
            (0 + 0) ⟨0, 0, 1⟩) ⟨s_x * size, s_y * size, 1.0⟩ := by
      simp only [View.start, drawStar, View.run_identity, View.run_pushMatrix,
        View.run_translate, View.run_scale, View.run_rotate, View.run_draw_loc,
        View.run_popMatrix, View.run_nil, List.append_assoc, List.singleton_append,
        drawPrimitive, Matrix.cons_val_zero]
      exact ⟨_, _, _, rfl, rfl, rfl, rfl⟩
    obtain ⟨a1, r, rest, ha, hsaved, hrend, hr⟩ := hv
    obtain ⟨s1, h1, _, _, h2, _⟩ := run_of_view_closed L hs ha hsaved
    refine ⟨s1, r, rest, h1, by rw [h2, hrend], ?_⟩
    rw [hr, add_zero, mat4.rotate, rotation_zero L hsin hcos, mul_one]
    norm_num

/-- C9 at a concrete input: the sine and cosine of the reals, and the identity. -/
theorem neutral_elements_witness :
    Real.sin 0 = 0 ∧ Real.cos 0 = 1 ∧
    mat4.translate (1 : Mat4 ℝ) ⟨0, 0, 0⟩ = 1 ∧
    mat4.scale (1 : Mat4 ℝ) ⟨1, 1, 1⟩ = 1 ∧
    (∀ axis : Vec3 ℝ, mat4.rotate ⟨Real.sin, Real.cos, Real.sqrt, Real.pi⟩ 1 0 axis = 1) :=
  ⟨Real.sin_zero, Real.cos_zero,
    (neutral_elements ⟨Real.sin, Real.cos, Real.sqrt, Real.pi⟩ Real.sin_zero Real.cos_zero 1).1,
    (neutral_elements ⟨Real.sin, Real.cos, Real.sqrt, Real.pi⟩ Real.sin_zero
      Real.cos_zero 1).2.1,
    (neutral_elements ⟨Real.sin, Real.cos, Real.sqrt, Real.pi⟩ Real.sin_zero
      Real.cos_zero 1).2.2.1⟩

end NeutralClaims

/-! ## A pop on the empty stack -/

section UnderflowClaims

variable {α : Type} [LinearOrderedField α]

/-- C10, as stated, fails: in the initial state the stack is empty and `mMatrix`
refers to a matrix (here the identity); after `mMatrix = popMatrix(matrixStack)`
the warning is on the console, but `mMatrix` is `undefined`: it is not the
transform it was before the statement, and it is no transform at all. -/
theorem pop_on_empty_stack_loses_mMatrix :
    (State.init (1 : Mat4 ℝ)).matrixStack = [] ∧
    (State.init (1 : Mat4 ℝ)).current = some 1 ∧
    ∃ s1, step ⟨Real.sin, Real.cos, Real.sqrt, Real.pi⟩ .popMatrix (State.init (1 : Mat4 ℝ)) =
        some s1 ∧
      s1.console = ["Stack is empty. No matrix to pop!"] ∧
      s1.mMatrix = none ∧ s1.current = none ∧
      s1.current ≠ (State.init (1 : Mat4 ℝ)).current :=
  ⟨rfl, rfl, _, rfl, rfl, rfl, rfl, by simp [State.current, State.init, step, popMatrix]⟩

/-- C10, amended. When the stack is empty, the statement
`mMatrix = popMatrix(matrixStack)` does not throw, writes the warning on the
console, leaves the stack empty and makes `mMatrix` `undefined`, whatever it
was before: afterwards there is no current transform. Nothing else in the
state changes. -/
theorem pop_on_empty_stack (L : MathLib α) (s : State α) (hs : s.matrixStack = []) :
    ∃ s1, step L .popMatrix s = some s1 ∧
      s1 = { s with mMatrix := none,
                    console := s.console ++ ["Stack is empty. No matrix to pop!"] } ∧
      s1.matrixStack = [] ∧ s1.mMatrix = none ∧ s1.current = none := by
  refine ⟨_, rfl, ?_, ?_, ?_, ?_⟩ <;> simp [popMatrix, hs, State.current]

/-- C10, amended, at a concrete input: the initial state. -/
theorem pop_on_empty_stack_witness :
    (State.init (1 : Mat4 ℝ)).matrixStack = [] ∧
    ∃ s1, step ⟨Real.sin, Real.cos, Real.sqrt, Real.pi⟩ .popMatrix (State.init (1 : Mat4 ℝ)) =
        some s1 ∧
      s1 = { State.init (1 : Mat4 ℝ) with
              mMatrix := none,
              console := (State.init (1 : Mat4 ℝ)).console ++
                ["Stack is empty. No matrix to pop!"] } ∧
      s1.matrixStack = [] ∧ s1.mMatrix = none ∧ s1.current = none :=
  ⟨rfl, pop_on_empty_stack ⟨Real.sin, Real.cos, Real.sqrt, Real.pi⟩ (State.init 1) rfl⟩

end UnderflowClaims

/-! ## The animation -/

section TickClaims

variable {α : Type} [LinearOrderedField α]

/-- C11: the animation tick. Let θ₀ be `rotationAngle` before the first tick
and Δ = `rotationSpeed`. For every N ≥ 1, with `t` the state after N − 1
executions of `animate()` and `u` the state after the N-th: the N-th execution
first brings `rotationAngle` to θ₀ + N·Δ (one increment per tick, before the
draws, which leave it), it then runs the frame with that angle, in which
`drawSun` is called with θ₀ + N·Δ and both `drawFan` calls with −(θ₀ + N·Δ),
and the renderer is handed the rays of the sun turned by θ₀ + N·Δ and the
blades of the two fans turned by −(θ₀ + N·Δ). -/
theorem rotation_angle_after_ticks (L : MathLib α) (s : State α) (M : Mat4 α)
    (hs : s.current = some M) (N : Nat) (hN : 1 ≤ N) :
    ∃ t u, animateTimes L (N - 1) s = some t ∧ animate L t = some u ∧
      animateTimes L N s = some u ∧
      (animateUpdate t).rotationAngle = s.rotationAngle + N * rotationSpeed ∧
      u.rotationAngle = s.rotationAngle + N * rotationSpeed ∧
      (∃ s4, run L
          (animateDraws L (s.rotationAngle + N * rotationSpeed) (animateUpdate t).translationX)
          (animateUpdate t) = some s4 ∧ s4.rendered = u.rendered) ∧
      (∃ mid post : List (Stmt α),
        animateDraws L (s.rotationAngle + N * rotationSpeed) (animateUpdate t).translationX =
          drawSky ++ drawSun (s.rotationAngle + N * rotationSpeed) ++ mid ++
            drawFan (-(s.rotationAngle + N * rotationSpeed)) true 0.0 0.045 0.7 ++
            drawFan (-(s.rotationAngle + N * rotationSpeed)) true (-0.04) 0.05 1 ++ post) ∧
      ∃ A B C D : List (Rendered α),
        u.rendered = t.rendered ++
          (A ++ [drawRays t.mode (some [1.0, 1.0, 1.0, 1.0])
            (mat4.rotate L
              (mat4.scale (mat4.translate mat4.identity ⟨-0.68, 0.84, 0⟩)
                ⟨0.135, 0.135, 1.0⟩)
              (s.rotationAngle + N * rotationSpeed) ⟨0, 0, 1⟩)] ++
          B ++ [drawFanBlades t.mode (some [0.8, 0.65, 0, 1])
            (mat4.rotate L
              (mat4.scale
                (mat4.translate (mat4.translate mat4.identity ⟨0.0, 0.045, 0⟩)
                  ⟨0.7 * 0.7, 0.06 * 0.7, 0⟩)
                ⟨0.2 * 0.7, 0.2 * 0.7, 1.0⟩)
              (-(s.rotationAngle + N * rotationSpeed)) ⟨0, 0, 1⟩)] ++
          C ++ [drawFanBlades t.mode (some [0.8, 0.65, 0, 1])
            (mat4.rotate L
              (mat4.scale
                (mat4.translate (mat4.translate mat4.identity ⟨-0.04, 0.05, 0⟩)
                  ⟨0.7 * 1, 0.06 * 1, 0⟩)
                ⟨0.2 * 1, 0.2 * 1, 1.0⟩)
              (-(s.rotationAngle + N * rotationSpeed)) ⟨0, 0, 1⟩)] ++ D) := by
  obtain ⟨n, rfl⟩ : ∃ n, N = n + 1 := ⟨N - 1, by omega⟩
  obtain ⟨t, Mt, h1, h2, h3, _⟩ := animateTimes_spec L s M hs n
  obtain ⟨s4, M4, f1, f2, _, _, _, _, f7, _, _, _, _, f12⟩ := animate_frame L t Mt h2
  have hangle : (animateUpdate t).rotationAngle = s.rotationAngle + ((n + 1 : ℕ) : α) * rotationSpeed := by
    rw [(animateUpdate_fields t).2.2.2.2.2.2.2.2.2.2.1, h3]
    push_cast
    ring
  rw [hangle] at f1 f12
  obtain ⟨mid, post, _, hsplit⟩ := animateDraws_split L
    (s.rotationAngle + ((n + 1 : ℕ) : α) * rotationSpeed) (animateUpdate t).translationX
  obtain ⟨A, B, C, D, hl⟩ := leafwise_animateDraws L t.mode
    (s.rotationAngle + ((n + 1 : ℕ) : α) * rotationSpeed) (animateUpdate t).translationX Mt t.color
  rw [neg_one_mul] at hsplit hl
  refine ⟨t, _, by simpa using h1, f2, by simp only [animateTimes, h1, f2], hangle, ?_,
    ⟨s4, f1, rfl⟩, ⟨mid, post, ?_⟩, A, B, C, D, ?_⟩
  · exact f7.trans hangle
  · rw [hsplit]
    simp only [List.append_assoc]
  · show s4.rendered = _
    rw [f12, hl]

/-- C11 at a concrete input: the third frame from the initial state. -/
theorem rotation_angle_after_ticks_witness :
    (State.init (0 : Mat4 ℝ)).current = some 0 ∧ 1 ≤ 3 ∧
    ∃ t u, animateTimes ⟨Real.sin, Real.cos, Real.sqrt, Real.pi⟩ 2 (State.init (0 : Mat4 ℝ)) =
        some t ∧
      animate ⟨Real.sin, Real.cos, Real.sqrt, Real.pi⟩ t = some u ∧
      (animateUpdate t).rotationAngle = 0.0 + ((3 : ℕ) : ℝ) * rotationSpeed ∧
      u.rotationAngle = 0.0 + ((3 : ℕ) : ℝ) * rotationSpeed := by
  obtain ⟨t, u, h1, h2, _, h4, h5, _⟩ :=
    rotation_angle_after_ticks ⟨Real.sin, Real.cos, Real.sqrt, Real.pi⟩
      (State.init (0 : Mat4 ℝ)) 0 rfl 3 (by decide)
  exact ⟨rfl, by decide, t, u, h1, h2, h4, h5⟩

end TickClaims

section LoopClaims

variable {α : Type} [LinearOrderedField α]

/-- C12: at most one active animation loop. The host's frame scheduler is the
list of pending callbacks: `requestAnimationFrame` adds one and returns its
handle, which is not 0, `cancelAnimationFrame` removes it, and a fired callback
is removed and runs `animate()`. In every state `s` reached from `webGLStart()`
by an interleaving of frame firings and `changeView(view)` calls, at most one
callback is pending: exactly one, and the global `animation` holds its handle.
In such a state `drawScene()` is the cancellation of that callback, which
leaves nothing pending, followed by `animate()`; and after `drawScene()`, after
`changeView(view)` for every `view`, and after the firing of the callback, the
one pending callback is the new one, the old one is gone, and `animation` holds
the new handle. -/
theorem single_animation_loop (L : MathLib α) (fresh : Mat4 α) (evs : List Event)
    (s0 s : State α) (h0 : webGLStart L (State.init fresh) = some s0)
    (h : runEvents L evs s0 = some s) :
    s.pending.length ≤ 1 ∧
    ∃ handle, s.pending = [handle] ∧ s.animation = some handle ∧ handle ≠ 0 ∧
      drawScene L s = animate L (cancelAnimationFrame s handle) ∧
      (cancelAnimationFrame s handle).pending = [] ∧
      (∃ s1, drawScene L s = some s1 ∧ s1.pending = [s.nextHandle] ∧
        s1.animation = some s.nextHandle ∧ handle ∉ s1.pending) ∧
      (∀ view, ∃ s1, changeView L view s = some s1 ∧ s1.pending = [s.nextHandle] ∧
        s1.animation = some s.nextHandle ∧ handle ∉ s1.pending) ∧
      (∃ s1, fireFrame L handle s = some s1 ∧ s1.pending = [s.nextHandle] ∧
        s1.animation = some s.nextHandle ∧ handle ∉ s1.pending) := by
  obtain ⟨s0', g0, hloop0⟩ := webGLStart_oneLoop L fresh
  rw [h0] at g0
  rw [← Option.some.inj g0] at hloop0
  have hloop : s.OneLoop := runEvents_oneLoop L evs s0 s hloop0 h
  obtain ⟨hM, handle, hp, ha, hne, hlt⟩ := hloop
  have hnot : ∀ l : List Nat, l = [s.nextHandle] → handle ∉ l := by
    intro l hl hmem
    rw [hl, List.mem_singleton] at hmem
    exact absurd hmem (Nat.ne_of_lt hlt)
  refine ⟨by rw [hp]; exact Nat.le_refl _, handle, hp, ha, hne, drawScene_cancels L s handle ha hne,
    by simp [cancelAnimationFrame, hp], ?_, ?_, ?_⟩
  · obtain ⟨s1, h1, _, h3, h4, _⟩ :=
      drawScene_oneLoop L s ⟨hM, handle, hp, ha, hne, hlt⟩
    exact ⟨s1, h1, h3, h4, hnot _ h3⟩
  · intro view
    have hv : State.OneLoop { s with mode := view } := ⟨hM, handle, hp, ha, hne, hlt⟩
    obtain ⟨s1, h1, _, h3, h4, _⟩ := drawScene_oneLoop L _ hv
    exact ⟨s1, h1, h3, h4, hnot _ h3⟩
  · obtain ⟨s1, h1, _, h3, h4⟩ :=
      fireFrame_oneLoop L s ⟨hM, handle, hp, ha, hne, hlt⟩ handle hp
    exact ⟨s1, h1, h3, h4, hnot _ h3⟩

/-- C12 at a concrete input: `webGLStart()`, then `changeView('Wireframe')`. -/
theorem single_animation_loop_witness :
    ∃ s0 s : State ℝ,
      webGLStart ⟨Real.sin, Real.cos, Real.sqrt, Real.pi⟩ (State.init (0 : Mat4 ℝ)) = some s0 ∧
      runEvents ⟨Real.sin, Real.cos, Real.sqrt, Real.pi⟩ [.changeView "Wireframe"] s0 = some s ∧
      s.pending.length ≤ 1 ∧
      ∃ handle, s.pending = [handle] ∧ s.animation = some handle ∧ handle ≠ 0 := by
  obtain ⟨s0, h0, hloop⟩ :=
    webGLStart_oneLoop (⟨Real.sin, Real.cos, Real.sqrt, Real.pi⟩ : MathLib ℝ) 0
  have hv : State.OneLoop { s0 with mode := "Wireframe" } := hloop
  obtain ⟨s, h1, _⟩ := drawScene_oneLoop ⟨Real.sin, Real.cos, Real.sqrt, Real.pi⟩ _ hv
  have hrun : runEvents ⟨Real.sin, Real.cos, Real.sqrt, Real.pi⟩ [.changeView "Wireframe"] s0 =
      some s := by
    have e : changeView ⟨Real.sin, Real.cos, Real.sqrt, Real.pi⟩ "Wireframe" s0 = some s := h1
    simp only [runEvents, Event.run, e]
  obtain ⟨g1, handle, g2, g3, g4, _⟩ :=
    single_animation_loop ⟨Real.sin, Real.cos, Real.sqrt, Real.pi⟩ 0 [.changeView "Wireframe"]
      s0 s h0 hrun
  exact ⟨s0, s, h0, hrun, g1, handle, g2, g3, g4⟩

end LoopClaims

section ModeClaims

variable {α : Type} [LinearOrderedField α]

/-- C13: the display mode is orthogonal to the transform math. For every pair
of mode values, from the same matrices, stack and animation parameters (any
state whose `mMatrix` refers to a matrix), one execution of `animate()` runs to
its end under both modes and hands the renderer the same sequence of (shape,
colour, transform) triples; it leaves the same current transform, stack and
animation parameters, and every other part of the state but the mode the
same. Only the topology differs: there is one list of triples such that the
records added under either mode are what the draw function of the shape
(`drawSquare`, `drawTriangle`, `drawCircle`, `drawRays`, `drawFanBlades`)
returns for the triple under that mode. -/
theorem mode_orthogonal_to_transforms (L : MathLib α) (s : State α) (M : Mat4 α)
    (hs : s.current = some M) (mode1 mode2 : String) :
    ∃ s1 s2, animate L { s with mode := mode1 } = some s1 ∧
      animate L { s with mode := mode2 } = some s2 ∧
      s1.rendered.map Rendered.triple = s2.rendered.map Rendered.triple ∧
      s1.current = s2.current ∧ s1.matrixStack = s2.matrixStack ∧
      s1.translationX = s2.translationX ∧ s1.direction = s2.direction ∧
      s1.rotationAngle = s2.rotationAngle ∧ s1.SameButMode s2 ∧
      s1.mode = mode1 ∧ s2.mode = mode2 ∧
      ∃ l : List (PrimitiveKind × Option (List α) × Mat4 α),
        s1.rendered = s.rendered ++ l.map (fun x => drawPrimitive x.1 mode1 x.2.1 x.2.2) ∧
        s2.rendered = s.rendered ++ l.map (fun x => drawPrimitive x.1 mode2 x.2.1 x.2.2) := by
  have hsame : State.SameButMode { s with mode := mode1 } { s with mode := mode2 } :=
    ⟨rfl, rfl, rfl, rfl, rfl, rfl, rfl, rfl, rfl, rfl, rfl, rfl⟩
  have hs1 : State.current { s with mode := mode1 } = some M := hs
  have hs2 : State.current { s with mode := mode2 } = some M := hs
  obtain ⟨s1, M1, ha1, _, _, _, _, _, _, _, _, hm1, _, hr1⟩ := animate_result L _ M hs1
  obtain ⟨s2, M2, ha2, _, _, _, _, _, _, _, _, hm2, _, hr2⟩ := animate_result L _ M hs2
  have hx : (animateUpdate { s with mode := mode2 }).translationX =
      (animateUpdate { s with mode := mode1 }).translationX := by
    rw [(animateUpdate_fields _).2.2.2.2.2.2.2.2.2.2.2,
      (animateUpdate_fields _).2.2.2.2.2.2.2.2.2.2.2]
  have hangle : (animateUpdate { s with mode := mode2 }).rotationAngle =
      (animateUpdate { s with mode := mode1 }).rotationAngle := by
    rw [(animateUpdate_fields _).2.2.2.2.2.2.2.2.2.2.1,
      (animateUpdate_fields _).2.2.2.2.2.2.2.2.2.2.1]
  rw [hx, hangle] at hr2
  generalize animateDraws L (animateUpdate { s with mode := mode1 }).rotationAngle
    (animateUpdate { s with mode := mode1 }).translationX = p at hr1 hr2
  have h3 : s1.SameButMode s2 := by
    rcases animate_sameButMode L hsame with ⟨h1, _⟩ | ⟨t1, t2, h1, h2, h3⟩
    · rw [ha1] at h1
      exact absurd h1 (by simp)
    · rw [ha1] at h1
      rw [ha2] at h2
      rw [Option.some.inj h1, Option.some.inj h2]
      exact h3
  refine ⟨s1, s2, ha1, ha2, h3.2.2.2.2.2.2.2.2.2.1, h3.current_eq, h3.2.1, h3.2.2.2.2.1,
    h3.2.2.2.2.2.1, h3.2.2.2.2.2.2.1, h3, hm1, hm2,
    (leafwise L mode1 p M none s.color).map Rendered.triple, ?_, ?_⟩
  · rw [hr1, ← leafwise_of_triples L mode1 mode1]
  · rw [hr2, ← leafwise_of_triples L mode2 mode1]

/-- C13 at a concrete input: the first frame in solid view and in point view. -/
theorem mode_orthogonal_to_transforms_witness :
    (State.init (0 : Mat4 ℝ)).current = some 0 ∧
    ∃ s1 s2,
      animate ⟨Real.sin, Real.cos, Real.sqrt, Real.pi⟩
        { State.init (0 : Mat4 ℝ) with mode := "Solid" } = some s1 ∧
      animate ⟨Real.sin, Real.cos, Real.sqrt, Real.pi⟩
        { State.init (0 : Mat4 ℝ) with mode := "Point" } = some s2 ∧
      s1.rendered.map Rendered.triple = s2.rendered.map Rendered.triple ∧
      s1.current = s2.current ∧ s1.matrixStack = s2.matrixStack ∧
      s1.translationX = s2.translationX ∧ s1.direction = s2.direction ∧
      s1.rotationAngle = s2.rotationAngle ∧ s1.SameButMode s2 ∧
      s1.mode = "Solid" ∧ s2.mode = "Point" ∧
      ∃ l : List (PrimitiveKind × Option (List ℝ) × Mat4 ℝ),
        s1.rendered = (State.init (0 : Mat4 ℝ)).rendered ++
          l.map (fun x => drawPrimitive x.1 "Solid" x.2.1 x.2.2) ∧
        s2.rendered = (State.init (0 : Mat4 ℝ)).rendered ++
          l.map (fun x => drawPrimitive x.1 "Point" x.2.1 x.2.2) :=
  ⟨rfl, mode_orthogonal_to_transforms ⟨Real.sin, Real.cos, Real.sqrt, Real.pi⟩
    (State.init 0) 0 rfl "Solid" "Point"⟩

end ModeClaims

section ScaleClaims

variable {α : Type} [LinearOrderedField α]

/-- C14: a zero scale factor is legal and collapses a dimension. In every state
whose `mMatrix` refers to a matrix, `mMatrix = mat4.scale(mMatrix, v)` runs
without an error for every factor vector `v`, zero components included, and
leaves the scaled transform. For every transform `t`, each zero component of
`v` makes the column of its axis zero in `mat4.scale t v`, so the image of a
point does not depend on its coordinate on that axis. The call sites that pass
zero, `drawTrees` (scale `[s_x, s_y, 0]`) and `drawBush` (scale `[s, s, 0]`),
run to their end, and every transform they hand the renderer has a zero third
column. -/
theorem zero_scale_factor_collapses (L : MathLib α) (s : State α) (M : Mat4 α)
    (hs : s.current = some M) (t : Mat4 α) (v : Vec3 α) :
    (∃ s1, step L (.scale v) s = some s1 ∧ s1.current = some (mat4.scale M v)) ∧
    (v.x = 0 → (∀ i, (mat4.scale t v) i 0 = 0) ∧
      ∀ p q : Fin 4 → α, (∀ k, k ≠ 0 → p k = q k) →
        Matrix.mulVec (mat4.scale t v) p = Matrix.mulVec (mat4.scale t v) q) ∧
    (v.y = 0 → (∀ i, (mat4.scale t v) i 1 = 0) ∧
      ∀ p q : Fin 4 → α, (∀ k, k ≠ 1 → p k = q k) →
        Matrix.mulVec (mat4.scale t v) p = Matrix.mulVec (mat4.scale t v) q) ∧
    (v.z = 0 → (∀ i, (mat4.scale t v) i 2 = 0) ∧
      ∀ p q : Fin 4 → α, (∀ k, k ≠ 2 → p k = q k) →
        Matrix.mulVec (mat4.scale t v) p = Matrix.mulVec (mat4.scale t v) q) ∧
    (∀ t_x t_y s_x s_y : α,
      Stmt.scale ⟨s_x, s_y, 0⟩ ∈ drawTrees true t_x t_y s_x s_y ∧
      ∃ s1 new, run L (drawTrees true t_x t_y s_x s_y) s = some s1 ∧
        s1.rendered = s.rendered ++ new ∧ new.length = 4 ∧
        ∀ r ∈ new, (∀ i, r.transform i 2 = 0) ∧
          ∀ p q : Fin 4 → α, (∀ k, k ≠ 2 → p k = q k) →
            Matrix.mulVec r.transform p = Matrix.mulVec r.transform q) ∧
    (∀ t_x t_y sc : α,
      Stmt.scale ⟨sc, sc, 0⟩ ∈ drawBush true t_x t_y sc ∧
      ∃ s1 new, run L (drawBush true t_x t_y sc) s = some s1 ∧
        s1.rendered = s.rendered ++ new ∧ new.length = 3 ∧
        ∀ r ∈ new, (∀ i, r.transform i 2 = 0) ∧
          ∀ p q : Fin 4 → α, (∀ k, k ≠ 2 → p k = q k) →
            Matrix.mulVec r.transform p = Matrix.mulVec r.transform q) := by
  have hz : ∀ (A : Mat4 α) (w : Vec3 α) (i : Fin 4), (mat4.scale A w) i 2 = A i 2 * w.z :=
    fun A w i => (scale_columns A w i).2.2.1
  have ht : ∀ (A : Mat4 α) (w : Vec3 α) (i : Fin 4), (mat4.translate A w) i 2 = A i 2 :=
    fun A w i => (translate_columns A w i).2.2
  refine ⟨?_, ?_, ?_, ?_, ?_, ?_⟩
  · obtain ⟨r, hr, hM⟩ := State.current_eq_some hs
    have hlt : r < s.heap.length := (List.getElem?_eq_some.1 hM).1
    refine ⟨{ s with heap := s.heap.set r (mat4.scale M v) }, ?_, ?_⟩
    · simp [step, State.updateCurrent, hr, hM]
    · simp [State.current, hr, hlt]
  · intro h
    have hcol : ∀ i, (mat4.scale t v) i 0 = 0 := fun i => by
      rw [(scale_columns t v i).1, h, mul_zero]
    exact ⟨hcol, fun p q hpq => mulVec_zero_column _ 0 hcol p q hpq⟩
  · intro h
    have hcol : ∀ i, (mat4.scale t v) i 1 = 0 := fun i => by
      rw [(scale_columns t v i).2.1, h, mul_zero]
    exact ⟨hcol, fun p q hpq => mulVec_zero_column _ 1 hcol p q hpq⟩
  · intro h
    have hcol : ∀ i, (mat4.scale t v) i 2 = 0 := fun i => by
      rw [(scale_columns t v i).2.2.1, h, mul_zero]
    exact ⟨hcol, fun p q hpq => mulVec_zero_column _ 2 hcol p q hpq⟩
  · intro t_x t_y s_x s_y
    refine ⟨by simp [drawTrees], ?_⟩
    obtain ⟨s1, h1, _, h3⟩ := run_flat L hs (drawTrees_flat true t_x t_y s_x s_y)
    refine ⟨s1, _, h1, h3, ?_, ?_⟩
    · simp only [drawTrees, if_true, List.cons_append, List.nil_append, leafwise,
        List.length_cons, List.length_nil]
    · intro r hr
      have hcol : ∀ i, r.transform i 2 = 0 := by
        intro i
        simp only [drawTrees, if_true, List.cons_append, List.nil_append, leafwise, Stmt.apply,
          applyAll, List.foldl, Option.getD, List.mem_cons, List.mem_singleton,
          List.not_mem_nil, or_false] at hr
        rcases hr with hr | hr | hr | hr <;> subst hr <;>
          simp only [drawPrimitive_transform, hz, ht, mul_zero, zero_mul]
      exact ⟨hcol, fun p q hpq => mulVec_zero_column _ 2 hcol p q hpq⟩
  · intro t_x t_y sc
    refine ⟨by simp [drawBush], ?_⟩
    obtain ⟨s1, h1, _, h3⟩ := run_flat L hs (drawBush_flat true t_x t_y sc)
    refine ⟨s1, _, h1, h3, ?_, ?_⟩
    · simp only [drawBush, if_true, List.cons_append, List.nil_append, leafwise,
        List.length_cons, List.length_nil]
    · intro r hr
      have hcol : ∀ i, r.transform i 2 = 0 := by
        intro i
        simp only [drawBush, if_true, List.cons_append, List.nil_append, leafwise, Stmt.apply,
          applyAll, List.foldl, Option.getD, List.mem_cons, List.mem_singleton,
          List.not_mem_nil, or_false] at hr
        rcases hr with hr | hr | hr <;> subst hr <;>
          simp only [drawPrimitive_transform, hz, ht, mul_zero, zero_mul]
      exact ⟨hcol, fun p q hpq => mulVec_zero_column _ 2 hcol p q hpq⟩

/-- C14 at a concrete input: the factors `[2, 3, 0]` in the initial state, and
the first tree of the frame. -/
theorem zero_scale_factor_collapses_witness :
    (State.init (0 : Mat4 ℝ)).current = some 0 ∧
    (∃ s1, step ⟨Real.sin, Real.cos, Real.sqrt, Real.pi⟩ (.scale ⟨2, 3, 0⟩)
        (State.init (0 : Mat4 ℝ)) = some s1 ∧
      s1.current = some (mat4.scale 0 ⟨2, 3, 0⟩)) ∧
    (∀ i, (mat4.scale (1 : Mat4 ℝ) ⟨2, 3, 0⟩) i 2 = 0) ∧
    ∃ s1 new,
      run ⟨Real.sin, Real.cos, Real.sqrt, Real.pi⟩ (drawTrees true 0.35 0.01 0.86 0.85)
        (State.init (0 : Mat4 ℝ)) = some s1 ∧
      s1.rendered = (State.init (0 : Mat4 ℝ)).rendered ++ new ∧ new.length = 4 ∧
      ∀ r ∈ new, (∀ i, r.transform i 2 = 0) ∧
        ∀ p q : Fin 4 → ℝ, (∀ k, k ≠ 2 → p k = q k) →
          Matrix.mulVec r.transform p = Matrix.mulVec r.transform q :=
  ⟨rfl,
    (zero_scale_factor_collapses ⟨Real.sin, Real.cos, Real.sqrt, Real.pi⟩ (State.init 0) 0 rfl
      1 ⟨2, 3, 0⟩).1,
    ((zero_scale_factor_collapses ⟨Real.sin, Real.cos, Real.sqrt, Real.pi⟩ (State.init 0) 0 rfl
      1 ⟨2, 3, 0⟩).2.2.2.1 rfl).1,
    ((zero_scale_factor_collapses ⟨Real.sin, Real.cos, Real.sqrt, Real.pi⟩ (State.init 0) 0 rfl
      1 ⟨2, 3, 0⟩).2.2.2.2.1 0.35 0.01 0.86 0.85).2⟩

end ScaleClaims

section ViewClaims

variable {α : Type} [LinearOrderedField α]

/-- C15: what the code does with the codes named in the comment of
`changeView`. The call `changeView(view)` stores `view` itself in `mode`, and
the draw functions compare `mode` with 'Solid', 'Wireframe' and 'Point'. So for
every `view` that is none of these three words ('p', 'w' and 's' among them),
from every state whose `mMatrix` refers to a matrix, the call runs to its end
with `mode = view`, the redrawn scene starts with the square of the sky, and
every square, triangle and circle of the redrawn scene is issued with no draw
call at all: neither as POINTS, nor as LINE_LOOP, nor as TRIANGLES. -/
theorem changeView_code_selects_no_view (L : MathLib α) (s : State α) (M : Mat4 α)
    (hs : s.current = some M) (view : String) (h1 : view ≠ "Solid")
    (h2 : view ≠ "Wireframe") (h3 : view ≠ "Point") :
    ∃ s1 rest, changeView L view s = some s1 ∧ s1.mode = view ∧
      s1.rendered = s.rendered ++
        drawSquare view (some [0.0, 0.0, 0.0, 1.0])
          (mat4.scale (mat4.translate mat4.identity ⟨0.0, 0.6, 0⟩) ⟨3.0, 1.2, 1.0⟩) :: rest ∧
      (drawSquare view (some [0.0, 0.0, 0.0, 1.0])
          (mat4.scale (mat4.translate mat4.identity ⟨0.0, 0.6, 0⟩)
            (⟨3.0, 1.2, 1.0⟩ : Vec3 α))).calls = [] ∧
      ∀ r ∈ rest, r.kind = .Square ∨ r.kind = .Triangle ∨ r.kind = .Circle → r.calls = [] := by
  obtain ⟨pend, hd, _, _⟩ := drawScene_eq L { s with mode := view }
  have hs1 : State.current { s with mode := view, pending := pend } = some M := hs
  obtain ⟨s1, M1, ha, _, _, _, _, _, _, _, _, hm, _, hr⟩ := animate_result L _ M hs1
  have hcalls : ∀ (k : PrimitiveKind) (col : Option (List α)) (T : Mat4 α),
      k = .Square ∨ k = .Triangle ∨ k = .Circle → (drawPrimitive k view col T).calls = [] := by
    intro k col T hk
    rcases hk with hk | hk | hk <;> subst hk <;>
      simp [drawPrimitive, drawSquare, drawTriangle, drawCircle, h1, h2, h3]
  obtain ⟨q, hq⟩ := animateDraws_sky L
    (animateUpdate { s with mode := view, pending := pend }).rotationAngle
    (animateUpdate { s with mode := view, pending := pend }).translationX
  rw [hq] at hr
  refine ⟨s1, leafwise L view q mat4.identity none (some [0.0, 0.0, 0.0, 1.0]), ?_, hm, ?_,
    hcalls .Square _ _ (Or.inl rfl), ?_⟩
  · simp only [changeView, hd, ha]
  · rw [hr]
    exact congrArg (fun l => s.rendered ++ l) (leafwise_drawSky L view q M s.color)
  · intro r hr1 hk
    obtain ⟨k, col, T, e⟩ := leafwise_records L _ _ _ _ _ r hr1
    subst e
    rw [drawPrimitive_kind] at hk
    exact hcalls k col T hk

/-- C15 at a concrete input: `changeView('p')` in the initial state. -/
theorem changeView_code_selects_no_view_witness :
    (State.init (0 : Mat4 ℝ)).current = some 0 ∧
    ∃ s1 rest, changeView ⟨Real.sin, Real.cos, Real.sqrt, Real.pi⟩ "p"
        (State.init (0 : Mat4 ℝ)) = some s1 ∧ s1.mode = "p" ∧
      s1.rendered = (State.init (0 : Mat4 ℝ)).rendered ++
        drawSquare "p" (some [0.0, 0.0, 0.0, 1.0])
          (mat4.scale (mat4.translate mat4.identity ⟨0.0, 0.6, 0⟩) ⟨3.0, 1.2, 1.0⟩) :: rest ∧
      (drawSquare "p" (some [0.0, 0.0, 0.0, 1.0])
          (mat4.scale (mat4.translate mat4.identity ⟨0.0, 0.6, 0⟩)
            (⟨3.0, 1.2, 1.0⟩ : Vec3 ℝ))).calls = [] ∧
      ∀ r ∈ rest, r.kind = .Square ∨ r.kind = .Triangle ∨ r.kind = .Circle → r.calls = [] :=
  ⟨rfl, changeView_code_selects_no_view ⟨Real.sin, Real.cos, Real.sqrt, Real.pi⟩
    (State.init 0) 0 rfl "p" (by decide) (by decide) (by decide)⟩

end ViewClaims

/-! ## The display mode -/

section TopologyClaims

variable {α : Type}

/-- C16: the table from mode to topology. For the modes 'Solid', 'Wireframe' and
'Point', `drawSquare`, `drawTriangle` and `drawCircle` each issue exactly one
draw call, with the topology TRIANGLES, LINE_LOOP and POINTS, and
`drawFanBlades` exactly one with TRIANGLE_FAN, LINE_LOOP and POINTS. `drawRays`
issues exactly one draw call for every value of the mode, POINTS when the mode
is 'Point' and LINE_STRIP otherwise. For every other value of the mode the four
functions other than `drawRays` issue no draw call. -/
theorem mode_topology_table (color : Option (List α)) (M : Mat4 α) :
    ((drawSquare "Solid" color M).calls = [.TRIANGLES] ∧
      (drawSquare "Wireframe" color M).calls = [.LINE_LOOP] ∧
      (drawSquare "Point" color M).calls = [.POINTS]) ∧
    ((drawTriangle "Solid" color M).calls = [.TRIANGLES] ∧
      (drawTriangle "Wireframe" color M).calls = [.LINE_LOOP] ∧
      (drawTriangle "Point" color M).calls = [.POINTS]) ∧
    ((drawCircle "Solid" color M).calls = [.TRIANGLES] ∧
      (drawCircle "Wireframe" color M).calls = [.LINE_LOOP] ∧
      (drawCircle "Point" color M).calls = [.POINTS]) ∧
    ((drawFanBlades "Solid" color M).calls = [.TRIANGLE_FAN] ∧
      (drawFanBlades "Wireframe" color M).calls = [.LINE_LOOP] ∧
      (drawFanBlades "Point" color M).calls = [.POINTS]) ∧
    ((drawRays "Point" color M).calls = [.POINTS] ∧
      ∀ mode : String, mode ≠ "Point" → (drawRays mode color M).calls = [.LINE_STRIP]) ∧
    (∀ mode : String, mode ≠ "Solid" → mode ≠ "Wireframe" → mode ≠ "Point" →
      (drawSquare mode color M).calls = [] ∧ (drawTriangle mode color M).calls = [] ∧
      (drawCircle mode color M).calls = [] ∧ (drawFanBlades mode color M).calls = []) := by
  refine ⟨⟨rfl, rfl, rfl⟩, ⟨rfl, rfl, rfl⟩, ⟨rfl, rfl, rfl⟩, ⟨rfl, rfl, rfl⟩, ⟨rfl, ?_⟩, ?_⟩
  · intro mode h
    simp [drawRays, h]
  · intro mode h1 h2 h3
    simp [drawSquare, drawTriangle, drawCircle, drawFanBlades, h1, h2, h3]

/-- C16 at a concrete input: the mode 'p', which is none of the three. -/
theorem mode_topology_table_witness :
    ("p" : String) ≠ "Solid" ∧ ("p" : String) ≠ "Wireframe" ∧ ("p" : String) ≠ "Point" ∧
    (drawRays "p" (none : Option (List ℚ)) 1).calls = [.LINE_STRIP] ∧
    (drawSquare "p" (none : Option (List ℚ)) 1).calls = [] ∧
    (drawTriangle "p" (none : Option (List ℚ)) 1).calls = [] ∧
    (drawCircle "p" (none : Option (List ℚ)) 1).calls = [] ∧
    (drawFanBlades "p" (none : Option (List ℚ)) 1).calls = [] :=
  ⟨by decide, by decide, by decide,
    (mode_topology_table (none : Option (List ℚ)) 1).2.2.2.2.1.2 "p" (by decide),
    (mode_topology_table (none : Option (List ℚ)) 1).2.2.2.2.2 "p" (by decide) (by decide)
      (by decide)⟩

end TopologyClaims

section UnderflowClaims

variable {α : Type} [LinearOrderedField α]

/-- C17: no stack underflow within a frame. From every state whose `mMatrix`
refers to a matrix, whatever the stack and the animation parameters are, cut
the statements one execution of `animate()` runs at any point: the statements
before the cut run without an error, and at the cut `mMatrix` refers to a
matrix (so it does at every `mat4` call and every draw call), nothing has been
written to the console, and the stack has its depth at the start of the frame
or one more. When the next statement is `mMatrix = popMatrix(matrixStack)`,
the stack has one entry more than at the start, so it is not empty, and
`popMatrix` logs nothing and returns a matrix. The whole frame writes nothing
to the console. -/
theorem no_stack_underflow_within_frame (L : MathLib α) (s : State α) (M : Mat4 α)
    (hs : s.current = some M) :
    (∀ pre post : List (Stmt α),
      animateDraws L (animateUpdate s).rotationAngle (animateUpdate s).translationX =
        pre ++ post →
      ∃ t Mt, run L pre (animateUpdate s) = some t ∧ t.current = some Mt ∧
        t.console = s.console ∧ s.matrixStack.length ≤ t.matrixStack.length ∧
        t.matrixStack.length ≤ s.matrixStack.length + 1 ∧
        (post.head? = some .popMatrix →
          t.matrixStack.length = s.matrixStack.length + 1 ∧ t.matrixStack ≠ [] ∧
          (popMatrix t.matrixStack).logged = [] ∧ (popMatrix t.matrixStack).value ≠ none)) ∧
    ∃ s1, animate L s = some s1 ∧ s1.console = s.console := by
  obtain ⟨hheap, hcur, hstack, _, _, _, hconsole, _⟩ := animateUpdate_fields s
  have h3 : (animateUpdate s).current = some M := by
    simpa [State.current, hheap, hcur] using hs
  constructor
  · intro pre post hsplit
    have hflat := animateDraws_flat L (animateUpdate s).rotationAngle
      (animateUpdate s).translationX
    rw [hsplit] at hflat
    obtain ⟨t, Mt, inside, hrun, hcurt, hcons, hlen, hpost⟩ := run_cut L h3 pre post hflat
    rw [hstack] at hlen
    refine ⟨t, Mt, hrun, hcurt, by rw [hcons, hconsole], ?_, ?_, ?_⟩
    · rw [hlen]; exact Nat.le_add_right _ _
    · rw [hlen]; cases inside <;> simp
    · intro hpop
      obtain ⟨q, hq⟩ := List.head?_eq_some_iff.1 hpop
      have hin : inside = true := by
        cases inside with
        | true => rfl
        | false => rw [hq] at hpost; simp [flatFrom] at hpost
      rw [hin] at hlen
      have hlen1 : t.matrixStack.length = s.matrixStack.length + 1 := by simpa using hlen
      have hne : t.matrixStack ≠ [] := by
        intro e
        rw [e] at hlen1
        simp at hlen1
      have hpos : t.matrixStack.length > 0 := by rw [hlen1]; exact Nat.succ_pos _
      refine ⟨hlen1, hne, by simp [popMatrix, hpos], ?_⟩
      simp only [popMatrix, hpos, if_true]
      intro e
      exact hne (List.getLast?_eq_none_iff.1 e)
  · obtain ⟨s1, M1, h1, _, _, _, _, _, _, _, _, _, h11, _⟩ := animate_result L s M hs
    exact ⟨s1, h1, h11⟩

/-- C17 at a concrete input: the first frame, from the empty stack, cut before
the first `popMatrix` (the one that ends the sky). -/
theorem no_stack_underflow_within_frame_witness :
    (State.init (0 : Mat4 ℝ)).current = some 0 ∧
    ∃ pre post : List (Stmt ℝ),
      animateDraws ⟨Real.sin, Real.cos, Real.sqrt, Real.pi⟩
          (animateUpdate (State.init (0 : Mat4 ℝ))).rotationAngle
          (animateUpdate (State.init (0 : Mat4 ℝ))).translationX = pre ++ post ∧
      post.head? = some .popMatrix ∧
      ∃ t Mt, run ⟨Real.sin, Real.cos, Real.sqrt, Real.pi⟩ pre
          (animateUpdate (State.init (0 : Mat4 ℝ))) = some t ∧
        t.current = some Mt ∧ t.console = [] ∧ t.matrixStack.length = 1 ∧
        (popMatrix t.matrixStack).logged = [] ∧ (popMatrix t.matrixStack).value ≠ none := by
  obtain ⟨q, hq⟩ := animateDraws_sky (⟨Real.sin, Real.cos, Real.sqrt, Real.pi⟩ : MathLib ℝ)
    (animateUpdate (State.init (0 : Mat4 ℝ))).rotationAngle
    (animateUpdate (State.init (0 : Mat4 ℝ))).translationX
  have hsplit : animateDraws ⟨Real.sin, Real.cos, Real.sqrt, Real.pi⟩
      (animateUpdate (State.init (0 : Mat4 ℝ))).rotationAngle
      (animateUpdate (State.init (0 : Mat4 ℝ))).translationX =
      [.identity, .pushMatrix, .setColor [0.0, 0.0, 0.0, 1.0], .translate ⟨0.0, 0.6, 0⟩,
        .scale ⟨3.0, 1.2, 1.0⟩, .draw .Square .global] ++ (.popMatrix :: q) := by
    rw [hq]
    rfl
  obtain ⟨t, Mt, h1, h2, h3, _, _, h6⟩ :=
    (no_stack_underflow_within_frame ⟨Real.sin, Real.cos, Real.sqrt, Real.pi⟩ (State.init 0) 0
      rfl).1 _ _ hsplit
  obtain ⟨h7, _, h9, h10⟩ := h6 rfl
  exact ⟨rfl, _, _, hsplit, rfl, t, Mt, h1, h2, h3, h7, h9, h10⟩

end UnderflowClaims

section MotionClaims

variable {α : Type} [LinearOrderedField α]

/-- C18: the back-and-forth motion stays bounded. Start from `translationX = 0`
and `direction = 1` (and `mMatrix` referring to a matrix, so that the frames
run). For every number `n` of executions of `animate()`, with `t` the state
after them, `u` the state after the next execution and `v` the state after
the one after that: `direction` is 1 or −1 in `t`, and
`|translationX| ≤ translationRange + translationSpeed = 0.703`; whenever
`|translationX| > translationRange` the direction points back towards 0; the
tick from `t` to `u` adds `translationSpeed * direction` and reverses the
direction exactly when the updated `|translationX|` is greater than
`translationRange` (and leaves it otherwise); and the direction is not reversed
both on that tick and on the next. -/
theorem bounded_back_and_forth (L : MathLib α) (s : State α) (M : Mat4 α)
    (hs : s.current = some M) (hx : s.translationX = 0) (hd : s.direction = 1) (n : Nat) :
    ∃ t u v, animateTimes L n s = some t ∧ animate L t = some u ∧ animate L u = some v ∧
      (t.direction = 1 ∨ t.direction = -1) ∧
      |t.translationX| ≤ translationRange + translationSpeed ∧
      (translationRange + translationSpeed : α) = 0.703 ∧
      (|t.translationX| > translationRange →
        (0 < t.translationX → t.direction = -1) ∧ (t.translationX < 0 → t.direction = 1)) ∧
      u.translationX = t.translationX + translationSpeed * t.direction ∧
      (u.direction = -t.direction ↔ |u.translationX| > translationRange) ∧
      (u.direction = t.direction ↔ ¬ |u.translationX| > translationRange) ∧
      ¬ (u.direction = -t.direction ∧ v.direction = -u.direction) := by
  have hR : (0 : α) < translationRange := translationRange_pos
  have hS : (0 : α) < translationSpeed := translationSpeed_pos
  have hin : s.InBounds := by
    refine ⟨Or.inl hd, ?_, fun h => ?_, fun h => ?_⟩
    · rw [hx, abs_zero]
      linarith
    · rw [hx] at h
      linarith
    · exact hd
  obtain ⟨t, Mt, h1, h2, _, h4, _⟩ := animateTimes_spec L s M hs n
  obtain ⟨td, tb, t1, t2⟩ := h4 hin
  obtain ⟨u, Mu, g1, _, g3, g4, g5, _⟩ := animate_result L t Mt h2
  obtain ⟨v, Mv, k1, _, _, _, k5, _⟩ := animate_result L u Mu g3
  obtain ⟨m1, _, _, _, m5, m6⟩ := motion_step t.translationX t.direction td tb t1 t2
  rw [(animateUpdate_fields t).2.2.2.2.2.2.2.2.2.2.2] at g4
  rw [animateUpdate_direction] at g5 k5
  have hne : ∀ d : α, d = 1 ∨ d = -1 → d ≠ -d := by
    intro d hd1 e
    have h0 : d = 0 := by linarith
    rcases hd1 with h | h <;> rw [h0] at h <;> norm_num at h
  refine ⟨t, u, v, h1, g1, k1, td, tb, by norm_num [translationRange, translationSpeed], ?_, g4,
    ?_, ?_, ?_⟩
  · intro hbig
    constructor
    · intro hpos
      rcases lt_abs.1 hbig with h | h
      · exact t1 h
      · linarith
    · intro hneg
      rcases lt_abs.1 hbig with h | h
      · linarith
      · exact t2 (by linarith)
  · rw [g5, g4]
    exact m5
  · rw [g5, g4]
    by_cases hrev : |t.translationX + translationSpeed * t.direction| > translationRange
    · rw [if_pos hrev]
      constructor
      · intro e
        exact absurd (by linarith) (hne t.direction td)
      · intro h
        exact absurd hrev h
    · rw [if_neg hrev]
      exact ⟨fun _ => hrev, fun _ => rfl⟩
  · rintro ⟨e1, e2⟩
    have hrev : |t.translationX + translationSpeed * t.direction| > translationRange := by
      rw [g5] at e1
      exact m5.1 e1
    have hud : u.direction = t.direction * -1 := by rw [g5, if_pos hrev]
    have hnext : ¬ |u.translationX + translationSpeed * u.direction| > translationRange := by
      rw [g4, hud]
      exact not_lt.2 (m6 hrev)
    rw [k5, if_neg hnext] at e2
    have hu1 : u.direction = 1 ∨ u.direction = -1 := by
      rw [g5]
      exact m1
    exact hne u.direction hu1 e2

/-- C18 at a concrete input: the first three frames from the initial state. -/
theorem bounded_back_and_forth_witness :
    (State.init (0 : Mat4 ℝ)).current = some 0 ∧ (State.init (0 : Mat4 ℝ)).translationX = 0 ∧
    (State.init (0 : Mat4 ℝ)).direction = 1 ∧
    ∃ t u v, animateTimes ⟨Real.sin, Real.cos, Real.sqrt, Real.pi⟩ 1 (State.init (0 : Mat4 ℝ)) =
        some t ∧
      animate ⟨Real.sin, Real.cos, Real.sqrt, Real.pi⟩ t = some u ∧
      animate ⟨Real.sin, Real.cos, Real.sqrt, Real.pi⟩ u = some v ∧
      (t.direction = 1 ∨ t.direction = -1) ∧
      |t.translationX| ≤ translationRange + translationSpeed ∧
      (translationRange + translationSpeed : ℝ) = 0.703 ∧
      (|t.translationX| > translationRange →
        (0 < t.translationX → t.direction = -1) ∧ (t.translationX < 0 → t.direction = 1)) ∧
      u.translationX = t.translationX + translationSpeed * t.direction ∧
      (u.direction = -t.direction ↔ |u.translationX| > translationRange) ∧
      (u.direction = t.direction ↔ ¬ |u.translationX| > translationRange) ∧
      ¬ (u.direction = -t.direction ∧ v.direction = -u.direction) :=
  ⟨rfl, rfl, rfl,
    bounded_back_and_forth ⟨Real.sin, Real.cos, Real.sqrt, Real.pi⟩ (State.init 0) 0 rfl rfl rfl
      1⟩

end MotionClaims

end Render
